import Mathlib

/-!
# gator ring buffers and lifecycle (drivers/gator/gator_main.c)

A shallow embedding of the per-core, per-channel ring buffers of the gator
driver, of the consumer read path, of the start/stop controller, of
`gator_op_setup` and of `gator_add_sample`, with the properties of the
specification stated over it.

Conventions of the embedding.

* The five per-cpu arrays `gator_buffer_read`, `gator_buffer_write`,
  `gator_buffer_commit`, `buffer_space_available` and `gator_buffer` are
  grouped, slot by slot, into one record `Chan`; `percpu cpu buftype` is the
  slot `per_cpu(..., cpu)[buftype]`.
* Cursors are C `int`s that only ever hold `0`, a masked `u32` or a copy of
  another cursor; they are natural numbers here and every difference of two
  cursors is taken in `Int`, as the C code takes it in `int`. All sizes are
  below `2 ^ 31`, so no operation of the model overflows.
* A byte is a natural number; storage is a list of bytes, `none` for a `NULL`
  pointer.
-/

namespace Gator

/-! ## Data model -/

/-- One slot of the per-cpu arrays: the state of one (core, channel) pair. -/
structure Chan where
  /-- `gator_buffer_read`: read position. -/
  read : Nat
  /-- `gator_buffer_write`: write position. -/
  write : Nat
  /-- `gator_buffer_commit`: commit position. -/
  commit : Nat
  /-- `buffer_space_available`: the sticky flag. -/
  space_available : Bool
  /-- `gator_buffer`: the storage, `none` when the pointer is `NULL`. -/
  buffer : Option (List Nat)

/-- The globals of gator_main.c that the buffer code reads and writes. -/
structure State where
  /-- Upper bound of the cpu ids walked by `for_each_present_cpu`. -/
  nr_cpu_ids : Nat
  /-- The present-cpu mask. -/
  cpu_present : Nat → Bool
  /-- `gator_buffer_size[buftype]`. -/
  gator_buffer_size : Nat → Nat
  /-- `gator_buffer_mask[buftype]`. -/
  gator_buffer_mask : Nat → Nat
  /-- The per-cpu slots, `percpu cpu buftype`. -/
  percpu : Nat → Nat → Chan
  /-- `gator_started`. -/
  gator_started : Nat
  /-- `gator_response_type`. -/
  gator_response_type : Nat
  /-- `userspace_buffer_size`. -/
  userspace_buffer_size : Nat
  /-- `gator_cpu_cores`. -/
  gator_cpu_cores : Nat
  /-- Whether `gator_buffer_wake_up_timer` has been armed by `mod_timer`. -/
  wake_up_timer_armed : Bool
  /-- The bytes `marshal_frame(cpu, buftype)` appends (gator_marshaling.c is
  not among the sources, so the marker is a parameter of the model). -/
  frame_marker : Nat → Nat → List Nat

/-- Replace the slot of `(cpu, buftype)`. -/
def State.setChan (g : State) (cpu buftype : Nat) (c : Chan) : State :=
  { g with percpu := fun i j => if i = cpu ∧ j = buftype then c else g.percpu i j }

/-- The cpus walked by `for_each_present_cpu`, in ascending order. -/
def present_cpus (g : State) : List Nat :=
  (List.range g.nr_cpu_ids).filter g.cpu_present

/-! ## Buffer management -/

/-- The bytes between `read` and `write`, the `filled` of
`buffer_bytes_available`: `write - read`, plus the size when negative. -/
def filled (g : State) (cpu buftype : Nat) : Int :=
  let c := g.percpu cpu buftype
  let filled : Int := (c.write : Int) - (c.read : Int)
  if filled < 0 then filled + (g.gator_buffer_size buftype : Int) else filled

/-- `buffer_bytes_available(cpu, buftype)`. -/
def buffer_bytes_available (g : State) (cpu buftype : Nat) : Int :=
  let c := g.percpu cpu buftype
  let filled : Int := (c.write : Int) - (c.read : Int)
  let filled : Int := if filled < 0 then filled + (g.gator_buffer_size buftype : Int) else filled
  let remaining : Int := (g.gator_buffer_size buftype : Int) - filled
  if c.space_available then
    -- Give some extra room; also allows space to insert the overflow error packet
    remaining - 200
  else
    -- Hysteresis, prevents multiple overflow messages
    remaining - 2000

/-- `contiguous_space_available(cpu, buftype)`. -/
def contiguous_space_available (g : State) (cpu buftype : Nat) : Int :=
  let remaining := buffer_bytes_available g cpu buftype
  let contiguous : Int :=
    (g.gator_buffer_size buftype : Int) - ((g.percpu cpu buftype).write : Int)
  if remaining < contiguous then remaining else contiguous

/-- `buffer_check_space(cpu, buftype, bytes)`: the returned flag and the state
with the flag stored. -/
def buffer_check_space (g : State) (cpu buftype : Nat) (bytes : Int) : Bool × State :=
  let remaining := buffer_bytes_available g cpu buftype
  let flag : Bool := if remaining < bytes then false else true
  (flag, g.setChan cpu buftype { g.percpu cpu buftype with space_available := flag })

/-- The loop of `gator_buffer_write_bytes`: store each byte at `write` and step
`write` to `(write + 1) & mask`. -/
def write_loop (mask : Nat) : List Nat → Nat → List Nat → Nat × List Nat
  | [], write, buffer => (write, buffer)
  | b :: x, write, buffer => write_loop mask x ((write + 1) &&& mask) (buffer.set write b)

/-- `gator_buffer_write_bytes(cpu, buftype, x, len)` with `len` the length of
`x`. The result is `none` when the loop would store through a `NULL` buffer. -/
def gator_buffer_write_bytes (g : State) (cpu buftype : Nat) (x : List Nat) : Option State :=
  let c := g.percpu cpu buftype
  let mask := g.gator_buffer_mask buftype
  match x, c.buffer with
  | [], _ => some g
  | _ :: _, none => none
  | _ :: _, some buffer =>
    let r := write_loop mask x c.write buffer
    some (g.setChan cpu buftype { c with write := r.1, buffer := some r.2 })

/-- Modelled from the spec: `marshal_frame(cpu, buftype)`, defined in
gator_marshaling.c, which is not among the sources. The spec has it write "an
initial frame marker per core/channel" (gator_start: "Initialize the buffer
with the frame type and core"). It is called for every slot, the `NULL`
annotation slots of the cores above 0 included, so it does nothing there;
elsewhere it appends the marker `frame_marker cpu buftype` at `write`, as the
producer's write path does. -/
def marshal_frame (g : State) (cpu buftype : Nat) : State :=
  match (g.percpu cpu buftype).buffer with
  | none => g
  | some _ => (gator_buffer_write_bytes g cpu buftype (g.frame_marker cpu buftype)).getD g

/-- Byte `byte` of the `int` `length`: `(length >> byte * 8) & 0xFF`. -/
def length_byte (length : Int) (byte : Nat) : Nat :=
  ((length / (2 : Int) ^ (byte * 8)) % 256).toNat

/-- The backpatch loop of `gator_commit_buffer`: for each `byte` of the list
(`0, 1, 2, 3`: `byte < sizeof(int)`), store byte `byte` of `length` at
`(commit + type_length + byte) & mask`. -/
def backpatch (mask commit type_length : Nat) (length : Int) :
    List Nat → List Nat → List Nat
  | [], buffer => buffer
  | byte :: rest, buffer =>
    backpatch mask commit type_length length rest
      (buffer.set ((commit + type_length + byte) &&& mask) (length_byte length byte))

/-- `gator_commit_buffer(cpu, buftype)`. -/
def gator_commit_buffer (g : State) (cpu buftype : Nat) : State :=
  let c := g.percpu cpu buftype
  match c.buffer with
  | none => g
  | some buffer =>
    -- post-populate the length, which does not include the response type
    -- length nor the length itself, i.e. only the length of the payload
    let type_length : Nat := if g.gator_response_type ≠ 0 then 1 else 0
    let commit := c.commit
    let length : Int := (c.write : Int) - (commit : Int)
    let length : Int := if length < 0 then length + (g.gator_buffer_size buftype : Int) else length
    let length : Int := length - (type_length : Int) - 4
    let buffer := backpatch (g.gator_buffer_mask buftype) commit type_length length [0, 1, 2, 3] buffer
    let g := g.setChan cpu buftype { c with commit := c.write, buffer := some buffer }
    let g := marshal_frame g cpu buftype
    { g with wake_up_timer_armed := true }

/-- `buffer_check(cpu, buftype)`. -/
def buffer_check (g : State) (cpu buftype : Nat) : State :=
  let c := g.percpu cpu buftype
  let filled : Int := (c.write : Int) - (c.commit : Int)
  let filled : Int := if filled < 0 then filled + (g.gator_buffer_size buftype : Int) else filled
  if filled ≥ (((g.gator_buffer_size buftype * 3) / 4 : Nat) : Int) then
    gator_commit_buffer g cpu buftype
  else g

/-! ## Commit interface and the consumer read path -/

/-- `NUM_GATOR_BUFS`, the number of channel kinds. -/
def NUM_GATOR_BUFS : Nat := 9

/-- The inner loop of `buffer_commit_ready`: the first `x` of the list whose
commit position differs from its read position on `cpu_x`. -/
def first_pending_buf (g : State) (cpu_x : Nat) : List Nat → Option Nat
  | [] => none
  | x :: xs =>
    if (g.percpu cpu_x x).commit ≠ (g.percpu cpu_x x).read then some x
    else first_pending_buf g cpu_x xs

/-- The outer loop of `buffer_commit_ready` over the cpus of the list. -/
def first_pending (g : State) : List Nat → Option (Nat × Nat)
  | [] => none
  | cpu_x :: cpus =>
    match first_pending_buf g cpu_x (List.range NUM_GATOR_BUFS) with
    | some x => some (cpu_x, x)
    | none => first_pending g cpus

/-- `buffer_commit_ready(&cpu, &buftype)`: the returned flag and the two output
arguments, which keep the values passed in when nothing is pending. -/
def buffer_commit_ready (g : State) (cpu buftype : Int) : Bool × Int × Int :=
  match first_pending g (present_cpus g) with
  | some (cpu_x, x) => (true, (cpu_x : Int), (x : Int))
  | none => (false, cpu, buftype)

/-- `EINTR`. -/
def EINTR : Int := 4
/-- `EFAULT`. -/
def EFAULT : Int := 14
/-- `EINVAL`. -/
def EINVAL : Int := 22

/-- The sizes of the two halves `userspace_buffer_read` copies: `length1`
bytes from `read` on and `length2` bytes from the start of the storage. -/
def span_lengths (size read commit : Nat) : Int × Int :=
  let length1 : Int := (commit : Int) - (read : Int)
  if length1 < 0 then ((size : Int) - (read : Int), (commit : Int)) else (length1, 0)

/-- The body of `userspace_buffer_read` under `gator_buffer_mutex` once a pair
`(cpu, buftype)` has been selected (from the load of `read` and `commit` to
`out:`): the return value, the bytes copied to the caller and the new state.
`fault` says that `copy_to_user` fails. -/
def drain (g : State) (cpu buftype : Nat) (fault : Bool) : Int × List Nat × State :=
  let c := g.percpu cpu buftype
  let read := c.read
  let commit := c.commit
  match c.buffer with
  | none =>
    -- May happen if the buffer is freed during pending reads.
    (-EFAULT, [], g)
  | some buffer =>
    -- determine the size of two halves
    let l := span_lengths (g.gator_buffer_size buftype) read commit
    let buffer1 := buffer.drop read
    let buffer2 := buffer
    if (l.1 > 0 ∨ l.2 > 0) ∧ fault = true then (-EFAULT, [], g)
    else
      -- start, middle or end
      let out1 := if l.1 > 0 then buffer1.take l.1.toNat else []
      -- possible wrap around
      let out2 := if l.2 > 0 then buffer2.take l.2.toNat else []
      (l.1 + l.2, out1 ++ out2, g.setChan cpu buftype { c with read := commit })

/-- `userspace_buffer_read(file, buf, count, offset)`. `offset` is the value
of `*offset`, `signal` says that a signal is pending for the caller and
`fault` that `copy_to_user` fails. The result is `none` while the call sleeps
in `wait_event_interruptible` (nothing pending, still started, no signal);
otherwise it is the return value, the bytes copied to `buf` and the new
state. -/
def userspace_buffer_read (g : State) (count offset : Nat) (signal fault : Bool) :
    Option (Int × List Nat × State) :=
  -- do not handle partial reads
  if count ≠ g.userspace_buffer_size ∨ offset ≠ 0 then some (-EINVAL, [], g)
  else
    let r := buffer_commit_ready g (-1) (-1)
    let cpu := r.2.1
    let buftype := r.2.2
    if r.1 = false ∧ g.gator_started ≠ 0 ∧ signal = false then none
    else if signal = true then some (-EINTR, [], g)
    else if buftype = -1 ∨ cpu = -1 then some (0, [], g)
    else some (drain g cpu.toNat buftype.toNat fault)

/-! ## Runs of operations on one (core, channel) pair -/

/-- The calls made on one (core, channel) pair. -/
inductive Op where
  /-- `gator_buffer_write_bytes(cpu, buftype, x, len)`, not checked. -/
  | write (x : List Nat)
  /-- `buffer_check_space(cpu, buftype, bytes)`. -/
  | check_space (bytes : Int)
  /-- `buffer_check_space(cpu, buftype, len)` and, when it returns true,
  `gator_buffer_write_bytes(cpu, buftype, x, len)`. -/
  | checked_write (x : List Nat)
  /-- `gator_commit_buffer(cpu, buftype)`. -/
  | commit
  /-- `buffer_check(cpu, buftype)`. -/
  | check
  /-- A `userspace_buffer_read` that selects the pair and whose copy succeeds. -/
  | read

/-- What a call lets its caller observe. -/
inductive Obs where
  /-- A `buffer_check_space` call: the free space `size - filled` it found,
  the bytes asked for and the flag it returned. -/
  | checked (free bytes : Int) (flag : Bool)
  /-- The bytes one read copied to the consumer. -/
  | delivered (out : List Nat)

/-- One call on `(cpu, buftype)`: the new state and what was observed; `none`
when a write stores through a `NULL` buffer. -/
def step (cpu buftype : Nat) (g : State) : Op → Option (State × List Obs)
  | .write x => (gator_buffer_write_bytes g cpu buftype x).map fun g' => (g', [])
  | .check_space bytes =>
    let r := buffer_check_space g cpu buftype bytes
    some (r.2, [.checked ((g.gator_buffer_size buftype : Int) - filled g cpu buftype) bytes r.1])
  | .checked_write x =>
    let r := buffer_check_space g cpu buftype x.length
    let obs := [Obs.checked ((g.gator_buffer_size buftype : Int) - filled g cpu buftype)
      x.length r.1]
    if r.1 = true then (gator_buffer_write_bytes r.2 cpu buftype x).map fun g' => (g', obs)
    else some (r.2, obs)
  | .commit => some (gator_commit_buffer g cpu buftype, [])
  | .check => some (buffer_check g cpu buftype, [])
  | .read =>
    let r := drain g cpu buftype false
    some (r.2.2, [.delivered r.2.1])

/-- A sequence of calls on `(cpu, buftype)`, with everything observed, in
order. -/
def exec (cpu buftype : Nat) : List Op → State → Option (State × List Obs)
  | [], g => some (g, [])
  | op :: ops, g =>
    match step cpu buftype g op with
    | none => none
    | some (g1, obs) =>
      match exec cpu buftype ops g1 with
      | none => none
      | some (g2, obs') => some (g2, obs ++ obs')

/-- The `buffer_check_space` calls among the observations. -/
def checks : List Obs → List (Int × Int × Bool)
  | [] => []
  | .checked free bytes flag :: l => (free, bytes, flag) :: checks l
  | .delivered _ :: l => checks l

/-- The bytes delivered to the consumer, all reads concatenated. -/
def delivered : List Obs → List Nat
  | [] => []
  | .checked _ _ _ :: l => delivered l
  | .delivered out :: l => out ++ delivered l

/-- A frame as it stands in the buffer once committed: the bytes written since
the last commit, with the four bytes after the response type (those of them
the frame has) holding the payload length, low byte first. -/
def seal_frame (type_length : Nat) (frame : List Nat) : List Nat :=
  let length : Int := (frame.length : Int) - (type_length : Int) - 4
  (((frame.set type_length (length_byte length 0)).set (type_length + 1)
    (length_byte length 1)).set (type_length + 2) (length_byte length 2)).set
      (type_length + 3) (length_byte length 3)

/-- The frames a sequence of writes, commits and reads commits, in commit
order: `cur` holds what has been written since the last commit; a commit seals
it and `marshal_frame` starts the next frame with the marker. -/
def frames (type_length : Nat) (marker : List Nat) : List Op → List Nat → List (List Nat)
  | [], _ => []
  | .write x :: ops, cur => frames type_length marker ops (cur ++ x)
  | .commit :: ops, cur => seal_frame type_length cur :: frames type_length marker ops marker
  | _ :: ops, cur => frames type_length marker ops cur

/-- The committed payload in commit order, as the bytes handed to
`gator_buffer_write_bytes`: what was written before each commit, `cur` holding
what has been written since the last one. -/
def committed_payload : List Op → List Nat → List Nat
  | [], _ => []
  | .write x :: ops, cur => committed_payload ops (cur ++ x)
  | .commit :: ops, cur => cur ++ committed_payload ops []
  | _ :: ops, cur => committed_payload ops cur

/-- The sequence holds writes, commits and reads only. -/
def plain : List Op → Bool
  | [] => true
  | .write _ :: ops => plain ops
  | .commit :: ops => plain ops
  | .read :: ops => plain ops
  | _ :: _ => false

/-- The bytes a call appends stay within `buffer_bytes_available`: those of an
unchecked write and, for a commit and for a buffer check (which may commit),
those of the frame marker that `marshal_frame` appends. -/
def op_fits (cpu buftype : Nat) (g : State) : Op → Bool
  | .write x => decide ((x.length : Int) ≤ buffer_bytes_available g cpu buftype)
  | .commit =>
    decide (((g.frame_marker cpu buftype).length : Int) ≤ buffer_bytes_available g cpu buftype)
  | .check =>
    decide (((g.frame_marker cpu buftype).length : Int) ≤ buffer_bytes_available g cpu buftype)
  | _ => true

/-- Every call of the sequence fits, each in the state it is made in. -/
def fits (cpu buftype : Nat) : List Op → State → Bool
  | [], _ => true
  | op :: ops, g =>
    op_fits cpu buftype g op &&
      match step cpu buftype g op with
      | some (g1, _) => fits cpu buftype ops g1
      | none => true

/-- The bytes a call appends without a space check leave the slot short of
full: for an unchecked write and for the frame marker of a commit or of a
buffer check, `filled` plus their number is below the capacity. -/
def op_room (cpu buftype : Nat) (g : State) : Op → Bool
  | .write x => decide (filled g cpu buftype + (x.length : Int) < (g.gator_buffer_size buftype : Int))
  | .commit =>
    decide (filled g cpu buftype + ((g.frame_marker cpu buftype).length : Int)
      < (g.gator_buffer_size buftype : Int))
  | .check =>
    decide (filled g cpu buftype + ((g.frame_marker cpu buftype).length : Int)
      < (g.gator_buffer_size buftype : Int))
  | _ => true

/-- Every call of the sequence has room, each in the state it is made in. -/
def has_room (cpu buftype : Nat) : List Op → State → Bool
  | [], _ => true
  | op :: ops, g =>
    op_room cpu buftype g op &&
      match step cpu buftype g op with
      | some (g1, _) => has_room cpu buftype ops g1
      | none => true

/-! ## The start/stop controller -/

/-- The hooks of a `struct gator_interface` that start and stop use: `start`
is `none` for a `NULL` hook and otherwise the value the hook returns, `stop`
says whether the hook is set. -/
structure gator_interface where
  start : Option Int
  stop : Bool

/-- A call the controller makes to a collaborator; data source `i` is the
`i`-th entry of `gator_events`, in registration order. -/
inductive Call where
  | marshal_frame (cpu buftype : Nat)
  | gator_summary
  | event_start (i : Nat)
  | event_stop (i : Nat)
  /-- The call `cookies_initialize()`. -/
  | cookies_init
  | cookies_release
  | annotate_start
  | annotate_stop
  | trace_sched_start
  | trace_sched_stop
  | trace_power_start
  | trace_power_stop
  | trace_gpu_start
  | trace_gpu_stop
  | hrtimer_init
  | hrtimer_shutdown
  | timer_online_dispatch (cpu : Nat)
  | timer_online
  | timer_offline
  | timer_offline_dispatch (cpu : Nat)
  | register_hotcpu_notifier
  | register_pm_notifier
  | unregister_pm_notifier
  | unregister_hotcpu_notifier
  | wake_up
  deriving DecidableEq

/-- What the collaborators answer, and the machine. -/
structure Env where
  /-- `gator_events`, in registration order. -/
  events : List gator_interface
  /-- The cpus of `for_each_present_cpu`. -/
  present : List Nat
  /-- The cpus of `for_each_online_cpu`. -/
  online : List Nat
  /-- What `cookies_initialize()` returns. -/
  cookies_init : Int
  annotate_start : Int
  trace_sched_start : Int
  trace_power_start : Int
  trace_gpu_start : Int
  hrtimer_init : Int
  register_hotcpu_notifier : Int
  register_pm_notifier : Int

/-- The controller's own state, and the calls it has made so far, oldest
first. The controller is modelled apart from the buffers: what `marshal_frame`
and `gator_summary` write is not followed here, only that they are called. -/
structure Life where
  gator_started : Nat
  gator_running : Nat
  calls : List Call

/-- Record a call. -/
def Life.call (s : Life) (c : Call) : Life := { s with calls := s.calls ++ [c] }

/-- Record a list of calls, in order. -/
def Life.callAll (s : Life) (cs : List Call) : Life := { s with calls := s.calls ++ cs }

/-- The walk back from `gi->list.prev` to the head of the list after a failed
start hook: `prev` holds the sources before the failing one, nearest first, so
the head of `prev` has index `prev.length - 1`. -/
def stop_previous : List gator_interface → Life → Life
  | [], s => s
  | gi :: prev, s => stop_previous prev (if gi.stop then s.call (.event_stop prev.length) else s)

/-- The loop "start all events" of `gator_start`: `prev` holds the sources
already passed, nearest first. The flag says that a start hook failed (the
`goto events_failure`). -/
def start_events : List gator_interface → List gator_interface → Life → Bool × Life
  | _, [], s => (false, s)
  | prev, gi :: rest, s =>
    match gi.start with
    | none => start_events (gi :: prev) rest s
    | some r =>
      let s := s.call (.event_start prev.length)
      if r ≠ 0 then (true, stop_previous prev s) else start_events (gi :: prev) rest s

/-- The loop "stop all events" of `gator_start` and `gator_stop`:
`list_for_each_entry` from the head, `i` being the index of the first source
of the list. -/
def stop_events : Nat → List gator_interface → Life → Life
  | _, [], s => s
  | i, gi :: rest, s => stop_events (i + 1) rest (if gi.stop then s.call (.event_stop i) else s)

/-- `gator_timer_stop()`. -/
def gator_timer_stop (env : Env) (s : Life) : Life :=
  if s.gator_running ≠ 0 then
    let s := s.call .timer_offline
    let s := s.callAll (env.online.map .timer_offline_dispatch)
    let s := { s with gator_running := 0 }
    s.call .hrtimer_shutdown
  else s

/-- `gator_timer_start(sample_rate)`. -/
def gator_timer_start (env : Env) (s : Life) : Int × Life :=
  if s.gator_running ≠ 0 then
    -- pr_notice("gator: already running\n")
    (0, s)
  else
    let s := { s with gator_running := 1 }
    let s := s.call .hrtimer_init
    if env.hrtimer_init = -1 then (-1, s)
    else
      let s := s.callAll (env.online.map .timer_online_dispatch)
      (0, s.call .timer_online)

/-- `gator_notifier_start()`. -/
def gator_notifier_start (env : Env) (s : Life) : Int × Life :=
  let s := s.call .register_hotcpu_notifier
  let retval := env.register_hotcpu_notifier
  if retval = 0 then (env.register_pm_notifier, s.call .register_pm_notifier)
  else (retval, s)

/-- `gator_notifier_stop()`. -/
def gator_notifier_stop (s : Life) : Life :=
  (s.call .unregister_pm_notifier).call .unregister_hotcpu_notifier

/-- The failure labels of `gator_start`, numbered from the bottom:
`events_failure` is 0, `cookies_failure` 1, `annotate_failure` 2,
`sched_failure` 3, `power_failure` 4, `gpu_failure` 5, `timer_failure` 6 and
`notifier_failure` 7. Entering at a label runs it and every label below. -/
def start_unwind (env : Env) (label : Nat) (s : Life) : Life :=
  let s := if 7 ≤ label then gator_timer_stop env s else s
  let s := if 6 ≤ label then s.call .trace_gpu_stop else s
  let s := if 5 ≤ label then s.call .trace_power_stop else s
  let s := if 4 ≤ label then s.call .trace_sched_stop else s
  let s := if 3 ≤ label then s.call .annotate_stop else s
  let s := if 2 ≤ label then s.call .cookies_release else s
  -- stop all events
  if 1 ≤ label then stop_events 0 env.events s else s

/-- `gator_start()`. -/
def gator_start (env : Env) (s : Life) : Int × Life :=
  -- Initialize the buffer with the frame type and core
  let s := s.callAll (env.present.flatMap fun cpu =>
    (List.range NUM_GATOR_BUFS).map fun i => Call.marshal_frame cpu i)
  -- Capture the start time
  let s := s.call .gator_summary
  -- start all events
  let r := start_events [] env.events s
  if r.1 = true then (-1, start_unwind env 0 r.2)
  else
    let s := r.2
    -- cookies shall be initialized before trace_sched_start() and gator_timer_start()
    let s := s.call .cookies_init
    if env.cookies_init ≠ 0 then (-1, start_unwind env 1 s)
    else
      let s := s.call .annotate_start
      if env.annotate_start ≠ 0 then (-1, start_unwind env 2 s)
      else
        let s := s.call .trace_sched_start
        if env.trace_sched_start ≠ 0 then (-1, start_unwind env 3 s)
        else
          let s := s.call .trace_power_start
          if env.trace_power_start ≠ 0 then (-1, start_unwind env 4 s)
          else
            let s := s.call .trace_gpu_start
            if env.trace_gpu_start ≠ 0 then (-1, start_unwind env 5 s)
            else
              let t := gator_timer_start env s
              if t.1 ≠ 0 then (-1, start_unwind env 6 t.2)
              else
                let n := gator_notifier_start env t.2
                if n.1 ≠ 0 then (-1, start_unwind env 7 n.2)
                else (0, n.2)

/-- `gator_stop()`. -/
def gator_stop (env : Env) (s : Life) : Life :=
  let s := s.call .annotate_stop
  let s := s.call .trace_sched_stop
  let s := s.call .trace_power_stop
  let s := s.call .trace_gpu_stop
  -- stop all interrupt callback reads before tearing down other interfaces
  let s := gator_notifier_stop s
  let s := gator_timer_stop env s
  -- stop all events
  stop_events 0 env.events s

/-- `gator_op_start()`. -/
def gator_op_start (env : Env) (s : Life) : Int × Life :=
  if s.gator_started ≠ 0 then (-EINVAL, s)
  else
    let r := gator_start env s
    if r.1 ≠ 0 then (-EINVAL, r.2)
    else (0, { r.2 with gator_started := 1 })

/-- `gator_op_stop()`. -/
def gator_op_stop (env : Env) (s : Life) : Life :=
  if s.gator_started ≠ 0 then
    let s := gator_stop env s
    let s := { s with gator_started := 0 }
    let s := s.call .cookies_release
    s.call .wake_up
  else s

/-! ## The configured capacities, setup and the files entry -/

/-- The capacity `SUMMARY_BUFFER_SIZE`. -/
def SUMMARY_BUFFER_SIZE : Nat := 1 * 1024
/-- The capacity `BACKTRACE_BUFFER_SIZE`. -/
def BACKTRACE_BUFFER_SIZE : Nat := 128 * 1024
/-- The capacity `NAME_BUFFER_SIZE`. -/
def NAME_BUFFER_SIZE : Nat := 64 * 1024
/-- The capacity `COUNTER_BUFFER_SIZE`. -/
def COUNTER_BUFFER_SIZE : Nat := 64 * 1024
/-- The capacity `BLOCK_COUNTER_BUFFER_SIZE`. -/
def BLOCK_COUNTER_BUFFER_SIZE : Nat := 128 * 1024
/-- The capacity `ANNOTATE_BUFFER_SIZE`. -/
def ANNOTATE_BUFFER_SIZE : Nat := 64 * 1024
/-- The capacity `SCHED_TRACE_BUFFER_SIZE`. -/
def SCHED_TRACE_BUFFER_SIZE : Nat := 128 * 1024
/-- The capacity `GPU_TRACE_BUFFER_SIZE`. -/
def GPU_TRACE_BUFFER_SIZE : Nat := 64 * 1024
/-- The capacity `IDLE_BUFFER_SIZE`. -/
def IDLE_BUFFER_SIZE : Nat := 32 * 1024

/-- The channel `SUMMARY_BUF` of the anonymous `enum`. -/
def SUMMARY_BUF : Nat := 0
/-- The channel `BACKTRACE_BUF`. -/
def BACKTRACE_BUF : Nat := 1
/-- The channel `NAME_BUF`. -/
def NAME_BUF : Nat := 2
/-- The channel `COUNTER_BUF`. -/
def COUNTER_BUF : Nat := 3
/-- The channel `BLOCK_COUNTER_BUF`. -/
def BLOCK_COUNTER_BUF : Nat := 4
/-- The channel `ANNOTATE_BUF`. -/
def ANNOTATE_BUF : Nat := 5
/-- The channel `SCHED_TRACE_BUF`. -/
def SCHED_TRACE_BUF : Nat := 6
/-- The channel `GPU_TRACE_BUF`. -/
def GPU_TRACE_BUF : Nat := 7
/-- The channel `IDLE_BUF`. -/
def IDLE_BUF : Nat := 8

/-- The error number `ENOEXEC`. -/
def ENOEXEC : Int := 8
/-- The error number `ENOMEM`. -/
def ENOMEM : Int := 12

/-- The capacity `gator_op_setup` assigns to each channel, from the
`#define`s of the source; 0 for an index that is no channel. -/
def configured_size (buftype : Nat) : Nat :=
  if buftype = SUMMARY_BUF then SUMMARY_BUFFER_SIZE
  else if buftype = BACKTRACE_BUF then BACKTRACE_BUFFER_SIZE
  else if buftype = NAME_BUF then NAME_BUFFER_SIZE
  else if buftype = COUNTER_BUF then COUNTER_BUFFER_SIZE
  else if buftype = BLOCK_COUNTER_BUF then BLOCK_COUNTER_BUFFER_SIZE
  else if buftype = ANNOTATE_BUF then ANNOTATE_BUFFER_SIZE
  else if buftype = SCHED_TRACE_BUF then SCHED_TRACE_BUFFER_SIZE
  else if buftype = GPU_TRACE_BUF then GPU_TRACE_BUFFER_SIZE
  else if buftype = IDLE_BUF then IDLE_BUFFER_SIZE
  else 0

/-- The slot as the loop of `gator_op_setup` leaves it: the three cursors 0,
the flag true, and the given storage. -/
def fresh_chan (buffer : Option (List Nat)) : Chan :=
  { read := 0, write := 0, commit := 0, space_available := true, buffer := buffer }

/-- The body of `for_each_present_cpu` in `gator_op_setup` for channel `i`,
over the cpus still to visit. `vmalloc cpu i` is the outcome of the allocation
made for the slot: `none` when it fails, else the bytes the fresh storage
happens to hold, by position. The flag is false after a failed allocation (the
`goto setup_error`). -/
def setup_cpus (vmalloc : Nat → Nat → Option (Nat → Nat)) (i : Nat) :
    List Nat → State → Bool × State
  | [], g => (true, g)
  | cpu :: rest, g =>
    -- Annotation is a special case that only uses a single buffer
    if cpu > 0 ∧ i = ANNOTATE_BUF then
      setup_cpus vmalloc i rest (g.setChan cpu i (fresh_chan none))
    else
      match vmalloc cpu i with
      | none => (false, g.setChan cpu i (fresh_chan none))
      | some bytes =>
        setup_cpus vmalloc i rest (g.setChan cpu i
          (fresh_chan (some ((List.range (g.gator_buffer_size i)).map bytes))))

/-- The loop over the channels in `gator_op_setup`, over the channels still to
visit; the result is `err` and the state at `setup_error` or at the end. -/
def setup_bufs (vmalloc : Nat → Nat → Option (Nat → Nat)) : List Nat → State → Int × State
  | [], g => (0, g)
  | i :: rest, g =>
    -- Verify buffers are a power of 2
    if g.gator_buffer_size i &&& (g.gator_buffer_size i - 1) ≠ 0 then (-ENOEXEC, g)
    else
      let r := setup_cpus vmalloc i (present_cpus g) g
      if r.1 = true then setup_bufs vmalloc rest r.2 else (-ENOMEM, r.2)

/-- `gator_op_setup()`. The nine `#define`d capacities are passed as the table
`sizes`, so that the check of the capacities can be stated for any
configuration; the source's table is `configured_size`. -/
def gator_op_setup (sizes : Nat → Nat) (vmalloc : Nat → Nat → Option (Nat → Nat))
    (g : State) : Int × State :=
  let g := { g with
    gator_buffer_size := fun i => if i < NUM_GATOR_BUFS then sizes i else g.gator_buffer_size i
    gator_buffer_mask := fun i =>
      if i < NUM_GATOR_BUFS then sizes i - 1 else g.gator_buffer_mask i }
  setup_bufs vmalloc (List.range NUM_GATOR_BUFS) g

/-- `gator_op_create_files(sb, root)`, its assignments to the globals: the
count of the present cpus, the transfer unit size and the response type. The
files it then creates are not followed. -/
def gator_op_create_files (g : State) : State :=
  { g with
    gator_cpu_cores := (present_cpus g).foldl (fun n _ => n + 1) 0
    userspace_buffer_size := BACKTRACE_BUFFER_SIZE
    gator_response_type := 1 }

/-! ## Sampling -/

/-- The part of `struct pt_regs` a sample reads: `user_mode(regs)` and
`PC_REG`. -/
structure pt_regs where
  user_mode : Bool
  pc : Nat

/-- What a sample hands to the marshalling layer. -/
inductive Emit where
  | backtrace_header (exec_cookie tgid pid : Nat) (inKernel : Bool)
  | backtrace (address cookie : Nat)
  | backtrace_footer
  deriving DecidableEq

/-- The collaborators of a sample. -/
structure SampleEnv where
  /-- The id `current->tgid`. -/
  tgid : Nat
  /-- The id `current->pid`. -/
  pid : Nat
  /-- `get_exec_cookie(cpu, current)`. -/
  get_exec_cookie : Nat → Nat
  /-- `get_address_cookie(cpu, current, address, &offset)`: the cookie it
  returns and the offset it leaves. -/
  get_address_cookie : Nat → Nat → Nat × Nat
  /-- What `marshal_backtrace_header` returns: whether the header was
  accepted. -/
  marshal_backtrace_header : Bool
  /-- The records `kernel_backtrace(cpu, regs)` emits. -/
  kernel_backtrace : Nat → pt_regs → List (Nat × Nat)
  /-- The addresses `arm_backtrace_eabi(cpu, regs, depth)` passes to
  `gator_add_trace`. -/
  arm_backtrace_eabi : Nat → pt_regs → Nat → List Nat

/-- The cookie `NO_COOKIE`. -/
def NO_COOKIE : Nat := 0
/-- The cookie `INVALID_COOKIE`, `~0U`. -/
def INVALID_COOKIE : Nat := 2 ^ 32 - 1

/-- `gator_add_trace(cpu, address)`; `x & ~1` clears the lowest bit. -/
def gator_add_trace (env : SampleEnv) (cpu address : Nat) : List Emit :=
  let r := env.get_address_cookie cpu (address - address % 2)
  let cookie := r.1
  let offset := if cookie = NO_COOKIE ∨ cookie = INVALID_COOKIE then address else r.2
  [Emit.backtrace (offset - offset % 2) cookie]

/-- `gator_add_sample(cpu, regs)`: what it emits, in order. A header that is
rejected emits nothing. -/
def gator_add_sample (env : SampleEnv) (gator_backtrace_depth cpu : Nat)
    (regs : Option pt_regs) : List Emit :=
  match regs with
  | none => []
  | some regs =>
    let inKernel := !regs.user_mode
    let exec_cookie := env.get_exec_cookie cpu
    if env.marshal_backtrace_header = false then []
    else
      [Emit.backtrace_header exec_cookie env.tgid env.pid inKernel]
      ++ (if inKernel = true then
            (env.kernel_backtrace cpu regs).map fun r => Emit.backtrace r.1 r.2
          else
            -- Cookie+PC
            gator_add_trace env cpu regs.pc
            -- Backtrace
            ++ (if gator_backtrace_depth ≠ 0 then
                  (env.arm_backtrace_eabi cpu regs gator_backtrace_depth).flatMap
                    (gator_add_trace env cpu)
                else []))
      ++ [Emit.backtrace_footer]

/-! ## Auxiliary definitions for the statements -/

/-- What no call on a slot other than `buffer_check_space` changes: the
configuration, the sticky flag of the slot, and whether and how much storage
the slot has. -/
structure Keeps (g g' : State) (cpu buftype : Nat) : Prop where
  size : g'.gator_buffer_size = g.gator_buffer_size
  mask : g'.gator_buffer_mask = g.gator_buffer_mask
  response_type : g'.gator_response_type = g.gator_response_type
  marker : g'.frame_marker = g.frame_marker
  flag : (g'.percpu cpu buftype).space_available = (g.percpu cpu buftype).space_available
  storage : (g'.percpu cpu buftype).buffer.map List.length
    = (g.percpu cpu buftype).buffer.map List.length

/-- The length of the frame marker kept for the response type:
`gator_response_type ? 1 : 0`. -/
def type_length (g : State) : Nat := if g.gator_response_type ≠ 0 then 1 else 0

/-- The payload length `gator_commit_buffer` stores: the bytes written since
the last commit, less the response type and the four bytes of the length. -/
def payload_length (g : State) (cpu buftype : Nat) : Int :=
  (if ((g.percpu cpu buftype).write : Int) - ((g.percpu cpu buftype).commit : Int) < 0
    then ((g.percpu cpu buftype).write : Int) - ((g.percpu cpu buftype).commit : Int)
      + (g.gator_buffer_size buftype : Int)
    else ((g.percpu cpu buftype).write : Int) - ((g.percpu cpu buftype).commit : Int))
  - (type_length g : Int) - 4

/-- The slot as `gator_commit_buffer` leaves it before it calls
`marshal_frame`: the length stored, `commit` moved to `write`. -/
def committed (g : State) (cpu buftype : Nat) (buffer : List Nat) : Chan :=
  { g.percpu cpu buftype with
    commit := (g.percpu cpu buftype).write
    buffer := some (backpatch (g.gator_buffer_mask buftype) (g.percpu cpu buftype).commit
      (type_length g) (payload_length g cpu buftype) [0, 1, 2, 3] buffer) }

/-- The circular distance from cursor `a` to cursor `b` in a buffer of `size`
bytes: `(b - a) mod size`. -/
def dist (size a b : Nat) : Nat := (((b : Int) - (a : Int)) % (size : Int)).toNat

/-- The bytes of `buffer` from position `start` on, `n` of them, wrapping at
`size`. -/
def ring_slice (buffer : List Nat) (size start n : Nat) : List Nat :=
  (List.range n).map fun i => buffer.getD ((start + i) % size) 0

/-- The pair `(cpu, buftype)` has committed bytes the consumer has not read. -/
def pending (g : State) (cpu buftype : Nat) : Prop :=
  (g.percpu cpu buftype).commit ≠ (g.percpu cpu buftype).read

instance (g : State) (cpu buftype : Nat) : Decidable (pending g cpu buftype) := by
  unfold pending
  infer_instance

/-- The slot `(cpu, buftype)` is a ring of capacity `2 ^ k` that holds, from
`read` on, the committed bytes `u` the consumer has not read, followed by the
bytes `c` written since the last commit. -/
structure Inv (g : State) (cpu buftype k : Nat) (u c : List Nat) : Prop where
  size : g.gator_buffer_size buftype = 2 ^ k
  mask : g.gator_buffer_mask buftype = 2 ^ k - 1
  read : (g.percpu cpu buftype).read < 2 ^ k
  commit : (g.percpu cpu buftype).commit = ((g.percpu cpu buftype).read + u.length) % 2 ^ k
  write : (g.percpu cpu buftype).write
    = ((g.percpu cpu buftype).read + u.length + c.length) % 2 ^ k
  room : u.length + c.length < 2 ^ k
  content : ∃ buffer, (g.percpu cpu buftype).buffer = some buffer ∧ buffer.length = 2 ^ k
    ∧ ∀ i, i < u.length + c.length →
        buffer[((g.percpu cpu buftype).read + i) % 2 ^ k]?.getD 0 = (u ++ c)[i]?.getD 0

/-- The cursors of the slot `(cpu, buftype)` stand in circular order in a
buffer of capacity `2 ^ k` with storage: `commit` is `a` positions after
`read` and `write` is `b` positions after `commit`, `a + b` being below the
capacity. -/
structure Ordered (g : State) (cpu buftype k a b : Nat) : Prop where
  size : g.gator_buffer_size buftype = 2 ^ k
  mask : g.gator_buffer_mask buftype = 2 ^ k - 1
  read : (g.percpu cpu buftype).read < 2 ^ k
  commit : (g.percpu cpu buftype).commit = ((g.percpu cpu buftype).read + a) % 2 ^ k
  write : (g.percpu cpu buftype).write = ((g.percpu cpu buftype).read + a + b) % 2 ^ k
  room : a + b < 2 ^ k
  storage : ∃ buffer, (g.percpu cpu buftype).buffer = some buffer

/-- The index of the data source a call stops, for a call to a stop hook. -/
def stop_index : Call → Option Nat
  | .event_stop i => some i
  | _ => none

/-- The stop calls of the walk back after a failed start hook. -/
def prev_stops : List gator_interface → List Call
  | [] => []
  | gi :: prev => (if gi.stop then [Call.event_stop prev.length] else []) ++ prev_stops prev

/-- The index of the data source a call starts, for a call to a start hook. -/
def start_index : Call → Option Nat
  | .event_start i => some i
  | _ => none

/-- The indices of the data sources that have a stop hook, in registration
order. -/
def stop_hooks (events : List gator_interface) : List Nat :=
  (events.enum.filter fun q => q.2.stop).map Prod.fst

/-- The indices of the data sources that have a start hook, in registration
order. -/
def start_hooks (events : List gator_interface) : List Nat :=
  (events.enum.filter fun q => q.2.start.isSome).map Prod.fst

/-- The projection `p` of the calls sees only the calls to start and stop
hooks. -/
def event_only (p : Call → Option Nat) : Prop :=
  ∀ c, (∀ i, c ≠ Call.event_start i) → (∀ i, c ≠ Call.event_stop i) → p c = none

/-- A machine with one present and online core and the given data sources,
every other collaborator answering success. -/
def example_env (events : List gator_interface) : Env where
  events := events
  present := [0]
  online := [0]
  cookies_init := 0
  annotate_start := 0
  trace_sched_start := 0
  trace_power_start := 0
  trace_gpu_start := 0
  hrtimer_init := 0
  register_hotcpu_notifier := 0
  register_pm_notifier := 0

/-- The controller before any start: stopped, no call made. -/
def idle : Life := { gator_started := 0, gator_running := 0, calls := [] }

/-- The slot `(cpu, i)` asks `gator_op_setup` for storage: every slot but the
annotation channel of a core other than core 0. -/
def needs_storage (cpu i : Nat) : Bool := !(decide (cpu > 0) && decide (i = ANNOTATE_BUF))

/-- The storage `gator_op_setup` gives the slot `(cpu, i)` of a channel of
`size` bytes when it gets that far without a failure. -/
def setup_storage (vmalloc : Nat → Nat → Option (Nat → Nat)) (size cpu i : Nat) :
    Option (List Nat) :=
  if needs_storage cpu i = true then (vmalloc cpu i).map fun bytes => (List.range size).map bytes
  else none

/-! ## A concrete state for the examples -/

/-- A machine with two present cores whose channels all have capacity
`2 ^ k`, every slot holding `c`, with a response type and a seven-byte frame
marker (response type, four bytes kept for the length, frame type, core). -/
def example_state (k : Nat) (c : Chan) : State where
  nr_cpu_ids := 2
  cpu_present := fun _ => true
  gator_buffer_size := fun _ => 2 ^ k
  gator_buffer_mask := fun _ => 2 ^ k - 1
  percpu := fun _ _ => c
  gator_started := 1
  gator_response_type := 1
  userspace_buffer_size := 2 ^ k
  gator_cpu_cores := 2
  wake_up_timer_armed := false
  frame_marker := fun cpu buftype => [1, 0, 0, 0, 0, buftype + 1, cpu]

/-- A slot with the given storage and cursors, its flag true. -/
def example_chan (buffer : List Nat) (read commit write : Nat) : Chan :=
  { read := read, write := write, commit := commit, space_available := true,
    buffer := some buffer }

/-- Seven rounds of: write 40 bytes, commit, read. With the seven-byte marker
that follows each commit, the writes run over the end of a buffer of 256 bytes
in the sixth round. -/
def example_rounds : List Op :=
  (List.replicate 7 [Op.write (List.range 40), Op.commit, Op.read]).flatten

/-! ## Basic facts -/

@[simp] theorem percpu_setChan_same (g : State) (cpu buftype : Nat) (c : Chan) :
    (g.setChan cpu buftype c).percpu cpu buftype = c := by
  simp [State.setChan]

theorem percpu_setChan_other (g : State) (cpu buftype i j : Nat) (c : Chan)
    (h : ¬ (i = cpu ∧ j = buftype)) :
    (g.setChan cpu buftype c).percpu i j = g.percpu i j := by
  simp [State.setChan, h]

@[simp] theorem size_setChan (g : State) (cpu buftype : Nat) (c : Chan) :
    (g.setChan cpu buftype c).gator_buffer_size = g.gator_buffer_size := rfl

@[simp] theorem mask_setChan (g : State) (cpu buftype : Nat) (c : Chan) :
    (g.setChan cpu buftype c).gator_buffer_mask = g.gator_buffer_mask := rfl

@[simp] theorem response_type_setChan (g : State) (cpu buftype : Nat) (c : Chan) :
    (g.setChan cpu buftype c).gator_response_type = g.gator_response_type := rfl

@[simp] theorem frame_marker_setChan (g : State) (cpu buftype : Nat) (c : Chan) :
    (g.setChan cpu buftype c).frame_marker = g.frame_marker := rfl

/-- A sum below twice the size is reduced modulo the size by at most one
subtraction. -/
theorem add_mod_cases (a s : Nat) (h : a < 2 * s) :
    a % s = if a < s then a else a - s := by
  split_ifs with h1
  · exact Nat.mod_eq_of_lt h1
  · rw [Nat.mod_eq_sub_mod (by omega)]
    exact Nat.mod_eq_of_lt (by omega)

/-- Stepping a cursor once and then `n` times is stepping it `n + 1` times. -/
theorem step_mod (w n s : Nat) : ((w + 1) % s + n) % s = (w + (n + 1)) % s := by
  rw [Nat.add_mod, Nat.mod_mod, ← Nat.add_mod]
  congr 1
  omega

/-- The write loop leaves the cursor at `(write + len) mod size`. -/
theorem write_loop_cursor (k : Nat) (x : List Nat) (w : Nat) (buffer : List Nat) :
    (write_loop (2 ^ k - 1) x w buffer).1 = if x = [] then w else (w + x.length) % 2 ^ k := by
  induction x generalizing w buffer with
  | nil => simp [write_loop]
  | cons b x ih =>
    simp only [write_loop, ih, Nat.and_pow_two_sub_one_eq_mod, List.length_cons]
    by_cases hx : x = []
    · subst hx; simp
    · simp only [hx, if_false, reduceCtorEq]
      exact step_mod w x.length (2 ^ k)

/-- The write loop keeps the length of the storage. -/
theorem write_loop_length (mask : Nat) (x : List Nat) (w : Nat) (buffer : List Nat) :
    (write_loop mask x w buffer).2.length = buffer.length := by
  induction x generalizing w buffer with
  | nil => simp [write_loop]
  | cons b x ih => simp [write_loop, ih]

/-- The backpatch loop keeps the length of the storage. -/
theorem backpatch_length (mask commit type_length : Nat) (length : Int) (l buffer : List Nat) :
    (backpatch mask commit type_length length l buffer).length = buffer.length := by
  induction l generalizing buffer with
  | nil => simp [backpatch]
  | cons b l ih => simp [backpatch, ih]

theorem Keeps.refl (g : State) (cpu buftype : Nat) : Keeps g g cpu buftype :=
  ⟨rfl, rfl, rfl, rfl, rfl, rfl⟩

theorem Keeps.trans {g g1 g2 : State} {cpu buftype : Nat}
    (h1 : Keeps g g1 cpu buftype) (h2 : Keeps g1 g2 cpu buftype) : Keeps g g2 cpu buftype :=
  ⟨h2.size.trans h1.size, h2.mask.trans h1.mask, h2.response_type.trans h1.response_type,
    h2.marker.trans h1.marker, h2.flag.trans h1.flag, h2.storage.trans h1.storage⟩

theorem keeps_write (g g' : State) (cpu buftype : Nat) (x : List Nat)
    (h : gator_buffer_write_bytes g cpu buftype x = some g') : Keeps g g' cpu buftype := by
  unfold gator_buffer_write_bytes at h
  cases x with
  | nil =>
    simp only [Option.some.injEq] at h
    subst h
    exact Keeps.refl _ _ _
  | cons b x =>
    cases hb : (g.percpu cpu buftype).buffer with
    | none => simp [hb] at h
    | some buffer =>
      simp only [hb, Option.some.injEq] at h
      subst h
      exact ⟨rfl, rfl, rfl, rfl, by simp, by simp [hb, write_loop_length]⟩

theorem keeps_marshal_frame (g : State) (cpu buftype : Nat) :
    Keeps g (marshal_frame g cpu buftype) cpu buftype := by
  cases hb : (g.percpu cpu buftype).buffer with
  | none => simp only [marshal_frame, hb]; exact Keeps.refl _ _ _
  | some buffer =>
    simp only [marshal_frame, hb]
    cases hw : gator_buffer_write_bytes g cpu buftype (g.frame_marker cpu buftype) with
    | none => exact Keeps.refl _ _ _
    | some g' => exact keeps_write g g' cpu buftype _ hw

theorem commit_none (g : State) (cpu buftype : Nat)
    (hb : (g.percpu cpu buftype).buffer = none) : gator_commit_buffer g cpu buftype = g := by
  simp only [gator_commit_buffer, hb]

theorem commit_some (g : State) (cpu buftype : Nat) (buffer : List Nat)
    (hb : (g.percpu cpu buftype).buffer = some buffer) :
    gator_commit_buffer g cpu buftype =
      { marshal_frame (g.setChan cpu buftype (committed g cpu buftype buffer)) cpu buftype with
        wake_up_timer_armed := true } := by
  simp only [gator_commit_buffer, hb]
  rfl

theorem keeps_commit (g : State) (cpu buftype : Nat) :
    Keeps g (gator_commit_buffer g cpu buftype) cpu buftype := by
  cases hb : (g.percpu cpu buftype).buffer with
  | none => rw [commit_none g cpu buftype hb]; exact Keeps.refl _ _ _
  | some buffer =>
    rw [commit_some g cpu buftype buffer hb]
    have h1 := keeps_marshal_frame (g.setChan cpu buftype (committed g cpu buftype buffer))
      cpu buftype
    refine ⟨h1.size, h1.mask, h1.response_type, h1.marker, ?_, ?_⟩
    · exact h1.flag.trans (by simp [committed])
    · exact h1.storage.trans (by simp [committed, hb, backpatch_length])

theorem buffer_check_cases (g : State) (cpu buftype : Nat) :
    buffer_check g cpu buftype = gator_commit_buffer g cpu buftype
      ∨ buffer_check g cpu buftype = g := by
  unfold buffer_check
  simp only
  split_ifs <;> simp

theorem keeps_check (g : State) (cpu buftype : Nat) :
    Keeps g (buffer_check g cpu buftype) cpu buftype := by
  rcases buffer_check_cases g cpu buftype with h | h <;> rw [h]
  · exact keeps_commit g cpu buftype
  · exact Keeps.refl _ _ _

/-- The state a read leaves: untouched, or `read` moved to `commit`. -/
theorem drain_state_cases (g : State) (cpu buftype : Nat) (fault : Bool) :
    (drain g cpu buftype fault).2.2 = g
      ∨ (drain g cpu buftype fault).2.2 = g.setChan cpu buftype
          { g.percpu cpu buftype with read := (g.percpu cpu buftype).commit } := by
  cases hb : (g.percpu cpu buftype).buffer with
  | none => simp [drain, hb]
  | some buffer =>
    simp only [drain, hb]
    split
    · exact Or.inl rfl
    · exact Or.inr rfl

theorem keeps_drain (g : State) (cpu buftype : Nat) (fault : Bool) :
    Keeps g (drain g cpu buftype fault).2.2 cpu buftype := by
  rcases drain_state_cases g cpu buftype fault with h | h <;> rw [h]
  · exact Keeps.refl _ _ _
  · exact ⟨rfl, rfl, rfl, rfl, by simp, by simp⟩

/-- What `buffer_bytes_available` returns, through `filled`. -/
theorem buffer_bytes_available_eq (g : State) (cpu buftype : Nat) :
    buffer_bytes_available g cpu buftype =
      (g.gator_buffer_size buftype : Int) - filled g cpu buftype
        - (if (g.percpu cpu buftype).space_available then 200 else 2000) := by
  unfold buffer_bytes_available filled
  by_cases h : (g.percpu cpu buftype).space_available = true <;> simp [h]

/-- `filled` only looks at the two cursors of the slot and at the size. -/
theorem filled_congr (g g' : State) (cpu buftype : Nat)
    (hr : (g'.percpu cpu buftype).read = (g.percpu cpu buftype).read)
    (hw : (g'.percpu cpu buftype).write = (g.percpu cpu buftype).write)
    (hs : g'.gator_buffer_size buftype = g.gator_buffer_size buftype) :
    filled g' cpu buftype = filled g cpu buftype := by
  simp [filled, hr, hw, hs]

/-- With cursors inside the buffer, `filled` lies in `[0, size)`. -/
theorem filled_range (g : State) (cpu buftype : Nat)
    (hr : (g.percpu cpu buftype).read < g.gator_buffer_size buftype)
    (hw : (g.percpu cpu buftype).write < g.gator_buffer_size buftype) :
    0 ≤ filled g cpu buftype ∧ filled g cpu buftype < g.gator_buffer_size buftype := by
  unfold filled
  simp only
  split_ifs <;> constructor <;> omega

/-- The state a write to non-null storage returns, in closed form. -/
theorem write_bytes_some (g : State) (cpu buftype : Nat) (x buffer : List Nat)
    (hbuf : (g.percpu cpu buftype).buffer = some buffer) :
    gator_buffer_write_bytes g cpu buftype x =
      some (if x = [] then g else
        g.setChan cpu buftype
          { g.percpu cpu buftype with
            write := (write_loop (g.gator_buffer_mask buftype) x
              (g.percpu cpu buftype).write buffer).1
            buffer := some (write_loop (g.gator_buffer_mask buftype) x
              (g.percpu cpu buftype).write buffer).2 }) := by
  cases x with
  | nil => simp [gator_buffer_write_bytes]
  | cons b x => simp [gator_buffer_write_bytes, hbuf]

/-- The cursor a write of `n` bytes leaves in a power-of-two buffer. -/
theorem write_bytes_cursor (g g' : State) (cpu buftype k : Nat) (x buffer : List Nat)
    (hmask : g.gator_buffer_mask buftype = 2 ^ k - 1)
    (hwrite : (g.percpu cpu buftype).write < 2 ^ k)
    (hbuf : (g.percpu cpu buftype).buffer = some buffer)
    (h : gator_buffer_write_bytes g cpu buftype x = some g') :
    (g'.percpu cpu buftype).write = ((g.percpu cpu buftype).write + x.length) % 2 ^ k
      ∧ (g'.percpu cpu buftype).read = (g.percpu cpu buftype).read
      ∧ (g'.percpu cpu buftype).commit = (g.percpu cpu buftype).commit
      ∧ (g'.percpu cpu buftype).space_available = (g.percpu cpu buftype).space_available
      ∧ g'.gator_buffer_size = g.gator_buffer_size := by
  rw [write_bytes_some g cpu buftype x buffer hbuf] at h
  injection h with h
  subst h
  by_cases hx : x = []
  · subst hx
    simp [Nat.mod_eq_of_lt hwrite]
  · simp only [hx, if_false, percpu_setChan_same, size_setChan, hmask, write_loop_cursor,
      and_self, and_true]

/-- C3. If `buffer_check_space(cpu, buftype, n)` returns true then
`buffer_bytes_available` evaluated right afterwards is at least `n`,
`filled + n` is below the capacity, and a following `gator_buffer_write_bytes`
of exactly `n` bytes leaves `read` alone and moves `write` by `n` positions
without reaching `read`: `filled` grows by exactly `n` and stays below the
capacity. -/
theorem check_space_then_write_fits (g : State) (cpu buftype k : Nat) (x buffer : List Nat)
    (hsize : g.gator_buffer_size buftype = 2 ^ k)
    (hmask : g.gator_buffer_mask buftype = 2 ^ k - 1)
    (hread : (g.percpu cpu buftype).read < g.gator_buffer_size buftype)
    (hwrite : (g.percpu cpu buftype).write < g.gator_buffer_size buftype)
    (hbuf : (g.percpu cpu buftype).buffer = some buffer)
    (hok : (buffer_check_space g cpu buftype x.length).1 = true) :
    (x.length : Int) ≤
        buffer_bytes_available (buffer_check_space g cpu buftype x.length).2 cpu buftype
      ∧ filled g cpu buftype + x.length < g.gator_buffer_size buftype
      ∧ ∃ g', gator_buffer_write_bytes (buffer_check_space g cpu buftype x.length).2
                cpu buftype x = some g'
          ∧ (g'.percpu cpu buftype).read = (g.percpu cpu buftype).read
          ∧ filled g' cpu buftype = filled g cpu buftype + x.length
          ∧ filled g' cpu buftype < g.gator_buffer_size buftype := by
  have havail := buffer_bytes_available_eq g cpu buftype
  have hfr := filled_range g cpu buftype hread hwrite
  have h1 : (x.length : Int) ≤ buffer_bytes_available g cpu buftype := by
    by_contra hlt
    simp [buffer_check_space, not_le.mp hlt] at hok
  have hfit : filled g cpu buftype + x.length + 200 ≤ g.gator_buffer_size buftype := by
    rw [havail] at h1
    split_ifs at h1 <;> omega
  set g1 := (buffer_check_space g cpu buftype x.length).2 with hg1
  have hf1 : filled g1 cpu buftype = filled g cpu buftype := by
    apply filled_congr <;> simp [hg1, buffer_check_space]
  have hflag : (g1.percpu cpu buftype).space_available = true := by
    simp [hg1, buffer_check_space, not_lt.mpr h1]
  have hs1 : g1.gator_buffer_size buftype = g.gator_buffer_size buftype := by
    simp [hg1, buffer_check_space]
  refine ⟨?_, by omega, ?_⟩
  · rw [buffer_bytes_available_eq, hf1, hflag, hs1]
    simp only [if_true]
    omega
  · have hbuf1 : (g1.percpu cpu buftype).buffer = some buffer := by
      simp [hg1, buffer_check_space, hbuf]
    have hw1 : (g1.percpu cpu buftype).write = (g.percpu cpu buftype).write := by
      simp [hg1, buffer_check_space]
    have hr1 : (g1.percpu cpu buftype).read = (g.percpu cpu buftype).read := by
      simp [hg1, buffer_check_space]
    have hm1 : g1.gator_buffer_mask buftype = 2 ^ k - 1 := by
      simp [hg1, buffer_check_space, hmask]
    obtain ⟨g2, hg2⟩ : ∃ g2, gator_buffer_write_bytes g1 cpu buftype x = some g2 :=
      ⟨_, write_bytes_some g1 cpu buftype x buffer hbuf1⟩
    obtain ⟨hcw, hcr, -, -, hcs⟩ := write_bytes_cursor g1 g2 cpu buftype k x buffer hm1
      (by rw [hw1, ← hsize]; exact hwrite) hbuf1 hg2
    have hlt : (g.percpu cpu buftype).write + x.length < 2 * 2 ^ k := by
      have := hfr.1
      rw [hsize] at hfit hwrite
      omega
    rw [hw1, add_mod_cases _ _ hlt] at hcw
    refine ⟨g2, hg2, by rw [hcr, hr1], ?_⟩
    have key : filled g2 cpu buftype = filled g cpu buftype + x.length := by
      unfold filled at hfit ⊢
      simp only at hfit ⊢
      rw [hcr, hr1, hcs, hs1, hsize]
      rw [hsize] at hfit hread hwrite
      generalize (g2.percpu cpu buftype).write = w2 at hcw ⊢
      generalize (g.percpu cpu buftype).write = w at hcw hfit hwrite hlt ⊢
      generalize (g.percpu cpu buftype).read = r at hfit hread ⊢
      generalize x.length = n at hcw hfit hlt ⊢
      generalize 2 ^ k = S at hcw hfit hlt hread hwrite ⊢
      subst hcw
      split_ifs at hfit ⊢ <;> omega
    exact ⟨key, by rw [key]; omega⟩

/-- C3 at an empty slot of capacity 256 and a write of three bytes: the check
succeeds, 56 bytes are available afterwards, and the write leaves `filled` at
three. -/
theorem check_space_then_write_fits_witness :
    (buffer_check_space (example_state 8 (example_chan (List.replicate 256 0) 0 0 0)) 0 1 3).1 = true
      ∧ buffer_bytes_available
          (buffer_check_space (example_state 8 (example_chan (List.replicate 256 0) 0 0 0)) 0 1 3).2 0 1 = 56
      ∧ ∃ g', gator_buffer_write_bytes
                (buffer_check_space (example_state 8 (example_chan (List.replicate 256 0) 0 0 0)) 0 1 3).2
                0 1 [7, 8, 9] = some g'
          ∧ filled g' 0 1 = 3 := by
  have h := check_space_then_write_fits (example_state 8 (example_chan (List.replicate 256 0) 0 0 0)) 0 1 8 [7, 8, 9]
    (List.replicate 256 0) rfl rfl (by decide) (by decide) rfl (by decide)
  obtain ⟨-, -, g', hw, -, hf, -⟩ := h
  exact ⟨by decide, by decide, g', hw, by rw [hf]; decide⟩

/-! ## Hysteresis of the space check -/

theorem checks_append (l l' : List Obs) : checks (l ++ l') = checks l ++ checks l' := by
  induction l with
  | nil => rfl
  | cons o l ih => cases o <;> simp [checks, ih]

/-- With the sticky flag false, `buffer_check_space` answers by the larger
margin, and stores its answer in the flag. -/
theorem check_space_recovering (g : State) (cpu buftype : Nat) (bytes : Int)
    (hf : (g.percpu cpu buftype).space_available = false) :
    ((buffer_check_space g cpu buftype bytes).1 = true
        ↔ bytes + 2000 ≤ (g.gator_buffer_size buftype : Int) - filled g cpu buftype)
      ∧ ((buffer_check_space g cpu buftype bytes).2.percpu cpu buftype).space_available
          = (buffer_check_space g cpu buftype bytes).1 := by
  have h := buffer_bytes_available_eq g cpu buftype
  simp only [hf, Bool.false_eq_true, if_false] at h
  constructor
  · simp only [buffer_check_space, h]
    split_ifs with hlt
    · simp only [Bool.false_eq_true, false_iff]; omega
    · simp only [true_iff]; omega
  · simp [buffer_check_space]

/-- One call from a state whose flag is false: either it is no space check and
the flag stays false, or it is one space check that answers by the larger
margin and leaves the flag false when it answers false. -/
theorem step_recovering (cpu buftype : Nat) (g g1 : State) (op : Op) (o : List Obs)
    (hf : (g.percpu cpu buftype).space_available = false)
    (hs : step cpu buftype g op = some (g1, o)) :
    (checks o = [] ∧ (g1.percpu cpu buftype).space_available = false)
      ∨ ∃ free bytes flag, checks o = [(free, bytes, flag)]
          ∧ (flag = true ↔ bytes + 2000 ≤ free)
          ∧ (flag = false → (g1.percpu cpu buftype).space_available = false) := by
  cases op with
  | write x =>
    left
    simp only [step, Option.map_eq_some'] at hs
    obtain ⟨g', hw, heq⟩ := hs
    injection heq with h1 h2
    subst h1 h2
    exact ⟨rfl, (keeps_write g g' cpu buftype x hw).flag.trans hf⟩
  | check_space bytes =>
    right
    simp only [step, Option.some.injEq, Prod.mk.injEq] at hs
    obtain ⟨h1, h2⟩ := hs
    subst h1 h2
    have h := check_space_recovering g cpu buftype bytes hf
    exact ⟨_, _, _, rfl, h.1, fun hfl => h.2.trans hfl⟩
  | checked_write x =>
    right
    have h := check_space_recovering g cpu buftype x.length hf
    simp only [step] at hs
    split_ifs at hs with hr
    · simp only [Option.map_eq_some'] at hs
      obtain ⟨g', -, heq⟩ := hs
      injection heq with h1 h2
      subst h1 h2
      exact ⟨_, _, _, rfl, h.1, fun hfl => by rw [hr] at hfl; cases hfl⟩
    · simp only [Option.some.injEq, Prod.mk.injEq] at hs
      obtain ⟨h1, h2⟩ := hs
      subst h1 h2
      exact ⟨_, _, _, rfl, h.1, fun hfl => h.2.trans hfl⟩
  | commit =>
    left
    simp only [step, Option.some.injEq, Prod.mk.injEq] at hs
    obtain ⟨h1, h2⟩ := hs
    subst h1 h2
    exact ⟨rfl, (keeps_commit g cpu buftype).flag.trans hf⟩
  | check =>
    left
    simp only [step, Option.some.injEq, Prod.mk.injEq] at hs
    obtain ⟨h1, h2⟩ := hs
    subst h1 h2
    exact ⟨rfl, (keeps_check g cpu buftype).flag.trans hf⟩
  | read =>
    left
    simp only [step, Option.some.injEq, Prod.mk.injEq] at hs
    obtain ⟨h1, h2⟩ := hs
    subst h1 h2
    exact ⟨rfl, (keeps_drain g cpu buftype false).flag.trans hf⟩

/-- Unfolding one call of a run. -/
theorem exec_cons (cpu buftype : Nat) (op : Op) (ops : List Op) (g g2 : State) (obs : List Obs)
    (h : exec cpu buftype (op :: ops) g = some (g2, obs)) :
    ∃ g1 o o', step cpu buftype g op = some (g1, o)
      ∧ exec cpu buftype ops g1 = some (g2, o') ∧ obs = o ++ o' := by
  simp only [exec] at h
  cases hs : step cpu buftype g op with
  | none => simp [hs] at h
  | some r =>
    obtain ⟨g1, o⟩ := r
    simp only [hs] at h
    cases he : exec cpu buftype ops g1 with
    | none => simp [he] at h
    | some r' =>
      obtain ⟨g2', o'⟩ := r'
      simp only [he, Option.some.injEq, Prod.mk.injEq] at h
      exact ⟨g1, o, o', rfl, by rw [he, h.1], h.2.symm⟩

/-- In a run from a state whose flag is false, a space check before which every
space check answered false answers by the larger margin. -/
theorem run_recovering (cpu buftype : Nat) (ops : List Op) (g g' : State) (obs : List Obs)
    (hf : (g.percpu cpu buftype).space_available = false)
    (hrun : exec cpu buftype ops g = some (g', obs))
    (pre post : List (Int × Int × Bool)) (free bytes : Int) (flag : Bool)
    (hsplit : checks obs = pre ++ (free, bytes, flag) :: post)
    (hpre : ∀ e ∈ pre, e.2.2 = false) :
    (flag = true ↔ bytes + 2000 ≤ free) := by
  induction ops generalizing g obs pre with
  | nil =>
    simp only [exec, Option.some.injEq, Prod.mk.injEq] at hrun
    rw [← hrun.2] at hsplit
    simp [checks] at hsplit
  | cons op ops ih =>
    obtain ⟨g1, o, o', hs, he, rfl⟩ := exec_cons cpu buftype op ops g g' obs hrun
    rw [checks_append] at hsplit
    rcases step_recovering cpu buftype g g1 op o hf hs with ⟨ho, hf1⟩ | ⟨f, b, r, ho, hiff, hkeep⟩
    · rw [ho, List.nil_append] at hsplit
      exact ih g1 o' hf1 he pre hsplit hpre
    · rw [ho] at hsplit
      cases pre with
      | nil =>
        simp only [List.singleton_append, List.nil_append, List.cons.injEq, Prod.mk.injEq] at hsplit
        obtain ⟨⟨h1, h2, h3⟩, -⟩ := hsplit
        subst h1 h2 h3
        exact hiff
      | cons e pre' =>
        simp only [List.singleton_append, List.cons_append, List.cons.injEq] at hsplit
        obtain ⟨h1, h2⟩ := hsplit
        have hr : r = false := by
          have := hpre e (List.mem_cons_self _ _)
          rw [← h1] at this
          exact this
        exact ih g1 o' (hkeep hr) he pre' h2 (fun e' he' => hpre e' (List.mem_cons_of_mem _ he'))

/-- C4. Hysteresis. Let `buffer_check_space` return false on a slot, and let
any calls follow on that slot (writes, checked writes, commits, buffer checks,
reads, space checks). Every later `buffer_check_space(bytes)` before which no
space check has returned true returns true exactly when the free space
`size - filled` it finds is at least `bytes + 2000`; so it returns false
wherever the free space less 200 would cover `bytes` but the free space less
2000 does not. -/
theorem hysteresis (cpu buftype : Nat) (g0 : State) (bytes0 : Int) (ops : List Op)
    (g' : State) (obs : List Obs)
    (pre post : List (Int × Int × Bool)) (free bytes : Int) (flag : Bool)
    (hfalse : (buffer_check_space g0 cpu buftype bytes0).1 = false)
    (hrun : exec cpu buftype ops (buffer_check_space g0 cpu buftype bytes0).2 = some (g', obs))
    (hsplit : checks obs = pre ++ (free, bytes, flag) :: post)
    (hpre : ∀ e ∈ pre, e.2.2 = false) :
    (flag = true ↔ bytes + 2000 ≤ free)
      ∧ (bytes ≤ free - 200 → free - 2000 < bytes → flag = false) := by
  have hf : ((buffer_check_space g0 cpu buftype bytes0).2.percpu cpu buftype).space_available
      = false := by
    have : ((buffer_check_space g0 cpu buftype bytes0).2.percpu cpu buftype).space_available
        = (buffer_check_space g0 cpu buftype bytes0).1 := by
      simp [buffer_check_space]
    rw [this, hfalse]
  have h := run_recovering cpu buftype ops _ g' obs hf hrun pre post free bytes flag hsplit hpre
  refine ⟨h, fun _ hlt => ?_⟩
  cases flag with
  | false => rfl
  | true => have := h.mp rfl; omega

/-- C4 on a slot of capacity 4096 holding 3000 bytes: a request for 1000 bytes
is refused (896 available); a later request for 500 bytes finds 1096 bytes
free, which covers it with the small margin and not with the large one, and is
refused. -/
theorem hysteresis_witness :
    (buffer_check_space (example_state 12 (example_chan (List.replicate 4096 0) 0 0 3000)) 0 1 1000).1 = false
      ∧ (exec 0 1 [Op.check_space 500]
          (buffer_check_space (example_state 12 (example_chan (List.replicate 4096 0) 0 0 3000)) 0 1 1000).2).map
            (fun r => checks r.2) = some [(1096, 500, false)]
      ∧ ((false = true ↔ (500 : Int) + 2000 ≤ 1096)
        ∧ ((500 : Int) ≤ 1096 - 200 → (1096 : Int) - 2000 < 500 → false = false)) :=
  ⟨by decide, by decide,
    hysteresis 0 1 (example_state 12 (example_chan (List.replicate 4096 0) 0 0 3000)) 1000 [Op.check_space 500]
      _ _ [] [] 1096 500 false (by decide) rfl rfl (by simp)⟩

/-! ## The consumer read path -/

theorem dist_cases (size a b : Nat) (ha : a < size) (hb : b < size) :
    dist size a b = if a ≤ b then b - a else size + b - a := by
  unfold dist
  split_ifs with h
  · rw [Int.emod_eq_of_lt (by omega) (by omega)]
    omega
  · rw [← Int.add_emod_self, Int.emod_eq_of_lt (by omega) (by omega)]
    omega

@[simp] theorem ring_slice_length (buffer : List Nat) (size start n : Nat) :
    (ring_slice buffer size start n).length = n := by
  simp [ring_slice]

/-- The two halves `userspace_buffer_read` copies are, together, the bytes from
`read` up to `commit`, wrapping at the end of the storage; their lengths add
up to `(commit - read) mod size`. -/
theorem spans_spec (buffer : List Nat) (size read commit : Nat)
    (hlen : buffer.length = size) (hr : read < size) (hc : commit < size) :
    (span_lengths size read commit).1 + (span_lengths size read commit).2
        = ((commit : Int) - (read : Int)) % (size : Int)
      ∧ (if (span_lengths size read commit).1 > 0
            then (buffer.drop read).take (span_lengths size read commit).1.toNat else [])
          ++ (if (span_lengths size read commit).2 > 0
            then buffer.take (span_lengths size read commit).2.toNat else [])
          = ring_slice buffer size read (dist size read commit) := by
  rw [dist_cases size read commit hr hc]
  unfold span_lengths
  simp only
  by_cases h : read ≤ commit
  · have h0 : ¬ ((commit : Int) - (read : Int) < 0) := by omega
    simp only [h0, if_false, h, if_true, add_zero, gt_iff_lt, lt_self_iff_false, List.append_nil]
    refine ⟨(Int.emod_eq_of_lt (by omega) (by omega)).symm, ?_⟩
    have ht : ((commit : Int) - (read : Int)).toNat = commit - read := by omega
    have hz : (if (0 : Int) < (commit : Int) - (read : Int)
        then (buffer.drop read).take ((commit : Int) - (read : Int)).toNat else [])
        = (buffer.drop read).take (commit - read) := by
      split_ifs with hp
      · rw [ht]
      · have : commit - read = 0 := by omega
        rw [this, List.take_zero]
    rw [hz]
    apply List.ext_getElem?
    intro i
    simp only [ring_slice, List.getElem?_take, List.getElem?_drop, List.getElem?_map]
    by_cases hi : i < commit - read
    · rw [List.getElem?_range hi]
      simp only [hi, if_true, Option.map_some', List.getD_eq_getElem?_getD]
      rw [Nat.mod_eq_of_lt (by omega)]
      have : read + i < buffer.length := by omega
      rw [List.getElem?_eq_getElem this]
      rfl
    · simp only [hi, if_false]
      rw [List.getElem?_eq_none (by simpa using hi)]
      rfl
  · have h0 : (commit : Int) - (read : Int) < 0 := by omega
    simp only [h0, if_true, h, if_false, gt_iff_lt]
    constructor
    · rw [← Int.add_emod_self, Int.emod_eq_of_lt (by omega) (by omega)]
      ring
    have ht : ((size : Int) - (read : Int)).toNat = size - read := by omega
    have hp : (0 : Int) < (size : Int) - (read : Int) := by omega
    have hz : (if (0 : Int) < (commit : Int) then buffer.take (commit : Int).toNat else [])
        = buffer.take commit := by
      split_ifs with hp
      · simp
      · have : commit = 0 := by omega
        rw [this, List.take_zero]
    simp only [hp, if_true, ht, hz]
    apply List.ext_getElem?
    intro i
    simp only [ring_slice, List.getElem?_append, List.getElem?_take, List.getElem?_drop,
      List.getElem?_map, List.length_take, List.length_drop, hlen]
    have hmin : min (size - read) (size - read) = size - read := by simp
    rw [hmin]
    by_cases hi : i < size + commit - read
    · rw [List.getElem?_range hi]
      simp only [Option.map_some', List.getD_eq_getElem?_getD]
      by_cases hi1 : i < size - read
      · simp only [hi1, if_true]
        rw [Nat.mod_eq_of_lt (by omega)]
        have : read + i < buffer.length := by omega
        rw [List.getElem?_eq_getElem this]
        rfl
      · have h2 : i - (size - read) < commit := by omega
        simp only [hi1, if_false, h2, if_true]
        rw [add_mod_cases _ _ (by omega : read + i < 2 * size)]
        have h3 : ¬ (read + i < size) := by omega
        simp only [h3, if_false]
        have h4 : read + i - size = i - (size - read) := by omega
        have : i - (size - read) < buffer.length := by omega
        rw [h4, List.getElem?_eq_getElem this]
        rfl
    · have hi1 : ¬ (i < size - read) := by omega
      have h2 : ¬ (i - (size - read) < commit) := by omega
      simp only [hi1, if_false, h2]
      rw [List.getElem?_eq_none (by simpa using hi)]
      rfl

/-- A read of a slot with storage whose copy succeeds, in closed form. -/
theorem drain_some (g : State) (cpu buftype : Nat) (buffer : List Nat)
    (hbuf : (g.percpu cpu buftype).buffer = some buffer)
    (hlen : buffer.length = g.gator_buffer_size buftype)
    (hread : (g.percpu cpu buftype).read < g.gator_buffer_size buftype)
    (hcommit : (g.percpu cpu buftype).commit < g.gator_buffer_size buftype) :
    drain g cpu buftype false =
      ((((g.percpu cpu buftype).commit : Int) - ((g.percpu cpu buftype).read : Int))
          % (g.gator_buffer_size buftype : Int),
        ring_slice buffer (g.gator_buffer_size buftype) (g.percpu cpu buftype).read
          (dist (g.gator_buffer_size buftype) (g.percpu cpu buftype).read
            (g.percpu cpu buftype).commit),
        g.setChan cpu buftype
          { g.percpu cpu buftype with read := (g.percpu cpu buftype).commit }) := by
  obtain ⟨h1, h2⟩ := spans_spec buffer (g.gator_buffer_size buftype)
    (g.percpu cpu buftype).read (g.percpu cpu buftype).commit hlen hread hcommit
  simp only [drain, hbuf, Bool.false_eq_true, and_false, if_false]
  rw [h1, h2]

/-- C2. A `userspace_buffer_read` with the configured size, offset 0, no
signal pending and a working `copy_to_user`, for which `buffer_commit_ready`
selects a pair with storage and cursors inside the buffer, returns
`(commit - read) mod size`, copies that many bytes, byte `i` being
`storage[(read + i) & mask]` (so a range that wraps is delivered contiguous),
sets `read` to `commit` and touches no other slot. When nothing is pending
and the session is stopped, it returns 0 and leaves the state as it is. -/
theorem userspace_buffer_read_delivers (g : State) (cpu buftype k : Nat) (buffer : List Nat)
    (g0 : State) (fault : Bool)
    (hsize : g.gator_buffer_size buftype = 2 ^ k)
    (hmask : g.gator_buffer_mask buftype = 2 ^ k - 1)
    (hbuf : (g.percpu cpu buftype).buffer = some buffer)
    (hlen : buffer.length = 2 ^ k)
    (hread : (g.percpu cpu buftype).read < 2 ^ k)
    (hcommit : (g.percpu cpu buftype).commit < 2 ^ k)
    (hsel : buffer_commit_ready g (-1) (-1) = (true, (cpu : Int), (buftype : Int)))
    (hnone : (buffer_commit_ready g0 (-1) (-1)).1 = false)
    (hstopped : g0.gator_started = 0) :
    (∃ out g',
        userspace_buffer_read g g.userspace_buffer_size 0 false false
          = some ((((g.percpu cpu buftype).commit : Int) - ((g.percpu cpu buftype).read : Int))
              % (2 ^ k : Nat), out, g')
        ∧ (out.length : Int)
            = (((g.percpu cpu buftype).commit : Int) - ((g.percpu cpu buftype).read : Int))
              % (2 ^ k : Nat)
        ∧ (∀ i, i < out.length →
            out[i]? = buffer[((g.percpu cpu buftype).read + i) &&& g.gator_buffer_mask buftype]?)
        ∧ g'.percpu cpu buftype
            = { g.percpu cpu buftype with read := (g.percpu cpu buftype).commit }
        ∧ (∀ i j, ¬ (i = cpu ∧ j = buftype) → g'.percpu i j = g.percpu i j))
      ∧ userspace_buffer_read g0 g0.userspace_buffer_size 0 false fault = some (0, [], g0) := by
  constructor
  · have hd := drain_some g cpu buftype buffer hbuf (by rw [hsize]; exact hlen)
      (by rw [hsize]; exact hread) (by rw [hsize]; exact hcommit)
    rw [hsize] at hd
    refine ⟨ring_slice buffer (2 ^ k) (g.percpu cpu buftype).read
        (dist (2 ^ k) (g.percpu cpu buftype).read (g.percpu cpu buftype).commit),
      g.setChan cpu buftype
        { g.percpu cpu buftype with read := (g.percpu cpu buftype).commit }, ?_, ?_, ?_, ?_, ?_⟩
    · have h1 : ¬ ((buftype : Int) = -1 ∨ (cpu : Int) = -1) := by omega
      simp only [userspace_buffer_read, hsel, ne_eq, not_true_eq_false, or_self, if_false,
        Bool.true_eq_false, false_and, Bool.false_eq_true, Int.toNat_ofNat, hd, h1]
    · rw [ring_slice_length]
      unfold dist
      rw [Int.toNat_of_nonneg]
      exact Int.emod_nonneg _ (by positivity)
    · intro i hi
      rw [ring_slice_length] at hi
      rw [hmask, Nat.and_pow_two_sub_one_eq_mod]
      simp only [ring_slice, List.getElem?_map, List.getElem?_range hi, Option.map_some',
        List.getD_eq_getElem?_getD]
      have hlt : ((g.percpu cpu buftype).read + i) % 2 ^ k < buffer.length := by
        rw [hlen]
        exact Nat.mod_lt _ (by positivity)
      rw [List.getElem?_eq_getElem hlt]
      rfl
    · simp
    · intro i j hij
      exact percpu_setChan_other g cpu buftype i j _ hij
  · have h2 : buffer_commit_ready g0 (-1) (-1) = (false, -1, -1) := by
      unfold buffer_commit_ready at hnone ⊢
      cases hp : first_pending g0 (present_cpus g0) with
      | none => rfl
      | some r => simp [hp] at hnone
    simp [userspace_buffer_read, h2, hstopped]

/-- C2 on a slot of capacity 64 whose storage holds byte `i` at position `i`,
with `read = 54` and `commit = 30`: the 40 committed bytes, 10 before the end
of the storage and 30 after it, are delivered contiguous; and a read of a
stopped session with nothing pending returns 0. -/
theorem userspace_buffer_read_delivers_witness :
    (userspace_buffer_read (example_state 6 (example_chan (List.range 64) 54 30 30))
        64 0 false false).map (fun r => (r.1, r.2.1))
        = some (40, [54, 55, 56, 57, 58, 59, 60, 61, 62, 63, 0, 1, 2, 3, 4, 5, 6, 7, 8, 9, 10,
            11, 12, 13, 14, 15, 16, 17, 18, 19, 20, 21, 22, 23, 24, 25, 26, 27, 28, 29])
      ∧ (userspace_buffer_read
          { example_state 6 (example_chan (List.range 64) 0 0 0) with gator_started := 0 }
          64 0 false true).map (fun r => (r.1, r.2.1)) = some (0, []) := by
  have h := userspace_buffer_read_delivers
    (example_state 6 (example_chan (List.range 64) 54 30 30)) 0 0 6 (List.range 64)
    { example_state 6 (example_chan (List.range 64) 0 0 0) with gator_started := 0 } true
    rfl rfl rfl rfl (by decide) (by decide) (by decide) (by decide) rfl
  exact ⟨by decide, congrArg (Option.map fun r => (r.1, r.2.1)) h.2⟩

/-! ## The scan of `buffer_commit_ready` -/

theorem first_pending_buf_none (g : State) (cpu_x : Nat) (l : List Nat) :
    first_pending_buf g cpu_x l = none ↔ ∀ x ∈ l, ¬ pending g cpu_x x := by
  induction l with
  | nil => simp [first_pending_buf]
  | cons x l ih =>
    simp only [first_pending_buf, List.mem_cons, forall_eq_or_imp]
    by_cases h : (g.percpu cpu_x x).commit ≠ (g.percpu cpu_x x).read
    · rw [if_pos h]
      simp only [reduceCtorEq, false_iff, not_and]
      intro hn
      exact absurd h hn
    · rw [if_neg h, ih]
      exact ⟨fun hh => ⟨h, hh⟩, fun hh => hh.2⟩

theorem first_pending_buf_some (g : State) (cpu_x x : Nat) (l : List Nat)
    (h : first_pending_buf g cpu_x l = some x) :
    ∃ l1 l2, l = l1 ++ x :: l2 ∧ pending g cpu_x x ∧ ∀ y ∈ l1, ¬ pending g cpu_x y := by
  induction l with
  | nil => simp [first_pending_buf] at h
  | cons a l ih =>
    simp only [first_pending_buf] at h
    by_cases hp : (g.percpu cpu_x a).commit ≠ (g.percpu cpu_x a).read
    · rw [if_pos hp] at h
      injection h with h
      subst h
      exact ⟨[], l, rfl, hp, by simp⟩
    · rw [if_neg hp] at h
      obtain ⟨l1, l2, hl, hx, hb⟩ := ih h
      refine ⟨a :: l1, l2, by rw [hl]; rfl, hx, ?_⟩
      intro y hy
      rcases List.mem_cons.mp hy with rfl | hy
      · exact hp
      · exact hb y hy

theorem first_pending_none (g : State) (cpus : List Nat) :
    first_pending g cpus = none
      ↔ ∀ c ∈ cpus, ∀ x ∈ List.range NUM_GATOR_BUFS, ¬ pending g c x := by
  induction cpus with
  | nil => simp [first_pending]
  | cons c cpus ih =>
    simp only [first_pending, List.mem_cons, forall_eq_or_imp]
    cases hb : first_pending_buf g c (List.range NUM_GATOR_BUFS) with
    | none =>
      simp only [ih]
      rw [first_pending_buf_none] at hb
      exact ⟨fun h => ⟨hb, h⟩, fun h => h.2⟩
    | some x =>
      obtain ⟨l1, l2, hl, hx, -⟩ := first_pending_buf_some g c x _ hb
      simp only [reduceCtorEq, false_iff, not_and]
      intro h
      exact absurd hx (h x (by rw [hl]; simp))

theorem first_pending_some (g : State) (cpus : List Nat) (c x : Nat)
    (h : first_pending g cpus = some (c, x)) :
    ∃ cs1 cs2 l1 l2, cpus = cs1 ++ c :: cs2 ∧ List.range NUM_GATOR_BUFS = l1 ++ x :: l2
      ∧ pending g c x ∧ (∀ y ∈ l1, ¬ pending g c y)
      ∧ ∀ c' ∈ cs1, ∀ y ∈ List.range NUM_GATOR_BUFS, ¬ pending g c' y := by
  induction cpus with
  | nil => simp [first_pending] at h
  | cons a cpus ih =>
    simp only [first_pending] at h
    cases hb : first_pending_buf g a (List.range NUM_GATOR_BUFS) with
    | none =>
      simp only [hb] at h
      obtain ⟨cs1, cs2, l1, l2, hc, hl, hx, hb1, hb2⟩ := ih h
      refine ⟨a :: cs1, cs2, l1, l2, by rw [hc]; rfl, hl, hx, hb1, ?_⟩
      intro c' hc'
      rcases List.mem_cons.mp hc' with rfl | hc'
      · exact (first_pending_buf_none g c' _).mp hb
      · exact hb2 c' hc'
    | some y =>
      simp only [hb, Option.some.injEq, Prod.mk.injEq] at h
      obtain ⟨rfl, rfl⟩ := h
      obtain ⟨l1, l2, hl, hx, hb1⟩ := first_pending_buf_some g a y _ hb
      exact ⟨[], cpus, l1, l2, rfl, hl, hx, hb1, by simp⟩

/-- In an ascending list, what is smaller than an element stands before it. -/
theorem mem_before_of_lt (l l1 l2 : List Nat) (x y : Nat)
    (hs : l.Pairwise (· < ·)) (hl : l = l1 ++ x :: l2) (hy : y ∈ l) (hlt : y < x) : y ∈ l1 := by
  subst hl
  rw [List.pairwise_append] at hs
  obtain ⟨-, h2, -⟩ := hs
  rw [List.pairwise_cons] at h2
  rcases List.mem_append.mp hy with h | h
  · exact h
  · rcases List.mem_cons.mp h with rfl | h
    · omega
    · have := h2.1 y h
      omega

theorem present_cpus_sorted (g : State) : (present_cpus g).Pairwise (· < ·) :=
  List.Pairwise.filter _ (List.pairwise_lt_range _)

theorem mem_present_cpus (g : State) (c : Nat) :
    c ∈ present_cpus g ↔ c < g.nr_cpu_ids ∧ g.cpu_present c = true := by
  simp [present_cpus]

/-- C10. `buffer_commit_ready` returns true exactly when some channel of some
present core has `commit` different from `read`; the pair it then outputs is
such a pair, and no pair before it in the scan order (core ascending, then
channel ascending) is; when it returns false it leaves both output arguments
as they were passed. -/
theorem buffer_commit_ready_first (g : State) (cpu0 buftype0 : Int) :
    ((buffer_commit_ready g cpu0 buftype0).1 = true
        ↔ ∃ cpu buftype : Nat, cpu < g.nr_cpu_ids ∧ g.cpu_present cpu = true
            ∧ buftype < NUM_GATOR_BUFS ∧ pending g cpu buftype)
      ∧ ((buffer_commit_ready g cpu0 buftype0).1 = true →
          ∃ cpu buftype : Nat,
            (buffer_commit_ready g cpu0 buftype0).2 = ((cpu : Int), (buftype : Int))
            ∧ cpu < g.nr_cpu_ids ∧ g.cpu_present cpu = true ∧ buftype < NUM_GATOR_BUFS
            ∧ pending g cpu buftype
            ∧ ∀ cpu' buftype' : Nat, cpu' < g.nr_cpu_ids → g.cpu_present cpu' = true →
                buftype' < NUM_GATOR_BUFS →
                (cpu' < cpu ∨ (cpu' = cpu ∧ buftype' < buftype)) → ¬ pending g cpu' buftype')
      ∧ ((buffer_commit_ready g cpu0 buftype0).1 = false →
          (buffer_commit_ready g cpu0 buftype0).2 = (cpu0, buftype0)) := by
  unfold buffer_commit_ready
  cases h : first_pending g (present_cpus g) with
  | none =>
    simp only [Bool.false_eq_true, false_iff, not_exists, not_and, false_implies, true_and,
      implies_true, and_true]
    rw [first_pending_none] at h
    intro cpu buftype h1 h2 h3
    exact h cpu ((mem_present_cpus g cpu).mpr ⟨h1, h2⟩) buftype (List.mem_range.mpr h3)
  | some r =>
    obtain ⟨c, x⟩ := r
    obtain ⟨cs1, cs2, l1, l2, hc, hl, hx, hb1, hb2⟩ := first_pending_some g _ c x h
    have hcm : c ∈ present_cpus g := by rw [hc]; simp
    have hxm : x ∈ List.range NUM_GATOR_BUFS := by rw [hl]; simp
    obtain ⟨hc1, hc2⟩ := (mem_present_cpus g c).mp hcm
    have hx1 := List.mem_range.mp hxm
    simp only [true_iff, true_implies, Bool.true_eq_false, false_implies, and_true]
    refine ⟨⟨c, x, hc1, hc2, hx1, hx⟩, c, x, rfl, hc1, hc2, hx1, hx, ?_⟩
    intro c' x' h1 h2 h3 hlt
    rcases hlt with hlt | ⟨rfl, hlt⟩
    · exact hb2 c' (mem_before_of_lt _ cs1 cs2 c c' (present_cpus_sorted g) hc
        ((mem_present_cpus g c').mpr ⟨h1, h2⟩) hlt) x' (List.mem_range.mpr h3)
    · exact hb1 x' (mem_before_of_lt _ l1 l2 x x' (List.pairwise_lt_range _) hl
        (List.mem_range.mpr h3) hlt)

/-! ## Commit -/

/-- The four bytes stored by the backpatch are the little-endian bytes of the
length taken modulo `2 ^ 32`. -/
theorem length_bytes_le (length : Int) :
    (length_byte length 0 : Int) + 256 * length_byte length 1 + 65536 * length_byte length 2
      + 16777216 * length_byte length 3 = length % 4294967296 := by
  unfold length_byte
  norm_num
  omega

/-- The backpatch stores byte `byte` of the length at
`(commit + type_length + byte) mod size` and leaves every other position. -/
theorem backpatch_spec (k commit tl : Nat) (length : Int) (buffer : List Nat)
    (hk : 2 ≤ k) (hlen : buffer.length = 2 ^ k) (hc : commit < 2 ^ k) (htl : tl ≤ 1) :
    (∀ byte, byte < 4 →
        (backpatch (2 ^ k - 1) commit tl length [0, 1, 2, 3] buffer)[(commit + tl + byte) % 2 ^ k]?
          = some (length_byte length byte))
      ∧ ∀ j, (∀ byte, byte < 4 → j ≠ (commit + tl + byte) % 2 ^ k) →
          (backpatch (2 ^ k - 1) commit tl length [0, 1, 2, 3] buffer)[j]? = buffer[j]? := by
  have hS : 4 ≤ 2 ^ k := by
    calc 4 = 2 ^ 2 := by norm_num
      _ ≤ 2 ^ k := Nat.pow_le_pow_right (by norm_num) hk
  have e0 := add_mod_cases (commit + tl) (2 ^ k) (by omega)
  have e1 := add_mod_cases (commit + tl + 1) (2 ^ k) (by omega)
  have e2 := add_mod_cases (commit + tl + 2) (2 ^ k) (by omega)
  have e3 := add_mod_cases (commit + tl + 3) (2 ^ k) (by omega)
  have hp : (commit + tl) % 2 ^ k < 2 ^ k ∧ (commit + tl + 1) % 2 ^ k < 2 ^ k
      ∧ (commit + tl + 2) % 2 ^ k < 2 ^ k ∧ (commit + tl + 3) % 2 ^ k < 2 ^ k
      ∧ (commit + tl) % 2 ^ k ≠ (commit + tl + 1) % 2 ^ k
      ∧ (commit + tl) % 2 ^ k ≠ (commit + tl + 2) % 2 ^ k
      ∧ (commit + tl) % 2 ^ k ≠ (commit + tl + 3) % 2 ^ k
      ∧ (commit + tl + 1) % 2 ^ k ≠ (commit + tl + 2) % 2 ^ k
      ∧ (commit + tl + 1) % 2 ^ k ≠ (commit + tl + 3) % 2 ^ k
      ∧ (commit + tl + 2) % 2 ^ k ≠ (commit + tl + 3) % 2 ^ k := by
    rw [e0, e1, e2, e3]
    generalize 2 ^ k = S at *
    split_ifs <;> omega
  obtain ⟨l0, l1, l2, l3, n01, n02, n03, n12, n13, n23⟩ := hp
  simp only [backpatch, Nat.and_pow_two_sub_one_eq_mod, add_zero]
  have hl : ∀ p, p < 2 ^ k → p < buffer.length := fun p h => by rw [hlen]; exact h
  replace l0 := hl _ l0
  replace l1 := hl _ l1
  replace l2 := hl _ l2
  replace l3 := hl _ l3
  constructor
  · intro byte hb
    have hcases : byte = 0 ∨ byte = 1 ∨ byte = 2 ∨ byte = 3 := by omega
    rcases hcases with rfl | rfl | rfl | rfl
    · rw [add_zero, List.getElem?_set_ne n03.symm, List.getElem?_set_ne n02.symm,
        List.getElem?_set_ne n01.symm, List.getElem?_set_self l0]
    · rw [List.getElem?_set_ne n13.symm, List.getElem?_set_ne n12.symm,
        List.getElem?_set_self (by rw [List.length_set]; exact l1)]
    · rw [List.getElem?_set_ne n23.symm,
        List.getElem?_set_self (by rw [List.length_set, List.length_set]; exact l2)]
    · rw [List.getElem?_set_self
        (by rw [List.length_set, List.length_set, List.length_set]; exact l3)]
  · intro j hj
    have h0 := hj 0 (by omega)
    have h1 := hj 1 (by omega)
    have h2 := hj 2 (by omega)
    have h3 := hj 3 (by omega)
    rw [add_zero] at h0
    rw [List.getElem?_set_ne h3.symm, List.getElem?_set_ne h2.symm,
      List.getElem?_set_ne h1.symm, List.getElem?_set_ne h0.symm]

/-- A write moves neither `read` nor `commit`. -/
theorem write_bytes_read_commit (g g' : State) (cpu buftype : Nat) (x : List Nat)
    (h : gator_buffer_write_bytes g cpu buftype x = some g') :
    (g'.percpu cpu buftype).read = (g.percpu cpu buftype).read
      ∧ (g'.percpu cpu buftype).commit = (g.percpu cpu buftype).commit := by
  cases hb : (g.percpu cpu buftype).buffer with
  | none =>
    cases x with
    | nil =>
      simp only [gator_buffer_write_bytes, Option.some.injEq] at h
      subst h
      exact ⟨rfl, rfl⟩
    | cons b x => simp [gator_buffer_write_bytes, hb] at h
  | some buffer =>
    rw [write_bytes_some g cpu buftype x buffer hb] at h
    injection h with h
    subst h
    split_ifs <;> simp

/-- `marshal_frame` moves neither `read` nor `commit`. -/
theorem marshal_frame_read_commit (g : State) (cpu buftype : Nat) :
    ((marshal_frame g cpu buftype).percpu cpu buftype).read = (g.percpu cpu buftype).read
      ∧ ((marshal_frame g cpu buftype).percpu cpu buftype).commit
          = (g.percpu cpu buftype).commit := by
  cases hb : (g.percpu cpu buftype).buffer with
  | none => simp [marshal_frame, hb]
  | some buffer =>
    simp only [marshal_frame, hb]
    cases hw : gator_buffer_write_bytes g cpu buftype (g.frame_marker cpu buftype) with
    | none => exact ⟨rfl, rfl⟩
    | some g' => exact write_bytes_read_commit g g' cpu buftype _ hw

/-- The payload length is taken from the circular distance from `commit` to
`write`. -/
theorem payload_length_eq (g : State) (cpu buftype : Nat)
    (hcommit : (g.percpu cpu buftype).commit < g.gator_buffer_size buftype)
    (hwrite : (g.percpu cpu buftype).write < g.gator_buffer_size buftype) :
    payload_length g cpu buftype
      = (dist (g.gator_buffer_size buftype) (g.percpu cpu buftype).commit
          (g.percpu cpu buftype).write : Int) - (type_length g : Int) - 4 := by
  rw [dist_cases _ _ _ hcommit hwrite]
  unfold payload_length
  split_ifs <;> omega

/-- C9. On a slot with storage, `gator_commit_buffer` takes the length written
since the last commit as `(write - commit) mod size`, stores the payload
length `L` (that length less `type_length` and 4, `type_length` being 1 for a
non-zero response type and 0 otherwise) as four little-endian bytes at
`(commit + type_length + byte) & mask`, `byte = 0..3`, leaves every other byte
of the storage, sets `commit` to `write` and leaves `read`; it then calls
`marshal_frame` and arms the wake-up timer. On a slot without storage it
returns the state unchanged. -/
theorem commit_backpatches (g g0 : State) (cpu buftype k : Nat) (buffer : List Nat)
    (hk : 2 ≤ k)
    (hsize : g.gator_buffer_size buftype = 2 ^ k)
    (hmask : g.gator_buffer_mask buftype = 2 ^ k - 1)
    (hbuf : (g.percpu cpu buftype).buffer = some buffer)
    (hlen : buffer.length = 2 ^ k)
    (hcommit : (g.percpu cpu buftype).commit < 2 ^ k)
    (hwrite : (g.percpu cpu buftype).write < 2 ^ k)
    (hnull : (g0.percpu cpu buftype).buffer = none) :
    (∃ (L : Int) (type_length : Nat) (patched : List Nat),
        type_length = (if g.gator_response_type ≠ 0 then 1 else 0)
        ∧ L = ((((g.percpu cpu buftype).write : Int) - ((g.percpu cpu buftype).commit : Int))
                % (2 ^ k : Nat)) - (type_length : Int) - 4
        ∧ (∀ byte, byte < 4 →
            patched[((g.percpu cpu buftype).commit + type_length + byte)
              &&& g.gator_buffer_mask buftype]? = some (length_byte L byte))
        ∧ (length_byte L 0 : Int) + 256 * length_byte L 1 + 65536 * length_byte L 2
            + 16777216 * length_byte L 3 = L % 4294967296
        ∧ (∀ j, (∀ byte, byte < 4 →
            j ≠ ((g.percpu cpu buftype).commit + type_length + byte)
              &&& g.gator_buffer_mask buftype) → patched[j]? = buffer[j]?)
        ∧ gator_commit_buffer g cpu buftype =
            { marshal_frame (g.setChan cpu buftype
                { g.percpu cpu buftype with
                  commit := (g.percpu cpu buftype).write, buffer := some patched })
                cpu buftype with wake_up_timer_armed := true })
      ∧ ((gator_commit_buffer g cpu buftype).percpu cpu buftype).commit
          = (g.percpu cpu buftype).write
      ∧ ((gator_commit_buffer g cpu buftype).percpu cpu buftype).read
          = (g.percpu cpu buftype).read
      ∧ gator_commit_buffer g0 cpu buftype = g0 := by
  have htl : type_length g ≤ 1 := by unfold type_length; split_ifs <;> omega
  have hpl := payload_length_eq g cpu buftype (by rw [hsize]; exact hcommit)
    (by rw [hsize]; exact hwrite)
  have hd : (dist (g.gator_buffer_size buftype) (g.percpu cpu buftype).commit
      (g.percpu cpu buftype).write : Int)
      = (((g.percpu cpu buftype).write : Int) - ((g.percpu cpu buftype).commit : Int))
          % (2 ^ k : Nat) := by
    unfold dist
    rw [hsize, Int.toNat_of_nonneg (Int.emod_nonneg _ (by positivity))]
  rw [hd] at hpl
  obtain ⟨hb1, hb2⟩ := backpatch_spec k (g.percpu cpu buftype).commit (type_length g)
    (payload_length g cpu buftype) buffer hk hlen hcommit htl
  have hcs := commit_some g cpu buftype buffer hbuf
  refine ⟨⟨payload_length g cpu buftype, type_length g,
    backpatch (g.gator_buffer_mask buftype) (g.percpu cpu buftype).commit (type_length g)
      (payload_length g cpu buftype) [0, 1, 2, 3] buffer, rfl, hpl, ?_, length_bytes_le _, ?_,
      hcs⟩, ?_, ?_, commit_none g0 cpu buftype hnull⟩
  · intro byte hb
    rw [hmask, Nat.and_pow_two_sub_one_eq_mod]
    exact hb1 byte hb
  · intro j hj
    rw [hmask]
    apply hb2
    intro byte hb
    have := hj byte hb
    rwa [hmask, Nat.and_pow_two_sub_one_eq_mod] at this
  · rw [hcs]
    simp only
    rw [(marshal_frame_read_commit _ cpu buftype).2]
    simp [committed]
  · rw [hcs]
    simp only
    rw [(marshal_frame_read_commit _ cpu buftype).1]
    simp [committed]

/-- C9 on a slot of capacity 64 with `commit = 60` and `write = 10` and a
response type: 14 bytes were written, the payload length 9 is stored at
positions 61, 62, 63 and 0, and `commit` becomes 10; a slot without storage is
left alone. -/
theorem commit_backpatches_witness :
    ((gator_commit_buffer (example_state 6 (example_chan (List.range 64) 20 60 10)) 0 1).percpu
        0 1).commit = 10
      ∧ ((gator_commit_buffer (example_state 6 (example_chan (List.range 64) 20 60 10)) 0 1).percpu
        0 1).buffer.map (fun b => [b.getD 60 0, b.getD 61 0, b.getD 62 0, b.getD 63 0,
          b.getD 0 0, b.getD 1 0]) = some [60, 9, 0, 0, 0, 1]
      ∧ ((gator_commit_buffer (example_state 6 ⟨3, 5, 4, true, none⟩) 0 1).percpu 0 1).commit
          = 4 := by
  have h := commit_backpatches (example_state 6 (example_chan (List.range 64) 20 60 10))
    (example_state 6 ⟨3, 5, 4, true, none⟩) 0 1 6 (List.range 64)
    (by decide) rfl rfl rfl rfl (by decide) (by decide) rfl
  refine ⟨h.2.1, by decide, ?_⟩
  rw [h.2.2.2]
  rfl

/-! ## What a write stores -/

/-- Two offsets below the size that land on the same position are equal. -/
theorem offset_inj (r a b s : Nat) (ha : a < s) (hb : b < s)
    (h : (r + a) % s = (r + b) % s) : a = b := by
  have h1 : a ≡ b [MOD s] := Nat.ModEq.add_left_cancel' r h
  have h2 : a % s = b % s := h1
  rwa [Nat.mod_eq_of_lt ha, Nat.mod_eq_of_lt hb] at h2

/-- The write loop stores byte `j` of `x` at `(write + j) mod size` and leaves
every other position, as long as `x` is no longer than the buffer. -/
theorem write_loop_content (k : Nat) (x : List Nat) (w : Nat) (buffer : List Nat)
    (hlen : buffer.length = 2 ^ k) (hw : w < 2 ^ k) (hx : x.length ≤ 2 ^ k) :
    (∀ j, j < x.length →
        (write_loop (2 ^ k - 1) x w buffer).2[(w + j) % 2 ^ k]? = x[j]?)
      ∧ ∀ p, (∀ j, j < x.length → p ≠ (w + j) % 2 ^ k) →
          (write_loop (2 ^ k - 1) x w buffer).2[p]? = buffer[p]? := by
  induction x generalizing w buffer with
  | nil =>
    refine ⟨fun j hj => ?_, fun p _ => rfl⟩
    simp at hj
  | cons b x ih =>
    have hpos : 0 < 2 ^ k := by positivity
    simp only [List.length_cons] at hx
    obtain ⟨ih1, ih2⟩ := ih ((w + 1) % 2 ^ k) (buffer.set w b)
      (by rw [List.length_set]; exact hlen) (Nat.mod_lt _ hpos) (by omega)
    simp only [write_loop, Nat.and_pow_two_sub_one_eq_mod, List.length_cons]
    constructor
    · intro j hj
      cases j with
      | zero =>
        rw [add_zero, Nat.mod_eq_of_lt hw, ih2 w, List.getElem?_set_self (by rw [hlen]; exact hw)]
        · simp
        · intro i hi heq
          rw [step_mod] at heq
          have h0 : (w + 0) % 2 ^ k = (w + (i + 1)) % 2 ^ k := by
            rw [add_zero, Nat.mod_eq_of_lt hw]; exact heq
          have := offset_inj w 0 (i + 1) (2 ^ k) hpos (by omega) h0
          omega
      | succ j =>
        rw [← step_mod w j (2 ^ k), ih1 j (by omega)]
        simp
    · intro p hp
      rw [ih2 p, List.getElem?_set_ne]
      · have := hp 0 (by omega)
        rw [add_zero, Nat.mod_eq_of_lt hw] at this
        exact this.symm
      · intro i hi
        rw [step_mod]
        exact hp (i + 1) (by omega)

/-! ## The ring invariant -/

/-- An offset below the size, from a cursor inside the buffer. -/
theorem offset_mod (r n s : Nat) (hr : r < s) (hn : n < s) :
    (r + n) % s = if r + n < s then r + n else r + n - s :=
  add_mod_cases (r + n) s (by omega)

theorem inv_filled {g : State} {cpu buftype k : Nat} {u c : List Nat}
    (h : Inv g cpu buftype k u c) : filled g cpu buftype = ((u.length + c.length : Nat) : Int) := by
  unfold filled
  simp only
  have hw := h.write
  rw [add_assoc, offset_mod _ _ _ h.read h.room] at hw
  rw [hw, h.size]
  have hr := h.read
  have hroom := h.room
  generalize (g.percpu cpu buftype).read = r at *
  generalize 2 ^ k = S at *
  generalize u.length + c.length = n at *
  split_ifs <;> omega

/-- What fits in `buffer_bytes_available` leaves at least 200 bytes free. -/
theorem fits_room {g : State} {cpu buftype k : Nat} {u c : List Nat} (n : Nat)
    (h : Inv g cpu buftype k u c) (hn : (n : Int) ≤ buffer_bytes_available g cpu buftype) :
    u.length + c.length + n + 200 ≤ 2 ^ k := by
  rw [buffer_bytes_available_eq, inv_filled h, h.size] at hn
  split_ifs at hn <;> omega

theorem write_bytes_slot (g g' : State) (cpu buftype : Nat) (x buffer : List Nat)
    (hbuf : (g.percpu cpu buftype).buffer = some buffer)
    (h : gator_buffer_write_bytes g cpu buftype x = some g') :
    g'.percpu cpu buftype =
      { g.percpu cpu buftype with
        write := (write_loop (g.gator_buffer_mask buftype) x (g.percpu cpu buftype).write
          buffer).1
        buffer := some (write_loop (g.gator_buffer_mask buftype) x (g.percpu cpu buftype).write
          buffer).2 } := by
  rw [write_bytes_some g cpu buftype x buffer hbuf] at h
  injection h with h
  subst h
  by_cases hx : x = []
  · subst hx
    simp only [if_true, write_loop]
    cases hc : g.percpu cpu buftype
    rw [hc] at hbuf
    simp only at hbuf
    simp [hbuf]
  · simp only [hx, if_false, percpu_setChan_same]

theorem getElem?_append3_left (u c x : List Nat) (i : Nat) (h : i < u.length + c.length) :
    (u ++ (c ++ x))[i]? = (u ++ c)[i]? := by
  rw [← List.append_assoc]
  exact List.getElem?_append_left (by rw [List.length_append]; exact h)

theorem getElem?_append3_right (u c x : List Nat) (i : Nat) (h : u.length + c.length ≤ i) :
    (u ++ (c ++ x))[i]? = x[i - (u.length + c.length)]? := by
  rw [← List.append_assoc, List.getElem?_append_right (by rw [List.length_append]; exact h),
    List.length_append]

/-- A write that fits keeps the ring and appends to the uncommitted bytes. -/
theorem inv_write {g : State} {cpu buftype k : Nat} {u c : List Nat} (x : List Nat)
    (h : Inv g cpu buftype k u c)
    (hfit : (x.length : Int) ≤ buffer_bytes_available g cpu buftype) :
    ∃ g', gator_buffer_write_bytes g cpu buftype x = some g' ∧ Inv g' cpu buftype k u (c ++ x) := by
  obtain ⟨buffer, hbuf, hlen, hcont⟩ := h.content
  have hroom := fits_room x.length h hfit
  obtain ⟨g', hg'⟩ : ∃ g', gator_buffer_write_bytes g cpu buftype x = some g' :=
    ⟨_, write_bytes_some g cpu buftype x buffer hbuf⟩
  have hk := keeps_write g g' cpu buftype x hg'
  have hslot := write_bytes_slot g g' cpu buftype x buffer hbuf hg'
  have hpos : 0 < 2 ^ k := by positivity
  have hwlt : (g.percpu cpu buftype).write < 2 ^ k := by rw [h.write]; exact Nat.mod_lt _ hpos
  obtain ⟨hc1, hc2⟩ := write_loop_content k x (g.percpu cpu buftype).write buffer hlen hwlt
    (by omega)
  have hwj : ∀ j, ((g.percpu cpu buftype).write + j) % 2 ^ k
      = ((g.percpu cpu buftype).read + (u.length + c.length + j)) % 2 ^ k := by
    intro j
    rw [h.write, Nat.mod_add_mod]
    congr 1
    omega
  refine ⟨g', hg', ?_⟩
  rw [h.mask] at hslot
  refine ⟨hk.size ▸ h.size, hk.mask ▸ h.mask, by rw [hslot]; exact h.read,
    by rw [hslot]; exact h.commit, ?_, by rw [List.length_append]; omega, ?_⟩
  · rw [hslot]
    simp only [write_loop_cursor, List.length_append]
    split_ifs with hx
    · subst hx
      rw [h.write]
      rfl
    · rw [hwj]
      congr 1
      omega
  · refine ⟨(write_loop (2 ^ k - 1) x (g.percpu cpu buftype).write buffer).2, by rw [hslot],
      by rw [write_loop_length]; exact hlen, ?_⟩
    intro i hi
    rw [List.length_append] at hi
    rw [hslot]
    simp only
    by_cases hlt : i < u.length + c.length
    · rw [hc2, hcont i hlt, getElem?_append3_left u c x i hlt]
      intro j hj heq
      rw [hwj] at heq
      have := offset_inj _ i (u.length + c.length + j) (2 ^ k) (by omega) (by omega) heq
      omega
    · have hj : i - (u.length + c.length) < x.length := by omega
      have hi' : i = u.length + c.length + (i - (u.length + c.length)) := by omega
      have hpos' := hc1 _ hj
      rw [hwj, ← hi'] at hpos'
      rw [hpos', getElem?_append3_right u c x i (by omega)]

/-- The ring invariant only reads the size, the mask, the cursors and the
storage of the slot. -/
theorem inv_congr {g g' : State} {cpu buftype k : Nat} {u c : List Nat}
    (h : Inv g cpu buftype k u c)
    (hs : g'.gator_buffer_size buftype = g.gator_buffer_size buftype)
    (hm : g'.gator_buffer_mask buftype = g.gator_buffer_mask buftype)
    (hr : (g'.percpu cpu buftype).read = (g.percpu cpu buftype).read)
    (hc : (g'.percpu cpu buftype).commit = (g.percpu cpu buftype).commit)
    (hw : (g'.percpu cpu buftype).write = (g.percpu cpu buftype).write)
    (hb : (g'.percpu cpu buftype).buffer = (g.percpu cpu buftype).buffer) :
    Inv g' cpu buftype k u c :=
  ⟨hs ▸ h.size, hm ▸ h.mask, hr ▸ h.read, by rw [hc, hr]; exact h.commit,
    by rw [hw, hr]; exact h.write, h.room, by rw [hb, hr]; exact h.content⟩

theorem inv_check_space {g : State} {cpu buftype k : Nat} {u c : List Nat} (bytes : Int)
    (h : Inv g cpu buftype k u c) :
    Inv (buffer_check_space g cpu buftype bytes).2 cpu buftype k u c := by
  apply inv_congr h <;> simp [buffer_check_space]

/-- When `buffer_check_space` returns true, the bytes asked for are available
right afterwards. -/
theorem check_space_true_avail (g : State) (cpu buftype : Nat) (bytes : Int)
    (hok : (buffer_check_space g cpu buftype bytes).1 = true) :
    bytes ≤ buffer_bytes_available (buffer_check_space g cpu buftype bytes).2 cpu buftype := by
  have h1 : bytes ≤ buffer_bytes_available g cpu buftype := by
    by_contra hlt
    simp [buffer_check_space, not_le.mp hlt] at hok
  have hf : filled (buffer_check_space g cpu buftype bytes).2 cpu buftype
      = filled g cpu buftype := by
    apply filled_congr <;> simp [buffer_check_space]
  have hflag : ((buffer_check_space g cpu buftype bytes).2.percpu cpu buftype).space_available
      = true := by
    simp [buffer_check_space, not_lt.mpr h1]
  have hs : (buffer_check_space g cpu buftype bytes).2.gator_buffer_size buftype
      = g.gator_buffer_size buftype := by
    simp [buffer_check_space]
  rw [buffer_bytes_available_eq] at h1 ⊢
  rw [hf, hflag, hs]
  simp only [if_true]
  split_ifs at h1 <;> omega

/-- The circular distance between two cursors of the ring. -/
theorem dist_offset (r n s : Nat) (hr : r < s) (hn : n < s) : dist s r ((r + n) % s) = n := by
  have hlt : (r + n) % s < s := Nat.mod_lt _ (by omega)
  rw [dist_cases s r _ hr hlt, offset_mod r n s hr hn]
  split_ifs <;> omega

/-- A read whose copy succeeds delivers the committed unread bytes, all of
them, and leaves a ring that holds the uncommitted bytes only. -/
theorem inv_drain {g : State} {cpu buftype k : Nat} {u c : List Nat}
    (h : Inv g cpu buftype k u c) :
    (drain g cpu buftype false).1 = (u.length : Int)
      ∧ (drain g cpu buftype false).2.1 = u
      ∧ Inv (drain g cpu buftype false).2.2 cpu buftype k [] c := by
  obtain ⟨buffer, hbuf, hlen, hcont⟩ := h.content
  have hpos : 0 < 2 ^ k := by positivity
  have hclt : (g.percpu cpu buftype).commit < 2 ^ k := by rw [h.commit]; exact Nat.mod_lt _ hpos
  have hul : u.length < 2 ^ k := by have := h.room; omega
  have hd := drain_some g cpu buftype buffer hbuf (by rw [h.size]; exact hlen)
    (by rw [h.size]; exact h.read) (by rw [h.size]; exact hclt)
  have hdist : dist (2 ^ k) (g.percpu cpu buftype).read (g.percpu cpu buftype).commit
      = u.length := by
    rw [h.commit]
    exact dist_offset _ _ _ h.read hul
  rw [h.size, hdist] at hd
  rw [hd]
  refine ⟨?_, ?_, ?_⟩
  · simp only
    have : (((g.percpu cpu buftype).commit : Int) - ((g.percpu cpu buftype).read : Int))
        % ((2 ^ k : Nat) : Int) = (dist (2 ^ k) (g.percpu cpu buftype).read
          (g.percpu cpu buftype).commit : Int) := by
      unfold dist
      rw [Int.toNat_of_nonneg (Int.emod_nonneg _ (by positivity))]
    rw [this, hdist]
  · simp only
    apply List.ext_getElem?
    intro i
    by_cases hi : i < u.length
    · simp only [ring_slice, List.getElem?_map, List.getElem?_range hi, Option.map_some',
        List.getD_eq_getElem?_getD]
      rw [hcont i (by omega), List.getElem?_append_left hi, List.getElem?_eq_getElem hi]
      rfl
    · rw [List.getElem?_eq_none (by simpa using hi), List.getElem?_eq_none (by simpa using hi)]
  · simp only
    have hoff : ∀ j, ((g.percpu cpu buftype).commit + j) % 2 ^ k
        = ((g.percpu cpu buftype).read + (u.length + j)) % 2 ^ k := by
      intro j
      rw [h.commit, Nat.mod_add_mod, add_assoc]
    refine ⟨h.size, h.mask, by simpa using hclt, ?_, ?_, ?_, ?_⟩
    · simp only [percpu_setChan_same, List.length_nil, add_zero]
      exact (Nat.mod_eq_of_lt hclt).symm
    · simp only [percpu_setChan_same, List.length_nil, add_zero]
      rw [hoff, h.write, add_assoc]
    · have := h.room
      simp only [List.length_nil]
      omega
    · refine ⟨buffer, by simpa using hbuf, hlen, ?_⟩
      intro i hi
      simp only [List.length_nil, zero_add] at hi
      simp only [percpu_setChan_same, List.nil_append]
      rw [hoff, hcont (u.length + i) (by omega), List.getElem?_append_right (by omega)]
      congr 2
      omega

/-! ## Commit keeps the ring -/

@[simp] theorem seal_frame_length (tl : Nat) (frame : List Nat) :
    (seal_frame tl frame).length = frame.length := by
  simp [seal_frame]

theorem seal_frame_patched (tl b : Nat) (frame : List Nat) (hb : b < 4)
    (hlt : tl + b < frame.length) :
    (seal_frame tl frame)[tl + b]?
      = some (length_byte ((frame.length : Int) - (tl : Int) - 4) b) := by
  have hcases : b = 0 ∨ b = 1 ∨ b = 2 ∨ b = 3 := by omega
  simp only [seal_frame]
  rcases hcases with rfl | rfl | rfl | rfl
  · rw [add_zero, List.getElem?_set_ne (by omega), List.getElem?_set_ne (by omega),
      List.getElem?_set_ne (by omega), List.getElem?_set_self (by omega)]
  · rw [List.getElem?_set_ne (by omega), List.getElem?_set_ne (by omega),
      List.getElem?_set_self (by rw [List.length_set]; omega)]
  · rw [List.getElem?_set_ne (by omega),
      List.getElem?_set_self (by rw [List.length_set, List.length_set]; omega)]
  · rw [List.getElem?_set_self
      (by rw [List.length_set, List.length_set, List.length_set]; omega)]

theorem seal_frame_other (tl j : Nat) (frame : List Nat) (hj : ∀ b, b < 4 → j ≠ tl + b) :
    (seal_frame tl frame)[j]? = frame[j]? := by
  have h0 := hj 0 (by omega)
  have h1 := hj 1 (by omega)
  have h2 := hj 2 (by omega)
  have h3 := hj 3 (by omega)
  simp only [seal_frame]
  rw [List.getElem?_set_ne (by omega), List.getElem?_set_ne (by omega),
    List.getElem?_set_ne (by omega), List.getElem?_set_ne (by omega)]

theorem two_le_of_pow (k n : Nat) (h : n + 200 ≤ 2 ^ k) : 2 ≤ k := by
  by_contra hk
  have h1 : k ≤ 1 := by omega
  have h2 : 2 ^ k ≤ 2 ^ 1 := Nat.pow_le_pow_right (by norm_num) h1
  omega

/-- `buffer_bytes_available` only reads the two cursors, the flag and the
size. -/
theorem avail_congr (g g' : State) (cpu buftype : Nat)
    (hr : (g'.percpu cpu buftype).read = (g.percpu cpu buftype).read)
    (hw : (g'.percpu cpu buftype).write = (g.percpu cpu buftype).write)
    (hf : (g'.percpu cpu buftype).space_available = (g.percpu cpu buftype).space_available)
    (hs : g'.gator_buffer_size buftype = g.gator_buffer_size buftype) :
    buffer_bytes_available g' cpu buftype = buffer_bytes_available g cpu buftype := by
  rw [buffer_bytes_available_eq, buffer_bytes_available_eq, filled_congr g g' cpu buftype hr hw hs,
    hf, hs]

/-- The slot between the backpatch and `marshal_frame`: the ring holds the
sealed frame as committed bytes and nothing uncommitted. -/
theorem inv_committed {g : State} {cpu buftype k : Nat} {u c : List Nat} (buffer : List Nat)
    (h : Inv g cpu buftype k u c)
    (hbuf : (g.percpu cpu buftype).buffer = some buffer)
    (hroom : u.length + c.length + 200 ≤ 2 ^ k) :
    Inv (g.setChan cpu buftype (committed g cpu buftype buffer)) cpu buftype k
      (u ++ seal_frame (type_length g) c) [] := by
  obtain ⟨buffer', hbuf', hlen, hcont⟩ := h.content
  rw [hbuf] at hbuf'
  injection hbuf' with hbuf'
  subst hbuf'
  have hpos : 0 < 2 ^ k := by positivity
  have hk : 2 ≤ k := two_le_of_pow k _ hroom
  have htl : type_length g ≤ 1 := by unfold type_length; split_ifs <;> omega
  have hclt : (g.percpu cpu buftype).commit < 2 ^ k := by rw [h.commit]; exact Nat.mod_lt _ hpos
  have hwlt : (g.percpu cpu buftype).write < 2 ^ k := by rw [h.write]; exact Nat.mod_lt _ hpos
  have hpl : payload_length g cpu buftype = (c.length : Int) - (type_length g : Int) - 4 := by
    rw [payload_length_eq g cpu buftype (by rw [h.size]; exact hclt) (by rw [h.size]; exact hwlt),
      h.size]
    have : dist (2 ^ k) (g.percpu cpu buftype).commit (g.percpu cpu buftype).write
        = c.length := by
      have hw := h.write
      rw [← Nat.mod_add_mod, ← h.commit] at hw
      rw [hw]
      exact dist_offset _ _ _ hclt (by omega)
    rw [this]
  obtain ⟨hb1, hb2⟩ := backpatch_spec k (g.percpu cpu buftype).commit (type_length g)
    (payload_length g cpu buftype) buffer hk hlen hclt htl
  have hoff : ∀ b, ((g.percpu cpu buftype).commit + type_length g + b) % 2 ^ k
      = ((g.percpu cpu buftype).read + (u.length + type_length g + b)) % 2 ^ k := by
    intro b
    rw [h.commit, add_assoc, Nat.mod_add_mod]
    congr 1
    omega
  refine ⟨h.size, h.mask, by simpa [committed] using h.read, ?_, ?_, ?_, ?_⟩
  · simp only [percpu_setChan_same, committed, List.length_append, seal_frame_length]
    rw [h.write, add_assoc]
  · simp only [percpu_setChan_same, committed, List.length_append, seal_frame_length,
      List.length_nil, add_zero]
    rw [h.write, add_assoc]
  · simp only [List.length_append, seal_frame_length, List.length_nil, add_zero]
    omega
  · refine ⟨backpatch (2 ^ k - 1) (g.percpu cpu buftype).commit (type_length g)
        (payload_length g cpu buftype) [0, 1, 2, 3] buffer,
      by simp only [percpu_setChan_same, committed, h.mask],
      by rw [backpatch_length]; exact hlen, ?_⟩
    intro i hi
    simp only [List.length_append, seal_frame_length, List.length_nil, add_zero] at hi
    simp only [percpu_setChan_same, committed, List.append_nil, h.mask]
    by_cases hp : ∃ b, b < 4 ∧ i = u.length + type_length g + b
    · obtain ⟨b, hb, rfl⟩ := hp
      have h1 := hb1 b hb
      rw [hoff] at h1
      rw [h1, List.getElem?_append_right (by omega)]
      have e : u.length + type_length g + b - u.length = type_length g + b := by omega
      rw [e, seal_frame_patched _ b c hb (by omega), hpl]
    · have hne : ∀ b, b < 4 → i ≠ u.length + type_length g + b := fun b hb heq => hp ⟨b, hb, heq⟩
      rw [hb2, hcont i hi]
      · by_cases hiu : i < u.length
        · rw [List.getElem?_append_left hiu, List.getElem?_append_left hiu]
        · rw [List.getElem?_append_right (by omega), List.getElem?_append_right (by omega),
            seal_frame_other]
          intro b hb heq
          exact hne b hb (by omega)
      · intro b hb heq
        rw [hoff] at heq
        have := offset_inj _ i (u.length + type_length g + b) (2 ^ k) (by omega) (by omega) heq
        exact hne b hb this

/-- A commit whose frame marker fits keeps the ring: the bytes written since
the last commit become committed, sealed, and the marker starts the next
frame. -/
theorem inv_commit {g : State} {cpu buftype k : Nat} {u c : List Nat}
    (h : Inv g cpu buftype k u c)
    (hfit : ((g.frame_marker cpu buftype).length : Int) ≤ buffer_bytes_available g cpu buftype) :
    Inv (gator_commit_buffer g cpu buftype) cpu buftype k
      (u ++ seal_frame (type_length g) c) (g.frame_marker cpu buftype) := by
  obtain ⟨buffer, hbuf, -, -⟩ := h.content
  have hroom := fits_room _ h hfit
  have h1 := inv_committed buffer h hbuf (by omega)
  have hav : buffer_bytes_available (g.setChan cpu buftype (committed g cpu buftype buffer))
      cpu buftype = buffer_bytes_available g cpu buftype := by
    apply avail_congr <;> simp [committed]
  obtain ⟨g2, hg2, h2⟩ := inv_write (g.frame_marker cpu buftype) h1
    (by rw [hav]; exact hfit)
  rw [commit_some g cpu buftype buffer hbuf]
  have hm : marshal_frame (g.setChan cpu buftype (committed g cpu buftype buffer)) cpu buftype
      = g2 := by
    simp only [marshal_frame, percpu_setChan_same, committed, frame_marker_setChan]
    simp only [frame_marker_setChan, committed] at hg2
    rw [hg2]
    rfl
  rw [hm]
  rw [List.nil_append] at h2
  exact inv_congr h2 rfl rfl rfl rfl rfl rfl

/-! ## Runs keep the ring -/

theorem type_length_congr (g g' : State) (h : g'.gator_response_type = g.gator_response_type) :
    type_length g' = type_length g := by
  simp [type_length, h]

theorem keeps_check_space_config (g : State) (cpu buftype : Nat) (bytes : Int) :
    (buffer_check_space g cpu buftype bytes).2.frame_marker = g.frame_marker
      ∧ (buffer_check_space g cpu buftype bytes).2.gator_response_type
          = g.gator_response_type := by
  simp [buffer_check_space]

/-- One call that fits, made on a ring: the call returns, the slot is a ring
again, and the frame marker and the response type are as before. -/
theorem step_inv {g : State} {cpu buftype k : Nat} {u c : List Nat} (op : Op)
    (h : Inv g cpu buftype k u c) (hfit : op_fits cpu buftype g op = true) :
    ∃ g1 o u1 c1, step cpu buftype g op = some (g1, o) ∧ Inv g1 cpu buftype k u1 c1
      ∧ g1.frame_marker = g.frame_marker ∧ g1.gator_response_type = g.gator_response_type := by
  cases op with
  | write x =>
    obtain ⟨g1, hw, h1⟩ := inv_write x h (of_decide_eq_true hfit)
    have hk := keeps_write g g1 cpu buftype x hw
    exact ⟨g1, [], u, c ++ x, by simp [step, hw], h1, hk.marker, hk.response_type⟩
  | check_space bytes =>
    have hk := keeps_check_space_config g cpu buftype bytes
    exact ⟨_, _, u, c, rfl, inv_check_space bytes h, hk.1, hk.2⟩
  | checked_write x =>
    have hk := keeps_check_space_config g cpu buftype x.length
    have h0 := inv_check_space (x.length : Int) h
    by_cases hok : (buffer_check_space g cpu buftype x.length).1 = true
    · have hav := check_space_true_avail g cpu buftype x.length hok
      obtain ⟨g1, hw, h1⟩ := inv_write x h0 hav
      have hk1 := keeps_write _ g1 cpu buftype x hw
      exact ⟨g1, _, u, c ++ x, by simp only [step, hok, if_true, hw, Option.map_some']; rfl, h1,
        hk1.marker.trans hk.1, hk1.response_type.trans hk.2⟩
    · exact ⟨_, _, u, c, by simp only [step, hok, if_false]; rfl, h0, hk.1, hk.2⟩
  | commit =>
    have hk := keeps_commit g cpu buftype
    exact ⟨_, [], _, _, rfl, inv_commit h (of_decide_eq_true hfit), hk.marker,
      hk.response_type⟩
  | check =>
    rcases buffer_check_cases g cpu buftype with hc | hc
    · have hk := keeps_commit g cpu buftype
      exact ⟨_, [], _, _, rfl, by simp only [hc]; exact inv_commit h (of_decide_eq_true hfit),
        by simp only [hc]; exact hk.marker, by simp only [hc]; exact hk.response_type⟩
    · exact ⟨_, [], u, c, rfl, by simp only [hc]; exact h, by simp only [hc],
        by simp only [hc]⟩
  | read =>
    have hk := keeps_drain g cpu buftype false
    exact ⟨_, _, [], c, rfl, (inv_drain h).2.2, hk.marker, hk.response_type⟩

/-- A run of calls that fit, started on a ring, returns and ends on a ring,
the frame marker being as before. -/
theorem run_inv (cpu buftype k : Nat) (ops : List Op) (g : State) (u c : List Nat)
    (h : Inv g cpu buftype k u c) (hfits : fits cpu buftype ops g = true) :
    ∃ g' obs u' c', exec cpu buftype ops g = some (g', obs) ∧ Inv g' cpu buftype k u' c'
      ∧ g'.frame_marker = g.frame_marker := by
  induction ops generalizing g u c with
  | nil => exact ⟨g, [], u, c, rfl, h, rfl⟩
  | cons op ops ih =>
    simp only [fits, Bool.and_eq_true] at hfits
    obtain ⟨g1, o, u1, c1, hs, h1, hm, -⟩ := step_inv op h hfits.1
    have hf1 : fits cpu buftype ops g1 = true := by
      have := hfits.2
      simp only [hs] at this
      exact this
    obtain ⟨g', obs, u', c', he, h', hm'⟩ := ih g1 u1 c1 h1 hf1
    exact ⟨g', o ++ obs, u', c', by simp only [exec, hs, he], h', hm'.trans hm⟩

/-- A run of writes, commits and reads that fit, started on a ring that holds
`u` then `c`: the bytes delivered, followed by the committed bytes still
unread, are `u` followed by the frames the run commits. -/
theorem run_plain (cpu buftype k tl : Nat) (marker : List Nat) (ops : List Op) (g : State)
    (u c : List Nat)
    (h : Inv g cpu buftype k u c) (hfits : fits cpu buftype ops g = true)
    (hplain : plain ops = true)
    (htl : type_length g = tl) (hm : g.frame_marker cpu buftype = marker) :
    ∃ g' obs u' c', exec cpu buftype ops g = some (g', obs) ∧ Inv g' cpu buftype k u' c'
      ∧ delivered obs ++ u' = u ++ (frames tl marker ops c).flatten := by
  induction ops generalizing g u c with
  | nil => exact ⟨g, [], u, c, rfl, h, by simp [delivered, frames]⟩
  | cons op ops ih =>
    simp only [fits, Bool.and_eq_true] at hfits
    have hf1 : ∀ g1 o, step cpu buftype g op = some (g1, o) →
        fits cpu buftype ops g1 = true := by
      intro g1 o hs
      have := hfits.2
      simp only [hs] at this
      exact this
    cases op with
    | write x =>
      obtain ⟨g1, hw, h1⟩ := inv_write x h (of_decide_eq_true hfits.1)
      have hs : step cpu buftype g (.write x) = some (g1, []) := by simp [step, hw]
      have hk := keeps_write g g1 cpu buftype x hw
      obtain ⟨g', obs, u', c', he, h', hd⟩ := ih g1 u (c ++ x) h1 (hf1 g1 [] hs) hplain
        ((type_length_congr g g1 hk.response_type).trans htl) (by rw [hk.marker]; exact hm)
      exact ⟨g', [] ++ obs, u', c', by simp only [exec, hs, he], h', by
        simpa [frames] using hd⟩
    | commit =>
      have hs : step cpu buftype g .commit = some (gator_commit_buffer g cpu buftype, []) := rfl
      have hk := keeps_commit g cpu buftype
      have h1 := inv_commit h (of_decide_eq_true hfits.1)
      rw [htl, hm] at h1
      obtain ⟨g', obs, u', c', he, h', hd⟩ := ih _ _ _ h1 (hf1 _ [] hs) hplain
        ((type_length_congr g _ hk.response_type).trans htl) (by rw [hk.marker]; exact hm)
      exact ⟨g', [] ++ obs, u', c', by simp only [exec, hs, he], h', by
        simpa [frames] using hd⟩
    | read =>
      have hs : step cpu buftype g .read
          = some ((drain g cpu buftype false).2.2, [.delivered (drain g cpu buftype false).2.1]) :=
        rfl
      have hk := keeps_drain g cpu buftype false
      obtain ⟨-, hout, h1⟩ := inv_drain h
      obtain ⟨g', obs, u', c', he, h', hd⟩ := ih _ _ _ h1 (hf1 _ _ hs) hplain
        ((type_length_congr g _ hk.response_type).trans htl) (by rw [hk.marker]; exact hm)
      refine ⟨g', [.delivered (drain g cpu buftype false).2.1] ++ obs, u', c',
        by simp only [exec, hs, he], h', ?_⟩
      rw [List.nil_append] at hd
      show (drain g cpu buftype false).2.1 ++ delivered obs ++ u' = _
      rw [hout, List.append_assoc, hd]
      rfl
    | check_space bytes => simp [plain] at hplain
    | checked_write x => simp [plain] at hplain
    | check => simp [plain] at hplain

/-! ## From the state `gator_op_setup` leaves -/

/-- A slot with all three cursors at 0 and storage of the full size is an
empty ring. -/
theorem inv_fresh (g : State) (cpu buftype k : Nat) (buffer : List Nat)
    (hsize : g.gator_buffer_size buftype = 2 ^ k)
    (hmask : g.gator_buffer_mask buftype = 2 ^ k - 1)
    (hread : (g.percpu cpu buftype).read = 0)
    (hcommit : (g.percpu cpu buftype).commit = 0)
    (hwrite : (g.percpu cpu buftype).write = 0)
    (hbuf : (g.percpu cpu buftype).buffer = some buffer)
    (hlen : buffer.length = 2 ^ k) : Inv g cpu buftype k [] [] := by
  have hpos : 0 < 2 ^ k := by positivity
  refine ⟨hsize, hmask, by rw [hread]; exact hpos, by rw [hcommit, hread]; rfl,
    by rw [hwrite, hread]; rfl, by simp, buffer, hbuf, hlen, ?_⟩
  intro i hi
  simp at hi

/-- C1 (as amended). Start from a slot as `gator_op_setup` leaves it (cursors
at 0, storage of the power-of-two capacity) and make any sequence of
`gator_buffer_write_bytes` and `gator_commit_buffer` calls, and of reads, in
which every write, and every frame marker a commit appends, stays within
`buffer_bytes_available`. Then every call returns, and the bytes the reads
deliver, a final read included, are the committed frames in commit order: each
is the bytes written since the commit before it (the marker first), with the
four bytes after the response type holding the payload length that
`gator_commit_buffer` stores there; every other byte is delivered as it was
written. -/
theorem committed_frames_delivered (g : State) (cpu buftype k : Nat) (buffer : List Nat)
    (ops : List Op)
    (hsize : g.gator_buffer_size buftype = 2 ^ k)
    (hmask : g.gator_buffer_mask buftype = 2 ^ k - 1)
    (hread : (g.percpu cpu buftype).read = 0)
    (hcommit : (g.percpu cpu buftype).commit = 0)
    (hwrite : (g.percpu cpu buftype).write = 0)
    (hbuf : (g.percpu cpu buftype).buffer = some buffer)
    (hlen : buffer.length = 2 ^ k)
    (hplain : plain ops = true)
    (hfits : fits cpu buftype ops g = true) :
    (∃ g1 obs, exec cpu buftype ops g = some (g1, obs)
        ∧ delivered obs ++ (drain g1 cpu buftype false).2.1
            = (frames (type_length g) (g.frame_marker cpu buftype) ops []).flatten)
      ∧ ∀ frame : List Nat,
          (seal_frame (type_length g) frame).length = frame.length
          ∧ (∀ j, (∀ b, b < 4 → j ≠ type_length g + b) →
              (seal_frame (type_length g) frame)[j]? = frame[j]?)
          ∧ ∀ b, b < 4 → type_length g + b < frame.length →
              (seal_frame (type_length g) frame)[type_length g + b]?
                = some (length_byte ((frame.length : Int) - (type_length g : Int) - 4) b) := by
  constructor
  · have h0 := inv_fresh g cpu buftype k buffer hsize hmask hread hcommit hwrite hbuf hlen
    obtain ⟨g1, obs, u', c', he, h1, hd⟩ := run_plain cpu buftype k (type_length g)
      (g.frame_marker cpu buftype) ops g [] [] h0 hfits hplain rfl rfl
    refine ⟨g1, obs, he, ?_⟩
    rw [(inv_drain h1).2.1, hd, List.nil_append]
  · intro frame
    exact ⟨seal_frame_length _ _, fun j hj => seal_frame_other _ j frame hj,
      fun b hb hlt => seal_frame_patched _ b frame hb hlt⟩

/-- C1 as stated fails. On an empty slot of capacity 256, write the eight
bytes 1 to 8 and commit: the write fits, the committed payload is those eight
bytes, and the read delivers 1, 3, 0, 0, 0, 6, 7, 8, since the commit has stored
the payload length 3 over the second to fifth byte. -/
theorem committed_payload_counterexample :
    fits 0 1 [Op.write [1, 2, 3, 4, 5, 6, 7, 8], Op.commit]
        (example_state 8 (example_chan (List.replicate 256 0) 0 0 0)) = true
      ∧ committed_payload [Op.write [1, 2, 3, 4, 5, 6, 7, 8], Op.commit] []
          = [1, 2, 3, 4, 5, 6, 7, 8]
      ∧ (exec 0 1 [Op.write [1, 2, 3, 4, 5, 6, 7, 8], Op.commit]
          (example_state 8 (example_chan (List.replicate 256 0) 0 0 0))).map
            (fun r => delivered r.2 ++ (drain r.1 0 1 false).2.1)
          = some [1, 3, 0, 0, 0, 6, 7, 8] := by
  decide

/-- C1 (as amended) on an empty slot of capacity 256 and seven rounds of
write, commit and read, in which the cursors wrap: every call fits, and what
the reads deliver is the committed frames; the second frame starts with the
marker, its length field holding 42. -/
theorem committed_frames_delivered_witness :
    fits 0 1 example_rounds (example_state 8 (example_chan (List.replicate 256 0) 0 0 0)) = true
      ∧ (∃ g1 obs, exec 0 1 example_rounds
            (example_state 8 (example_chan (List.replicate 256 0) 0 0 0)) = some (g1, obs)
          ∧ delivered obs ++ (drain g1 0 1 false).2.1
              = (frames 1 [1, 0, 0, 0, 0, 2, 0] example_rounds []).flatten)
      ∧ ((frames 1 [1, 0, 0, 0, 0, 2, 0] example_rounds []).flatten.drop 40).take 9
          = [1, 42, 0, 0, 0, 2, 0, 0, 1] :=
  ⟨by decide,
    (committed_frames_delivered (example_state 8 (example_chan (List.replicate 256 0) 0 0 0))
      0 1 8 (List.replicate 256 0) example_rounds rfl rfl rfl rfl rfl rfl
      (List.length_replicate 256 0) (by decide) (by decide)).1,
    by decide⟩

/-! ## The cursor invariant -/

/-- On a ring the three cursors lie inside the buffer and stand in circular
order. -/
theorem inv_cursors {g : State} {cpu buftype k : Nat} {u c : List Nat}
    (h : Inv g cpu buftype k u c) :
    (g.percpu cpu buftype).read < 2 ^ k
      ∧ (g.percpu cpu buftype).commit < 2 ^ k
      ∧ (g.percpu cpu buftype).write < 2 ^ k
      ∧ dist (2 ^ k) (g.percpu cpu buftype).read (g.percpu cpu buftype).commit = u.length
      ∧ dist (2 ^ k) (g.percpu cpu buftype).commit (g.percpu cpu buftype).write = c.length
      ∧ dist (2 ^ k) (g.percpu cpu buftype).read (g.percpu cpu buftype).write
          = u.length + c.length := by
  have hpos : 0 < 2 ^ k := by positivity
  have hroom := h.room
  have hclt : (g.percpu cpu buftype).commit < 2 ^ k := by rw [h.commit]; exact Nat.mod_lt _ hpos
  have hwlt : (g.percpu cpu buftype).write < 2 ^ k := by rw [h.write]; exact Nat.mod_lt _ hpos
  refine ⟨h.read, hclt, hwlt, ?_, ?_, ?_⟩
  · rw [h.commit]
    exact dist_offset _ _ _ h.read (by omega)
  · have hw := h.write
    rw [← Nat.mod_add_mod, ← h.commit] at hw
    rw [hw]
    exact dist_offset _ _ _ hclt (by omega)
  · have hw := h.write
    rw [add_assoc] at hw
    rw [hw]
    exact dist_offset _ _ _ h.read hroom

/-- The cursors a commit leaves on a slot with storage. -/
theorem commit_cursors (g : State) (cpu buftype k : Nat) (buffer : List Nat)
    (hmask : g.gator_buffer_mask buftype = 2 ^ k - 1)
    (hbuf : (g.percpu cpu buftype).buffer = some buffer)
    (hwrite : (g.percpu cpu buftype).write < 2 ^ k) :
    ((gator_commit_buffer g cpu buftype).percpu cpu buftype).read = (g.percpu cpu buftype).read
      ∧ ((gator_commit_buffer g cpu buftype).percpu cpu buftype).commit
          = (g.percpu cpu buftype).write
      ∧ ((gator_commit_buffer g cpu buftype).percpu cpu buftype).write
          = ((g.percpu cpu buftype).write + (g.frame_marker cpu buftype).length) % 2 ^ k := by
  rw [commit_some g cpu buftype buffer hbuf]
  simp only
  have hrc := marshal_frame_read_commit (g.setChan cpu buftype (committed g cpu buftype buffer))
    cpu buftype
  refine ⟨by rw [hrc.1]; simp [committed], by rw [hrc.2]; simp [committed], ?_⟩
  have hb1 : ((g.setChan cpu buftype (committed g cpu buftype buffer)).percpu cpu buftype).buffer
      = some (backpatch (g.gator_buffer_mask buftype) (g.percpu cpu buftype).commit
          (type_length g) (payload_length g cpu buftype) [0, 1, 2, 3] buffer) := by
    simp [committed]
  obtain ⟨g2, hg2⟩ : ∃ g2, gator_buffer_write_bytes
      (g.setChan cpu buftype (committed g cpu buftype buffer)) cpu buftype
      (g.frame_marker cpu buftype) = some g2 := ⟨_, write_bytes_some _ cpu buftype _ _ hb1⟩
  have hm : marshal_frame (g.setChan cpu buftype (committed g cpu buftype buffer)) cpu buftype
      = g2 := by
    simp only [marshal_frame, hb1, frame_marker_setChan, hg2]
    rfl
  rw [hm]
  have hc := write_bytes_cursor _ g2 cpu buftype k (g.frame_marker cpu buftype) _
    (by simpa using hmask) (by simpa [committed] using hwrite) hb1 hg2
  rw [hc.1]
  simp [committed]

theorem ordered_filled {g : State} {cpu buftype k a b : Nat}
    (h : Ordered g cpu buftype k a b) : filled g cpu buftype = ((a + b : Nat) : Int) := by
  unfold filled
  simp only
  have hw := h.write
  rw [add_assoc, offset_mod _ _ _ h.read h.room] at hw
  rw [hw, h.size]
  have hr := h.read
  have hroom := h.room
  generalize (g.percpu cpu buftype).read = r at *
  generalize 2 ^ k = S at *
  generalize a + b = n at *
  split_ifs <;> omega

theorem ordered_congr {g g' : State} {cpu buftype k a b : Nat}
    (h : Ordered g cpu buftype k a b)
    (hs : g'.gator_buffer_size buftype = g.gator_buffer_size buftype)
    (hm : g'.gator_buffer_mask buftype = g.gator_buffer_mask buftype)
    (hr : (g'.percpu cpu buftype).read = (g.percpu cpu buftype).read)
    (hc : (g'.percpu cpu buftype).commit = (g.percpu cpu buftype).commit)
    (hw : (g'.percpu cpu buftype).write = (g.percpu cpu buftype).write)
    (hb : (g'.percpu cpu buftype).buffer = (g.percpu cpu buftype).buffer) :
    Ordered g' cpu buftype k a b :=
  ⟨hs ▸ h.size, hm ▸ h.mask, hr ▸ h.read, by rw [hc, hr]; exact h.commit,
    by rw [hw, hr]; exact h.write, h.room, by rw [hb]; exact h.storage⟩

/-- A write that leaves the slot short of full keeps the circular order. -/
theorem ordered_write {g : State} {cpu buftype k a b : Nat} (x : List Nat)
    (h : Ordered g cpu buftype k a b) (hroom : a + b + x.length < 2 ^ k) :
    ∃ g', gator_buffer_write_bytes g cpu buftype x = some g'
      ∧ Ordered g' cpu buftype k a (b + x.length) ∧ Keeps g g' cpu buftype := by
  obtain ⟨buffer, hbuf⟩ := h.storage
  obtain ⟨g', hg'⟩ : ∃ g', gator_buffer_write_bytes g cpu buftype x = some g' :=
    ⟨_, write_bytes_some g cpu buftype x buffer hbuf⟩
  have hk := keeps_write g g' cpu buftype x hg'
  have hslot := write_bytes_slot g g' cpu buftype x buffer hbuf hg'
  have hpos : 0 < 2 ^ k := by positivity
  have hwlt : (g.percpu cpu buftype).write < 2 ^ k := by rw [h.write]; exact Nat.mod_lt _ hpos
  obtain ⟨hcw, hcr, hcc, -, -⟩ := write_bytes_cursor g g' cpu buftype k x buffer h.mask hwlt hbuf hg'
  refine ⟨g', hg', ⟨hk.size ▸ h.size, hk.mask ▸ h.mask, by rw [hcr]; exact h.read,
    by rw [hcc, hcr]; exact h.commit, ?_, by omega, ?_⟩, hk⟩
  · rw [hcw, hcr, h.write, Nat.mod_add_mod]
    congr 1
    omega
  · rw [hslot]
    exact ⟨_, rfl⟩

/-- A commit whose frame marker leaves the slot short of full keeps the
circular order: `commit` moves up to `write` and `write` moves on by the
marker. -/
theorem ordered_commit {g : State} {cpu buftype k a b : Nat}
    (h : Ordered g cpu buftype k a b)
    (hroom : a + b + (g.frame_marker cpu buftype).length < 2 ^ k) :
    Ordered (gator_commit_buffer g cpu buftype) cpu buftype k (a + b)
      (g.frame_marker cpu buftype).length := by
  obtain ⟨buffer, hbuf⟩ := h.storage
  have hpos : 0 < 2 ^ k := by positivity
  have hwlt : (g.percpu cpu buftype).write < 2 ^ k := by rw [h.write]; exact Nat.mod_lt _ hpos
  obtain ⟨hr, hc, hw⟩ := commit_cursors g cpu buftype k buffer h.mask hbuf hwlt
  have hk := keeps_commit g cpu buftype
  refine ⟨hk.size ▸ h.size, hk.mask ▸ h.mask, by rw [hr]; exact h.read,
    by rw [hc, hr, h.write, add_assoc],
    by rw [hw, hr, h.write, Nat.mod_add_mod, add_assoc (g.percpu cpu buftype).read a b],
    hroom, ?_⟩
  have hst := hk.storage
  rw [hbuf] at hst
  cases hb : ((gator_commit_buffer g cpu buftype).percpu cpu buftype).buffer with
  | none => rw [hb] at hst; cases hst
  | some b' => exact ⟨b', rfl⟩

/-- A read whose copy succeeds keeps the circular order: `read` moves up to
`commit`. -/
theorem ordered_drain {g : State} {cpu buftype k a b : Nat}
    (h : Ordered g cpu buftype k a b) :
    Ordered (drain g cpu buftype false).2.2 cpu buftype k 0 b := by
  obtain ⟨buffer, hbuf⟩ := h.storage
  have hpos : 0 < 2 ^ k := by positivity
  have hclt : (g.percpu cpu buftype).commit < 2 ^ k := by rw [h.commit]; exact Nat.mod_lt _ hpos
  have hd : (drain g cpu buftype false).2.2
      = g.setChan cpu buftype { g.percpu cpu buftype with read := (g.percpu cpu buftype).commit } := by
    simp only [drain, hbuf, Bool.false_eq_true, and_false, if_false]
  rw [hd]
  refine ⟨h.size, h.mask, by simpa using hclt, ?_, ?_, by have := h.room; omega,
    buffer, by simpa using hbuf⟩
  · simp only [percpu_setChan_same, add_zero]
    exact (Nat.mod_eq_of_lt hclt).symm
  · simp only [percpu_setChan_same, add_zero]
    rw [h.write, h.commit, Nat.mod_add_mod]

/-- One call that has room, made on a slot in circular order: the call returns
and the slot is in circular order again, the frame marker being as before. -/
theorem step_ordered {g : State} {cpu buftype k a b : Nat} (op : Op)
    (h : Ordered g cpu buftype k a b) (hroom : op_room cpu buftype g op = true) :
    ∃ g1 o a1 b1, step cpu buftype g op = some (g1, o) ∧ Ordered g1 cpu buftype k a1 b1 := by
  have hf := ordered_filled h
  cases op with
  | write x =>
    have hr : a + b + x.length < 2 ^ k := by
      have := of_decide_eq_true hroom
      rw [hf, h.size] at this
      omega
    obtain ⟨g1, hw, h1, -⟩ := ordered_write x h hr
    exact ⟨g1, [], a, b + x.length, by simp [step, hw], h1⟩
  | check_space bytes =>
    exact ⟨_, _, a, b, rfl, by apply ordered_congr h <;> simp [buffer_check_space]⟩
  | checked_write x =>
    have h0 : Ordered (buffer_check_space g cpu buftype x.length).2 cpu buftype k a b := by
      apply ordered_congr h <;> simp [buffer_check_space]
    by_cases hok : (buffer_check_space g cpu buftype x.length).1 = true
    · have hav := check_space_true_avail g cpu buftype x.length hok
      rw [buffer_bytes_available_eq, ordered_filled h0, h0.size] at hav
      have hr : a + b + x.length < 2 ^ k := by split_ifs at hav <;> omega
      obtain ⟨g1, hw, h1, -⟩ := ordered_write x h0 hr
      exact ⟨g1, _, a, b + x.length,
        by simp only [step, hok, if_true, hw, Option.map_some']; rfl, h1⟩
    · exact ⟨_, _, a, b, by simp only [step, hok, if_false]; rfl, h0⟩
  | commit =>
    have hr : a + b + (g.frame_marker cpu buftype).length < 2 ^ k := by
      have := of_decide_eq_true hroom
      rw [hf, h.size] at this
      omega
    exact ⟨_, [], _, _, rfl, ordered_commit h hr⟩
  | check =>
    have hr : a + b + (g.frame_marker cpu buftype).length < 2 ^ k := by
      have := of_decide_eq_true hroom
      rw [hf, h.size] at this
      omega
    rcases buffer_check_cases g cpu buftype with hc | hc
    · exact ⟨_, [], _, _, rfl, by simp only [hc]; exact ordered_commit h hr⟩
    · exact ⟨_, [], a, b, rfl, by simp only [hc]; exact h⟩
  | read => exact ⟨_, _, 0, b, rfl, ordered_drain h⟩

/-- A run of calls that have room, started on a slot in circular order,
returns and ends on a slot in circular order. -/
theorem run_ordered (cpu buftype k : Nat) (ops : List Op) (g : State) (a b : Nat)
    (h : Ordered g cpu buftype k a b) (hroom : has_room cpu buftype ops g = true) :
    ∃ g' obs a' b', exec cpu buftype ops g = some (g', obs) ∧ Ordered g' cpu buftype k a' b' := by
  induction ops generalizing g a b with
  | nil => exact ⟨g, [], a, b, rfl, h⟩
  | cons op ops ih =>
    simp only [has_room, Bool.and_eq_true] at hroom
    obtain ⟨g1, o, a1, b1, hs, h1⟩ := step_ordered op h hroom.1
    have hf1 : has_room cpu buftype ops g1 = true := by
      have := hroom.2
      simp only [hs] at this
      exact this
    obtain ⟨g', obs, a', b', he, h'⟩ := ih g1 a1 b1 h1 hf1
    exact ⟨g', o ++ obs, a', b', by simp only [exec, hs, he], h'⟩

/-- C8 (as amended). Start from a slot as `gator_op_setup` leaves it and make
any sequence of space-checked writes, commits, buffer checks and reads (and
space checks, and unchecked writes that leave the slot short of full) in
which the frame marker that each commit appends leaves the slot short of
full: `filled` plus its length is below the capacity. Then every call
returns, and in the state reached all three cursors lie in `[0, size)` and
stand in circular order: `(commit - read) mod size + (write - commit) mod size
= (write - read) mod size < size`. From that state a write moves neither
`read` nor `commit`; a commit leaves `read`, sets `commit` to the `write` it
finds and moves `write` by the length of the frame marker; a read leaves
`commit` and `write` and sets `read` to the `commit` it finds. -/
theorem cursor_invariant (g : State) (cpu buftype k : Nat) (buffer : List Nat) (ops : List Op)
    (hsize : g.gator_buffer_size buftype = 2 ^ k)
    (hmask : g.gator_buffer_mask buftype = 2 ^ k - 1)
    (hread : (g.percpu cpu buftype).read = 0)
    (hcommit : (g.percpu cpu buftype).commit = 0)
    (hwrite : (g.percpu cpu buftype).write = 0)
    (hbuf : (g.percpu cpu buftype).buffer = some buffer)
    (hroom : has_room cpu buftype ops g = true) :
    ∃ g' obs, exec cpu buftype ops g = some (g', obs)
      ∧ (g'.percpu cpu buftype).read < 2 ^ k
      ∧ (g'.percpu cpu buftype).commit < 2 ^ k
      ∧ (g'.percpu cpu buftype).write < 2 ^ k
      ∧ dist (2 ^ k) (g'.percpu cpu buftype).read (g'.percpu cpu buftype).commit
          + dist (2 ^ k) (g'.percpu cpu buftype).commit (g'.percpu cpu buftype).write
          = dist (2 ^ k) (g'.percpu cpu buftype).read (g'.percpu cpu buftype).write
      ∧ dist (2 ^ k) (g'.percpu cpu buftype).read (g'.percpu cpu buftype).write < 2 ^ k
      ∧ (∀ x g'', gator_buffer_write_bytes g' cpu buftype x = some g'' →
          (g''.percpu cpu buftype).read = (g'.percpu cpu buftype).read
          ∧ (g''.percpu cpu buftype).commit = (g'.percpu cpu buftype).commit)
      ∧ ((gator_commit_buffer g' cpu buftype).percpu cpu buftype).read
          = (g'.percpu cpu buftype).read
      ∧ ((gator_commit_buffer g' cpu buftype).percpu cpu buftype).commit
          = (g'.percpu cpu buftype).write
      ∧ ((gator_commit_buffer g' cpu buftype).percpu cpu buftype).write
          = ((g'.percpu cpu buftype).write + (g'.frame_marker cpu buftype).length) % 2 ^ k
      ∧ ((drain g' cpu buftype false).2.2.percpu cpu buftype).read
          = (g'.percpu cpu buftype).commit
      ∧ ((drain g' cpu buftype false).2.2.percpu cpu buftype).commit
          = (g'.percpu cpu buftype).commit
      ∧ ((drain g' cpu buftype false).2.2.percpu cpu buftype).write
          = (g'.percpu cpu buftype).write := by
  have hpos : 0 < 2 ^ k := by positivity
  have h0 : Ordered g cpu buftype k 0 0 :=
    ⟨hsize, hmask, by rw [hread]; exact hpos, by rw [hcommit, hread]; rfl,
      by rw [hwrite, hread]; rfl, hpos, buffer, hbuf⟩
  obtain ⟨g', obs, a', b', he, h'⟩ := run_ordered cpu buftype k ops g 0 0 h0 hroom
  have hroom' := h'.room
  have hc : (g'.percpu cpu buftype).commit < 2 ^ k := by rw [h'.commit]; exact Nat.mod_lt _ hpos
  have hw : (g'.percpu cpu buftype).write < 2 ^ k := by rw [h'.write]; exact Nat.mod_lt _ hpos
  have d1 : dist (2 ^ k) (g'.percpu cpu buftype).read (g'.percpu cpu buftype).commit = a' := by
    rw [h'.commit]
    exact dist_offset _ _ _ h'.read (by omega)
  have d2 : dist (2 ^ k) (g'.percpu cpu buftype).commit (g'.percpu cpu buftype).write = b' := by
    have hw' := h'.write
    rw [← Nat.mod_add_mod, ← h'.commit] at hw'
    rw [hw']
    exact dist_offset _ _ _ hc (by omega)
  have d3 : dist (2 ^ k) (g'.percpu cpu buftype).read (g'.percpu cpu buftype).write
      = a' + b' := by
    have hw' := h'.write
    rw [add_assoc] at hw'
    rw [hw']
    exact dist_offset _ _ _ h'.read hroom'
  obtain ⟨buffer', hbuf'⟩ := h'.storage
  have hcc := commit_cursors g' cpu buftype k buffer' h'.mask hbuf' hw
  have hd : (drain g' cpu buftype false).2.2
      = g'.setChan cpu buftype
          { g'.percpu cpu buftype with read := (g'.percpu cpu buftype).commit } := by
    simp only [drain, hbuf', Bool.false_eq_true, and_false, if_false]
  refine ⟨g', obs, he, h'.read, hc, hw, by rw [d1, d2, d3], by rw [d3]; exact hroom',
    fun x g'' hx => write_bytes_read_commit g' g'' cpu buftype x hx, hcc.1, hcc.2.1, hcc.2.2,
    ?_, ?_, ?_⟩ <;> rw [hd] <;> simp

set_option maxRecDepth 20000 in
/-- C8 as stated fails. On an empty slot of capacity 256, one
`gator_commit_buffer` leaves `write` at 7, not at 0: the commit has appended
the frame marker. And 37 commits in a row, with no space check between them,
leave `read = 0`, `commit = 252` and `write = 3`: the circular distances from
`read` to `commit` and from `commit` to `write` add up to 259, not to the
distance 3 from `read` to `write`. -/
theorem cursor_invariant_counterexample :
    ((example_state 8 (example_chan (List.replicate 256 0) 0 0 0)).percpu 0 1).write = 0
      ∧ ((gator_commit_buffer (example_state 8 (example_chan (List.replicate 256 0) 0 0 0))
          0 1).percpu 0 1).write = 7
      ∧ (exec 0 1 (List.replicate 37 Op.commit)
          (example_state 8 (example_chan (List.replicate 256 0) 0 0 0))).map
            (fun r => ((r.1.percpu 0 1).read, (r.1.percpu 0 1).commit, (r.1.percpu 0 1).write,
              dist 256 (r.1.percpu 0 1).read (r.1.percpu 0 1).commit
                + dist 256 (r.1.percpu 0 1).commit (r.1.percpu 0 1).write,
              dist 256 (r.1.percpu 0 1).read (r.1.percpu 0 1).write))
          = some (0, 252, 3, 259, 3) := by
  decide

/-- C8 (as amended) on an empty slot of capacity 256 and six calls: a checked
write of 56 bytes, which fills the slot up to the margin, a commit, a buffer
check, a read, another checked write and a commit. -/
theorem cursor_invariant_witness :
    has_room 0 1 [Op.checked_write (List.range 56), Op.commit, Op.check, Op.read,
          Op.checked_write [4, 5], Op.commit]
        (example_state 8 (example_chan (List.replicate 256 0) 0 0 0)) = true
      ∧ ∃ g' obs, exec 0 1
            [Op.checked_write (List.range 56), Op.commit, Op.check, Op.read,
              Op.checked_write [4, 5], Op.commit]
            (example_state 8 (example_chan (List.replicate 256 0) 0 0 0)) = some (g', obs)
          ∧ (g'.percpu 0 1).read < 2 ^ 8
          ∧ (g'.percpu 0 1).commit < 2 ^ 8
          ∧ (g'.percpu 0 1).write < 2 ^ 8
          ∧ dist (2 ^ 8) (g'.percpu 0 1).read (g'.percpu 0 1).commit
              + dist (2 ^ 8) (g'.percpu 0 1).commit (g'.percpu 0 1).write
              = dist (2 ^ 8) (g'.percpu 0 1).read (g'.percpu 0 1).write := by
  refine ⟨by decide, ?_⟩
  obtain ⟨g', obs, he, h1, h2, h3, h4, -⟩ := cursor_invariant
    (example_state 8 (example_chan (List.replicate 256 0) 0 0 0)) 0 1 8 (List.replicate 256 0)
    [Op.checked_write (List.range 56), Op.commit, Op.check, Op.read, Op.checked_write [4, 5],
      Op.commit]
    rfl rfl rfl rfl rfl rfl (by decide)
  exact ⟨g', obs, he, h1, h2, h3, h4⟩

/-! ## Two commits in a row -/

/-- A run that fits does so in both of its parts. -/
theorem fits_append (cpu buftype : Nat) (l1 l2 : List Op) (g : State)
    (h : fits cpu buftype (l1 ++ l2) g = true) :
    fits cpu buftype l1 g = true
      ∧ ∀ g1 o, exec cpu buftype l1 g = some (g1, o) → fits cpu buftype l2 g1 = true := by
  induction l1 generalizing g with
  | nil =>
    refine ⟨rfl, fun g1 o he => ?_⟩
    simp only [exec, Option.some.injEq, Prod.mk.injEq] at he
    rw [← he.1]
    exact h
  | cons op l1 ih =>
    simp only [List.cons_append, fits, Bool.and_eq_true] at h ⊢
    cases hs : step cpu buftype g op with
    | none =>
      refine ⟨⟨h.1, rfl⟩, fun g1 o he => ?_⟩
      simp [exec, hs] at he
    | some r =>
      obtain ⟨g1, o1⟩ := r
      have h2 := h.2
      simp only [hs] at h2
      obtain ⟨ih1, ih2⟩ := ih g1 h2
      refine ⟨⟨h.1, ih1⟩, fun g2 o he => ?_⟩
      obtain ⟨g1', o', o'', hs', he', -⟩ := exec_cons cpu buftype op l1 g g2 o he
      rw [hs] at hs'
      simp only [Option.some.injEq, Prod.mk.injEq] at hs'
      rw [← hs'.1] at he'
      exact ih2 g2 o'' he'

/-- Inside the storage, a position holds a byte. -/
theorem getElem?_eq_some_getD (l : List Nat) (p : Nat) (h : p < l.length) :
    l[p]? = some (l[p]?.getD 0) := by
  rw [List.getElem?_eq_getElem h]
  rfl

/-- C5 (as amended). Let a slot be reached from the state `gator_op_setup`
leaves by calls that fit, and let `gator_commit_buffer` be called twice in a
row, the frame marker fitting both times. The second call leaves `read` and
every byte of the range `[read, commit)` that the first call left committed
and unread; it does move `commit`, to the `write` the first call left: it
commits the frame marker that the first call appended, whose length is the
circular distance between the two commit positions, and so commits zero
additional bytes only when that marker is empty. -/
theorem commit_twice (g0 : State) (cpu buftype k : Nat) (buffer : List Nat) (ops : List Op)
    (hsize : g0.gator_buffer_size buftype = 2 ^ k)
    (hmask : g0.gator_buffer_mask buftype = 2 ^ k - 1)
    (hread : (g0.percpu cpu buftype).read = 0)
    (hcommit : (g0.percpu cpu buftype).commit = 0)
    (hwrite : (g0.percpu cpu buftype).write = 0)
    (hbuf : (g0.percpu cpu buftype).buffer = some buffer)
    (hlen : buffer.length = 2 ^ k)
    (hfits : fits cpu buftype (ops ++ [Op.commit, Op.commit]) g0 = true) :
    ∃ g obs b1 b2, exec cpu buftype ops g0 = some (g, obs)
      ∧ ((gator_commit_buffer g cpu buftype).percpu cpu buftype).buffer = some b1
      ∧ ((gator_commit_buffer (gator_commit_buffer g cpu buftype) cpu buftype).percpu
          cpu buftype).buffer = some b2
      ∧ ((gator_commit_buffer (gator_commit_buffer g cpu buftype) cpu buftype).percpu
          cpu buftype).read
          = ((gator_commit_buffer g cpu buftype).percpu cpu buftype).read
      ∧ ((gator_commit_buffer (gator_commit_buffer g cpu buftype) cpu buftype).percpu
          cpu buftype).commit
          = ((gator_commit_buffer g cpu buftype).percpu cpu buftype).write
      ∧ dist (2 ^ k) ((gator_commit_buffer g cpu buftype).percpu cpu buftype).commit
          ((gator_commit_buffer (gator_commit_buffer g cpu buftype) cpu buftype).percpu
            cpu buftype).commit = (g0.frame_marker cpu buftype).length
      ∧ (∀ i, i < dist (2 ^ k) ((gator_commit_buffer g cpu buftype).percpu cpu buftype).read
            ((gator_commit_buffer g cpu buftype).percpu cpu buftype).commit →
          b2[(((gator_commit_buffer g cpu buftype).percpu cpu buftype).read + i) % 2 ^ k]?
            = b1[(((gator_commit_buffer g cpu buftype).percpu cpu buftype).read + i) % 2 ^ k]?)
      ∧ ((g0.frame_marker cpu buftype).length = 0 →
          ((gator_commit_buffer (gator_commit_buffer g cpu buftype) cpu buftype).percpu
            cpu buftype).commit
            = ((gator_commit_buffer g cpu buftype).percpu cpu buftype).commit) := by
  have h0 := inv_fresh g0 cpu buftype k buffer hsize hmask hread hcommit hwrite hbuf hlen
  obtain ⟨hf1, hf2⟩ := fits_append cpu buftype ops [Op.commit, Op.commit] g0 hfits
  obtain ⟨g, obs, u, c, he, hg, hmk⟩ := run_inv cpu buftype k ops g0 [] [] h0 hf1
  have hfc := hf2 g obs he
  simp only [fits, Bool.and_eq_true, step] at hfc
  obtain ⟨hfit1, hfit2, -⟩ := hfc
  have hfit1' := of_decide_eq_true hfit1
  have hfit2' := of_decide_eq_true hfit2
  have h1 := inv_commit hg hfit1'
  have h2 := inv_commit h1 hfit2'
  have hk1 := keeps_commit g cpu buftype
  rw [hk1.marker] at h2
  obtain ⟨b1, hb1, hl1, hc1⟩ := h1.content
  obtain ⟨b2, hb2, hl2, hc2⟩ := h2.content
  obtain ⟨hr1, hcl1, hw1, d11, d12, d13⟩ := inv_cursors h1
  obtain ⟨hr2, hcl2, hw2, d21, d22, d23⟩ := inv_cursors h2
  have hcc := commit_cursors (gator_commit_buffer g cpu buftype) cpu buftype k b1 h1.mask hb1 hw1
  have hpos : 0 < 2 ^ k := by positivity
  have hroom2 := h2.room
  simp only [List.length_append, seal_frame_length] at hroom2
  have hcd : dist (2 ^ k) ((gator_commit_buffer g cpu buftype).percpu cpu buftype).commit
      ((gator_commit_buffer (gator_commit_buffer g cpu buftype) cpu buftype).percpu
        cpu buftype).commit = (g0.frame_marker cpu buftype).length := by
    rw [hcc.2.1, d12, hmk]
  refine ⟨g, obs, b1, b2, he, hb1, hb2, hcc.1, hcc.2.1, hcd, ?_, ?_⟩
  · intro i hi
    rw [d11] at hi
    have hp : (((gator_commit_buffer g cpu buftype).percpu cpu buftype).read + i) % 2 ^ k
        < 2 ^ k := Nat.mod_lt _ hpos
    rw [getElem?_eq_some_getD b2 _ (by rw [hl2]; exact hp),
      getElem?_eq_some_getD b1 _ (by rw [hl1]; exact hp)]
    have e1 := hc1 i (Nat.lt_of_lt_of_le hi (Nat.le_add_right _ _))
    have e2 := hc2 i (by
      rw [List.length_append]
      exact Nat.lt_of_lt_of_le hi (Nat.le_trans (Nat.le_add_right _ _) (Nat.le_add_right _ _)))
    rw [hcc.1] at e2
    rw [e1, e2, List.getElem?_append_left hi,
      List.getElem?_append_left
        (by rw [List.length_append]; exact Nat.lt_of_lt_of_le hi (Nat.le_add_right _ _)),
      List.getElem?_append_left hi]
  · intro hz
    have hd0 := hcd
    rw [hz] at hd0
    rw [dist_cases _ _ _ hcl1 hcl2] at hd0
    split_ifs at hd0 <;> omega

/-- C5 as stated fails. On a slot of capacity 256 in which three bytes have
been written, the first `gator_commit_buffer` leaves `commit` at 3 and the
second one moves it to 10: it commits the seven bytes of the frame marker that
the first one appended. And were the marker empty, the claim would still fail
on a slot that is all but full: with `read = 10`, `commit = 0`, `write = 8`
and storage holding byte `i` at position `i`, the first call leaves
`commit = 8`, and the second call stores its length field at positions 9 to
12, over the committed unread bytes at 10, 11 and 12: position 10 holds 10
after the first call and 255 after the second. -/
theorem commit_twice_counterexample :
    ((gator_commit_buffer (example_state 8 (example_chan (List.replicate 256 0) 0 0 3))
        0 1).percpu 0 1).commit = 3
      ∧ ((gator_commit_buffer
          (gator_commit_buffer (example_state 8 (example_chan (List.replicate 256 0) 0 0 3)) 0 1)
          0 1).percpu 0 1).commit = 10
      ∧ ((gator_commit_buffer
          { example_state 8 (example_chan (List.range 256) 10 0 8) with
            frame_marker := fun _ _ => [] } 0 1).percpu 0 1).buffer.map (fun b => b.getD 10 0)
          = some 10
      ∧ ((gator_commit_buffer (gator_commit_buffer
          { example_state 8 (example_chan (List.range 256) 10 0 8) with
            frame_marker := fun _ _ => [] } 0 1) 0 1).percpu 0 1).buffer.map
            (fun b => b.getD 10 0) = some 255
      ∧ ((gator_commit_buffer
          { example_state 8 (example_chan (List.range 256) 10 0 8) with
            frame_marker := fun _ _ => [] } 0 1).percpu 0 1).read = 10
      ∧ ((gator_commit_buffer
          { example_state 8 (example_chan (List.range 256) 10 0 8) with
            frame_marker := fun _ _ => [] } 0 1).percpu 0 1).commit = 8 := by
  decide

/-- C5 (as amended) on an empty slot of capacity 256 after a write of three
bytes: both commits fit, the second one leaves `read` and moves `commit` by
the seven bytes of the marker. -/
theorem commit_twice_witness :
    fits 0 1 ([Op.write [1, 2, 3]] ++ [Op.commit, Op.commit])
        (example_state 8 (example_chan (List.replicate 256 0) 0 0 0)) = true
      ∧ ∃ g, (exec 0 1 [Op.write [1, 2, 3]]
            (example_state 8 (example_chan (List.replicate 256 0) 0 0 0))).map Prod.fst = some g
          ∧ ((gator_commit_buffer (gator_commit_buffer g 0 1) 0 1).percpu 0 1).read
              = ((gator_commit_buffer g 0 1).percpu 0 1).read
          ∧ dist (2 ^ 8) ((gator_commit_buffer g 0 1).percpu 0 1).commit
              ((gator_commit_buffer (gator_commit_buffer g 0 1) 0 1).percpu 0 1).commit = 7 := by
  refine ⟨by decide, ?_⟩
  obtain ⟨g, obs, b1, b2, he, -, -, hr, -, hd, -, -⟩ := commit_twice
    (example_state 8 (example_chan (List.replicate 256 0) 0 0 0)) 0 1 8 (List.replicate 256 0)
    [Op.write [1, 2, 3]] rfl rfl rfl rfl rfl rfl (List.length_replicate 256 0) (by decide)
  exact ⟨g, by rw [he]; rfl, hr, hd⟩

/-! ## A failing start hook -/

@[simp] theorem call_started (s : Life) (c : Call) : (s.call c).gator_started = s.gator_started :=
  rfl

@[simp] theorem call_running (s : Life) (c : Call) : (s.call c).gator_running = s.gator_running :=
  rfl

@[simp] theorem callAll_started (s : Life) (cs : List Call) :
    (s.callAll cs).gator_started = s.gator_started := rfl

@[simp] theorem callAll_running (s : Life) (cs : List Call) :
    (s.callAll cs).gator_running = s.gator_running := rfl

theorem call_eq_callAll (s : Life) (c : Call) : s.call c = s.callAll [c] := rfl

theorem callAll_callAll (s : Life) (cs cs' : List Call) :
    (s.callAll cs).callAll cs' = s.callAll (cs ++ cs') := by
  simp [Life.callAll, List.append_assoc]

theorem callAll_nil (s : Life) : s.callAll [] = s := by
  simp [Life.callAll]

theorem stop_previous_eq (prev : List gator_interface) (s : Life) :
    stop_previous prev s = s.callAll (prev_stops prev) := by
  induction prev generalizing s with
  | nil => simp [stop_previous, prev_stops, callAll_nil]
  | cons gi prev ih =>
    simp only [stop_previous, prev_stops, ih]
    split_ifs
    · rw [call_eq_callAll, callAll_callAll]
    · rw [List.nil_append]

theorem mem_prev_stops (prev : List gator_interface) (c : Call) :
    c ∈ prev_stops prev
      ↔ ∃ j gi, c = Call.event_stop j ∧ prev.reverse[j]? = some gi ∧ gi.stop = true := by
  induction prev with
  | nil => simp [prev_stops]
  | cons gi prev ih =>
    simp only [prev_stops, List.mem_append, ih, List.reverse_cons]
    constructor
    · rintro (h | ⟨j, gj, hc, hj, hs⟩)
      · split_ifs at h with hst
        · simp only [List.mem_singleton] at h
          refine ⟨prev.length, gi, h, ?_, hst⟩
          rw [List.getElem?_append_right (by simp)]
          simp
        · simp at h
      · refine ⟨j, gj, hc, ?_, hs⟩
        have hlt : j < prev.reverse.length := by
          by_contra hge
          rw [List.getElem?_eq_none (by omega)] at hj
          cases hj
        rw [List.getElem?_append_left hlt]
        exact hj
    · rintro ⟨j, gj, hc, hj, hs⟩
      by_cases hlt : j < prev.length
      · right
        rw [List.getElem?_append_left (by rw [List.length_reverse]; exact hlt)] at hj
        exact ⟨j, gj, hc, hj, hs⟩
      · left
        rw [List.getElem?_append_right (by rw [List.length_reverse]; omega),
          List.length_reverse] at hj
        have hj0 : j - prev.length = 0 := by
          by_contra hne
          rw [List.getElem?_eq_none (by rw [List.length_singleton]; omega)] at hj
          cases hj
        rw [hj0] at hj
        simp only [List.getElem?_cons_zero, Option.some.injEq] at hj
        subst hj
        have hjl : j = prev.length := by omega
        simp [hs, hc, hjl]

theorem prev_stops_index_lt (prev : List gator_interface) (j : Nat)
    (h : j ∈ (prev_stops prev).filterMap stop_index) : j < prev.length := by
  simp only [List.mem_filterMap] at h
  obtain ⟨c, hc, hj⟩ := h
  obtain ⟨i, gi, rfl, hi, -⟩ := (mem_prev_stops prev c).mp hc
  simp only [stop_index, Option.some.injEq] at hj
  subst hj
  by_contra hge
  rw [List.getElem?_eq_none (by simp; omega)] at hi
  cases hi

/-- The walk back calls the stop hooks in descending index order. -/
theorem prev_stops_descending (prev : List gator_interface) :
    ((prev_stops prev).filterMap stop_index).Pairwise (· > ·) := by
  induction prev with
  | nil => simp [prev_stops]
  | cons gi prev ih =>
    simp only [prev_stops, List.filterMap_append]
    rw [List.pairwise_append]
    refine ⟨?_, ih, ?_⟩
    · split_ifs <;> simp [stop_index]
    · intro a ha b hb
      have hb' := prev_stops_index_lt prev b hb
      split_ifs at ha
      · simp only [List.filterMap_cons, stop_index, List.filterMap_nil, List.mem_singleton] at ha
        omega
      · simp at ha

/-- The start loop when a start hook fails: the sources before the failing one
are started, the failing hook is called, and the walk back stops the sources
before it. -/
theorem start_events_fail (prev pre post : List gator_interface) (f : gator_interface)
    (r : Int) (s : Life)
    (hpre : ∀ gi ∈ pre, gi.start = none ∨ gi.start = some 0)
    (hf : f.start = some r) (hr : r ≠ 0) :
    ∃ starts, start_events prev (pre ++ f :: post) s
        = (true, (s.callAll starts).callAll (prev_stops (pre.reverse ++ prev)))
      ∧ ∀ c ∈ starts, ∃ j, c = Call.event_start j ∧ j ≤ prev.length + pre.length := by
  induction pre generalizing prev s with
  | nil =>
    refine ⟨[Call.event_start prev.length], ?_, ?_⟩
    · simp only [List.nil_append, start_events, hf, hr, ne_eq, not_false_eq_true, if_true,
        stop_previous_eq, List.reverse_nil]
      rfl
    · intro c hc
      simp only [List.mem_singleton] at hc
      exact ⟨_, hc, by simp⟩
  | cons gi pre ih =>
    have hpre' : ∀ g ∈ pre, g.start = none ∨ g.start = some 0 :=
      fun g hg => hpre g (List.mem_cons_of_mem _ hg)
    have e : (gi :: pre).reverse ++ prev = pre.reverse ++ gi :: prev := by simp
    rcases hpre gi (List.mem_cons_self _ _) with hgi | hgi
    · obtain ⟨starts, he, hst⟩ := ih (gi :: prev) s hpre'
      refine ⟨starts, ?_, ?_⟩
      · show start_events prev (gi :: (pre ++ f :: post)) s = _
        rw [start_events]
        simp only [hgi]
        rw [he, e]
      · intro c hc
        obtain ⟨j, hj, hle⟩ := hst c hc
        exact ⟨j, hj, by simp only [List.length_cons] at hle ⊢; omega⟩
    · obtain ⟨starts, he, hst⟩ := ih (gi :: prev) (s.call (.event_start prev.length)) hpre'
      refine ⟨Call.event_start prev.length :: starts, ?_, ?_⟩
      · show start_events prev (gi :: (pre ++ f :: post)) s = _
        rw [start_events]
        simp only [hgi, ne_eq, not_true_eq_false, if_false]
        rw [he, e, call_eq_callAll]
        simp only [callAll_callAll, List.singleton_append, List.cons_append, List.nil_append]
      · intro c hc
        rcases List.mem_cons.mp hc with rfl | hc
        · exact ⟨_, rfl, by omega⟩
        · obtain ⟨j, hj, hle⟩ := hst c hc
          exact ⟨j, hj, by simp only [List.length_cons] at hle ⊢; omega⟩

/-- C6 (as amended). Let exactly one registered data source have a start hook
that fails, and let the controller be stopped. Then `gator_op_start` returns
`-EINVAL`, `gator_started` stays 0 and the timer flag is as it was; a stop
call has been made to exactly the data sources registered before the failing
one that have a stop hook, once each and in reverse registration order; the
failing source and the sources registered after it get no stop call, and the
sources after it are not started either. -/
theorem start_failure_stops_previous (env : Env) (s : Life) (pre post : List gator_interface)
    (f : gator_interface) (r : Int)
    (hev : env.events = pre ++ f :: post)
    (hpre : ∀ gi ∈ pre, gi.start = none ∨ gi.start = some 0)
    (hf : f.start = some r) (hr : r ≠ 0)
    (hs : s.gator_started = 0) :
    (gator_op_start env s).1 = -EINVAL
      ∧ (gator_op_start env s).2.gator_started = 0
      ∧ (gator_op_start env s).2.gator_running = s.gator_running
      ∧ ∃ new, (gator_op_start env s).2.calls = s.calls ++ new
          ∧ (∀ j, Call.event_stop j ∈ new ↔ ∃ gi, pre[j]? = some gi ∧ gi.stop = true)
          ∧ (new.filterMap stop_index).Pairwise (· > ·)
          ∧ (∀ j, Call.event_start j ∈ new → j ≤ pre.length) := by
  obtain ⟨starts, he, hst⟩ := start_events_fail [] pre post f r
    ((s.callAll (env.present.flatMap fun cpu =>
      (List.range NUM_GATOR_BUFS).map fun i => Call.marshal_frame cpu i)).call .gator_summary)
    hpre hf hr
  have hg : gator_start env s = (-1, ((((s.callAll (env.present.flatMap fun cpu =>
      (List.range NUM_GATOR_BUFS).map fun i => Call.marshal_frame cpu i)).call
        .gator_summary).callAll starts).callAll (prev_stops (pre.reverse ++ [])))) := by
    simp only [gator_start, hev, he, if_true, start_unwind]
    rfl
  have hop : gator_op_start env s = (-EINVAL, ((((s.callAll (env.present.flatMap fun cpu =>
      (List.range NUM_GATOR_BUFS).map fun i => Call.marshal_frame cpu i)).call
        .gator_summary).callAll starts).callAll (prev_stops (pre.reverse ++ [])))) := by
    simp only [gator_op_start, hs, ne_eq, not_true_eq_false, if_false, hg]
    rfl
  rw [hop]
  refine ⟨rfl, hs, rfl, (env.present.flatMap fun cpu =>
      (List.range NUM_GATOR_BUFS).map fun i => Call.marshal_frame cpu i)
      ++ [Call.gator_summary] ++ starts ++ prev_stops (pre.reverse ++ []), ?_, ?_, ?_, ?_⟩
  · simp [Life.callAll, Life.call, List.append_assoc]
  · intro j
    simp only [List.append_nil, List.mem_append, List.mem_flatMap, List.mem_map,
      List.mem_singleton, reduceCtorEq, and_false, exists_false, or_false, false_or,
      mem_prev_stops, List.reverse_reverse, Call.event_stop.injEq]
    constructor
    · rintro (h | ⟨i, gi, rfl, hi, hst'⟩)
      · obtain ⟨i, hi, -⟩ := hst _ h
        cases hi
      · exact ⟨gi, hi, hst'⟩
    · rintro ⟨gi, hi, hst'⟩
      exact Or.inr ⟨j, gi, rfl, hi, hst'⟩
  · have hnone : ∀ l : List Call, (∀ c ∈ l, stop_index c = none) → l.filterMap stop_index = [] := by
      intro l hl
      rw [List.filterMap_eq_nil_iff]
      exact hl
    rw [List.filterMap_append, List.filterMap_append, List.filterMap_append,
      hnone _ (by
        intro c hc
        simp only [List.mem_flatMap, List.mem_map] at hc
        obtain ⟨cpu, -, i, -, rfl⟩ := hc
        rfl),
      hnone [Call.gator_summary] (by intro c hc; simp at hc; subst hc; rfl),
      hnone starts (by
        intro c hc
        obtain ⟨i, rfl, -⟩ := hst c hc
        rfl)]
    simpa using prev_stops_descending pre.reverse
  · intro j hj
    simp only [List.append_nil, List.mem_append, List.mem_flatMap, List.mem_map,
      List.mem_singleton, reduceCtorEq, and_false, exists_false, or_false, false_or,
      mem_prev_stops] at hj
    rcases hj with h | ⟨i, gi, hc, -, -⟩
    · obtain ⟨i, hi, hle⟩ := hst _ h
      simp only [Call.event_start.injEq] at hi
      subst hi
      simpa using hle
    · cases hc

/-- C6 as stated fails. With two data sources, both with a stop hook, the
first of which fails to start, `gator_op_start` returns `-EINVAL` and leaves
`gator_started` at 0, and the second source has received neither a start nor
a stop call. -/
theorem start_failure_counterexample :
    (gator_op_start (example_env [⟨some (-1), true⟩, ⟨some 0, true⟩]) idle).1 = -EINVAL
      ∧ (gator_op_start (example_env [⟨some (-1), true⟩, ⟨some 0, true⟩]) idle).2.gator_started
          = 0
      ∧ Call.event_stop 1
          ∉ (gator_op_start (example_env [⟨some (-1), true⟩, ⟨some 0, true⟩]) idle).2.calls
      ∧ Call.event_start 1
          ∉ (gator_op_start (example_env [⟨some (-1), true⟩, ⟨some 0, true⟩]) idle).2.calls := by
  decide

/-- C6 (as amended) with four data sources of which the third fails to start:
the second and the first are stopped, in that order, and nothing else is. -/
theorem start_failure_stops_previous_witness :
    (gator_op_start
        (example_env [⟨some 0, true⟩, ⟨none, true⟩, ⟨some (-1), true⟩, ⟨some 0, true⟩]) idle).1
        = -EINVAL
      ∧ ((gator_op_start
          (example_env [⟨some 0, true⟩, ⟨none, true⟩, ⟨some (-1), true⟩, ⟨some 0, true⟩])
          idle).2.calls.filterMap stop_index) = [1, 0] :=
  ⟨(start_failure_stops_previous
      (example_env [⟨some 0, true⟩, ⟨none, true⟩, ⟨some (-1), true⟩, ⟨some 0, true⟩]) idle
      [⟨some 0, true⟩, ⟨none, true⟩] [⟨some 0, true⟩] ⟨some (-1), true⟩ (-1) rfl
      (by decide) rfl (by decide) rfl).1, by decide⟩

/-! ## A failing timer start -/

/-- C7, the code at the failing inputs. When `gator_hrtimer_init` returns -1,
`gator_timer_start` returns -1 after it has set `gator_running`, and
`gator_start` enters at `timer_failure`, below the `gator_timer_stop` call:
`gator_op_start` returns `-EINVAL` with `gator_started = 0` and with
`gator_running` left at 1. A later start, in which `gator_hrtimer_init` would
succeed, then finds `gator_running` set: it returns 0 and sets
`gator_started` without calling `gator_hrtimer_init` or bringing any timer
online, unlike a start from the stopped state. And when
`register_pm_notifier` fails after `register_hotcpu_notifier` has succeeded,
the hot-plug notifier is never unregistered. -/
theorem timer_start_failure_not_rolled_back :
    (gator_op_start { example_env [⟨some 0, true⟩] with hrtimer_init := -1 } idle).1 = -EINVAL
      ∧ (gator_op_start { example_env [⟨some 0, true⟩] with hrtimer_init := -1 }
          idle).2.gator_started = 0
      ∧ (gator_op_start { example_env [⟨some 0, true⟩] with hrtimer_init := -1 }
          idle).2.gator_running = 1
      ∧ Call.hrtimer_shutdown
          ∉ (gator_op_start { example_env [⟨some 0, true⟩] with hrtimer_init := -1 } idle).2.calls
      ∧ (gator_op_start (example_env [⟨some 0, true⟩])
          { (gator_op_start { example_env [⟨some 0, true⟩] with hrtimer_init := -1 } idle).2 with
            calls := [] }).1 = 0
      ∧ (gator_op_start (example_env [⟨some 0, true⟩])
          { (gator_op_start { example_env [⟨some 0, true⟩] with hrtimer_init := -1 } idle).2 with
            calls := [] }).2.gator_started = 1
      ∧ Call.hrtimer_init
          ∉ (gator_op_start (example_env [⟨some 0, true⟩])
              { (gator_op_start { example_env [⟨some 0, true⟩] with hrtimer_init := -1 }
                  idle).2 with calls := [] }).2.calls
      ∧ Call.timer_online
          ∉ (gator_op_start (example_env [⟨some 0, true⟩])
              { (gator_op_start { example_env [⟨some 0, true⟩] with hrtimer_init := -1 }
                  idle).2 with calls := [] }).2.calls
      ∧ Call.hrtimer_init ∈ (gator_op_start (example_env [⟨some 0, true⟩]) idle).2.calls
      ∧ Call.timer_online ∈ (gator_op_start (example_env [⟨some 0, true⟩]) idle).2.calls
      ∧ (gator_op_start { example_env [⟨some 0, true⟩] with register_pm_notifier := -1 }
          idle).1 = -EINVAL
      ∧ Call.register_hotcpu_notifier
          ∈ (gator_op_start { example_env [⟨some 0, true⟩] with register_pm_notifier := -1 }
              idle).2.calls
      ∧ Call.unregister_hotcpu_notifier
          ∉ (gator_op_start { example_env [⟨some 0, true⟩] with register_pm_notifier := -1 }
              idle).2.calls := by
  decide

/-! ## What `gator_op_setup` leaves -/

theorem setup_cpus_config (vmalloc : Nat → Nat → Option (Nat → Nat)) (i : Nat)
    (cpus : List Nat) (g : State) :
    (setup_cpus vmalloc i cpus g).2.gator_buffer_size = g.gator_buffer_size
    ∧ (setup_cpus vmalloc i cpus g).2.gator_buffer_mask = g.gator_buffer_mask
    ∧ present_cpus (setup_cpus vmalloc i cpus g).2 = present_cpus g := by
  induction cpus generalizing g with
  | nil => exact ⟨rfl, rfl, rfl⟩
  | cons cpu rest ih =>
    rw [setup_cpus]
    split_ifs with h
    · exact ih _
    · cases hv : vmalloc cpu i with
      | none => exact ⟨rfl, rfl, rfl⟩
      | some bytes => exact ih _

theorem setup_bufs_config (vmalloc : Nat → Nat → Option (Nat → Nat)) (bufs : List Nat)
    (g : State) :
    (setup_bufs vmalloc bufs g).2.gator_buffer_size = g.gator_buffer_size
    ∧ (setup_bufs vmalloc bufs g).2.gator_buffer_mask = g.gator_buffer_mask
    ∧ present_cpus (setup_bufs vmalloc bufs g).2 = present_cpus g := by
  induction bufs generalizing g with
  | nil => exact ⟨rfl, rfl, rfl⟩
  | cons i rest ih =>
    have hc := setup_cpus_config vmalloc i (present_cpus g) g
    simp only [setup_bufs]
    split_ifs with h1 h2
    · exact ⟨rfl, rfl, rfl⟩
    · obtain ⟨a, b, c⟩ := ih (setup_cpus vmalloc i (present_cpus g) g).2
      exact ⟨a.trans hc.1, b.trans hc.2.1, c.trans hc.2.2⟩
    · exact hc

theorem setup_size (sizes : Nat → Nat) (vmalloc : Nat → Nat → Option (Nat → Nat))
    (g : State) (i : Nat) (hi : i < NUM_GATOR_BUFS) :
    (gator_op_setup sizes vmalloc g).2.gator_buffer_size i = sizes i
    ∧ (gator_op_setup sizes vmalloc g).2.gator_buffer_mask i = sizes i - 1 := by
  unfold gator_op_setup
  obtain ⟨a, b, -⟩ := setup_bufs_config vmalloc (List.range NUM_GATOR_BUFS)
    { g with
      gator_buffer_size := fun i => if i < NUM_GATOR_BUFS then sizes i else g.gator_buffer_size i
      gator_buffer_mask := fun i =>
        if i < NUM_GATOR_BUFS then sizes i - 1 else g.gator_buffer_mask i }
  rw [a, b]
  simp only [hi, if_true, and_self]

theorem configured_size_le (i : Nat) : configured_size i ≤ BACKTRACE_BUFFER_SIZE := by
  unfold configured_size
  split_ifs <;> decide

/-! ## Rejected reads and the transfer unit size -/

/-- C11: `userspace_buffer_read` answers every call whose `count` is not
`userspace_buffer_size`, or whose offset is not 0, with `-EINVAL`: it returns
(it does not wait), delivers nothing and leaves the whole state as it was.
And the `userspace_buffer_size` that `gator_op_create_files` establishes is the
largest of the nine capacities that `gator_op_setup` configures: no channel
has a larger capacity and the backtrace channel has exactly that one. -/
theorem read_rejects_mismatch (g g0 : State) (count offset : Nat) (signal fault : Bool)
    (vmalloc : Nat → Nat → Option (Nat → Nat))
    (h : count ≠ g.userspace_buffer_size ∨ offset ≠ 0) :
    userspace_buffer_read g count offset signal fault = some (-EINVAL, [], g)
    ∧ (∀ i, i < NUM_GATOR_BUFS →
        (gator_op_setup configured_size vmalloc g0).2.gator_buffer_size i
          ≤ (gator_op_create_files g0).userspace_buffer_size)
    ∧ (gator_op_setup configured_size vmalloc g0).2.gator_buffer_size BACKTRACE_BUF
        = (gator_op_create_files g0).userspace_buffer_size
    ∧ (gator_op_create_files g0).userspace_buffer_size
        = ((List.range NUM_GATOR_BUFS).map configured_size).foldl max 0 := by
  refine ⟨?_, ?_, ?_, ?_⟩
  · simp only [userspace_buffer_read, h, if_true]
  · intro i hi
    rw [(setup_size configured_size vmalloc g0 i hi).1]
    exact configured_size_le i
  · rw [(setup_size configured_size vmalloc g0 BACKTRACE_BUF (by decide)).1]
    rfl
  · show BACKTRACE_BUFFER_SIZE = _
    decide

/-- C11 at a concrete call: a read of 100 bytes where the transfer unit is 256
bytes is rejected, and so is a read at offset 1. -/
theorem read_rejects_mismatch_witness :
    (100 ≠ (example_state 8 (example_chan (List.replicate 256 0) 0 7 7)).userspace_buffer_size
      ∨ 0 ≠ 0)
    ∧ userspace_buffer_read (example_state 8 (example_chan (List.replicate 256 0) 0 7 7))
        100 0 false false
      = some (-EINVAL, [], example_state 8 (example_chan (List.replicate 256 0) 0 7 7)) :=
  ⟨Or.inl (by decide),
   (read_rejects_mismatch (example_state 8 (example_chan (List.replicate 256 0) 0 7 7))
      (example_state 8 (example_chan (List.replicate 256 0) 0 7 7)) 100 0 false false
      (fun _ _ => none) (Or.inl (by decide))).1⟩

/-! ## The early commit of `buffer_check` -/

/-- C12 fails as stated: in a channel of 256 bytes with 192 bytes written
since the last commit, the filled bytes do not exceed three quarters of the
capacity (192 is not more than 192), and `buffer_check` commits all the same:
the commit cursor moves from 0 to 192. -/
theorem buffer_check_counterexample :
    ¬ (3 * (example_state 8 (example_chan (List.replicate 256 0) 0 0 192)).gator_buffer_size 0
        < 4 * dist ((example_state 8 (example_chan (List.replicate 256 0) 0 0 192)).gator_buffer_size 0)
            ((example_state 8 (example_chan (List.replicate 256 0) 0 0 192)).percpu 0 0).commit
            ((example_state 8 (example_chan (List.replicate 256 0) 0 0 192)).percpu 0 0).write)
    ∧ ((example_state 8 (example_chan (List.replicate 256 0) 0 0 192)).percpu 0 0).commit = 0
    ∧ ((buffer_check (example_state 8 (example_chan (List.replicate 256 0) 0 0 192)) 0 0).percpu
        0 0).commit = 192 := by
  decide

/-- C12, amended: for a slot whose commit and write cursors are inside the
capacity, `buffer_check` is `gator_commit_buffer` when the bytes filled since
the last commit, `(write - commit) mod capacity`, are at least
`(capacity * 3) / 4`, and it leaves the whole state as it was when they are
fewer. -/
theorem buffer_check_commits (g : State) (cpu buftype : Nat)
    (hc : (g.percpu cpu buftype).commit < g.gator_buffer_size buftype)
    (hw : (g.percpu cpu buftype).write < g.gator_buffer_size buftype) :
    (g.gator_buffer_size buftype * 3 / 4
        ≤ dist (g.gator_buffer_size buftype) (g.percpu cpu buftype).commit
            (g.percpu cpu buftype).write →
      buffer_check g cpu buftype = gator_commit_buffer g cpu buftype)
    ∧ (dist (g.gator_buffer_size buftype) (g.percpu cpu buftype).commit
            (g.percpu cpu buftype).write
        < g.gator_buffer_size buftype * 3 / 4 →
      buffer_check g cpu buftype = g) := by
  rw [dist_cases _ _ _ hc hw]
  unfold buffer_check
  simp only
  generalize g.gator_buffer_size buftype = size at *
  generalize (g.percpu cpu buftype).commit = c at *
  generalize (g.percpu cpu buftype).write = w at *
  constructor
  · intro h
    rw [if_pos]
    split_ifs at h ⊢ <;> omega
  · intro h
    rw [if_neg]
    split_ifs at h ⊢ <;> omega

set_option maxRecDepth 20000 in
/-- C12 at concrete slots of a channel of 256 bytes: with 192 bytes filled
the check commits, with 191 it changes nothing. -/
theorem buffer_check_commits_witness :
    buffer_check (example_state 8 (example_chan (List.replicate 256 0) 0 0 192)) 0 0
      = gator_commit_buffer (example_state 8 (example_chan (List.replicate 256 0) 0 0 192)) 0 0
    ∧ buffer_check (example_state 8 (example_chan (List.replicate 256 0) 0 0 191)) 0 0
      = example_state 8 (example_chan (List.replicate 256 0) 0 0 191) :=
  ⟨(buffer_check_commits (example_state 8 (example_chan (List.replicate 256 0) 0 0 192)) 0 0
      (by decide) (by decide)).1 (by decide),
   (buffer_check_commits (example_state 8 (example_chan (List.replicate 256 0) 0 0 191)) 0 0
      (by decide) (by decide)).2 (by decide)⟩

/-! ## The loops of `gator_op_setup` -/

/-- The test of `gator_op_setup`, `size & (size - 1)`, is zero for a capacity
other than 0 exactly when the capacity is a power of two. -/
theorem and_pred_eq_zero_iff (n : Nat) (hn : n ≠ 0) :
    n &&& (n - 1) = 0 ↔ ∃ k, n = 2 ^ k := by
  constructor
  · induction n using Nat.strong_induction_on with
    | _ n ih =>
      intro h
      rcases Nat.even_or_odd' n with ⟨m, rfl | rfl⟩
      · have hm : m ≠ 0 := by omega
        have e : 2 * m - 1 = 2 * (m - 1) + 1 := by omega
        have d1 : (2 * (m - 1) + 1) / 2 = m - 1 := by omega
        have h2 : m &&& (m - 1) = 0 := by
          apply Nat.eq_of_testBit_eq
          intro j
          have := congrArg (fun x => x.testBit (j + 1)) h
          simp only [Nat.testBit_and, Nat.zero_testBit] at this ⊢
          rw [e] at this
          simpa [Nat.testBit_succ, d1] using this
        obtain ⟨k, hk⟩ := ih m (by omega) hm h2
        exact ⟨k + 1, by rw [hk]; ring⟩
      · have e : 2 * m + 1 - 1 = 2 * m := by omega
        rw [e] at h
        have d1 : (2 * m + 1) / 2 = m := by omega
        have h2 : m = 0 := by
          apply Nat.eq_of_testBit_eq
          intro j
          have := congrArg (fun x => x.testBit (j + 1)) h
          simp only [Nat.testBit_and, Nat.zero_testBit] at this ⊢
          simpa [Nat.testBit_succ, d1] using this
        exact ⟨0, by rw [h2]; rfl⟩
  · rintro ⟨k, rfl⟩
    rw [Nat.and_pow_two_sub_one_eq_mod]
    exact Nat.mod_self _

theorem needs_storage_iff (cpu i : Nat) :
    needs_storage cpu i = true ↔ ¬ (cpu > 0 ∧ i = ANNOTATE_BUF) := by
  simp only [needs_storage, Bool.not_eq_true', Bool.and_eq_false_iff, decide_eq_false_iff_not]
  tauto

/-- The loop over the cpus for one channel: it gets to the end exactly when
every allocation it asks for succeeds; then every cpu of the list has a fresh
slot; and slots of other cpus or channels are never touched. -/
theorem setup_cpus_spec (vmalloc : Nat → Nat → Option (Nat → Nat)) (i : Nat)
    (cpus : List Nat) (g : State) :
    ((setup_cpus vmalloc i cpus g).1 = true
        ↔ ∀ cpu ∈ cpus, needs_storage cpu i = true → (vmalloc cpu i).isSome = true)
    ∧ ((setup_cpus vmalloc i cpus g).1 = true → ∀ cpu ∈ cpus,
        (setup_cpus vmalloc i cpus g).2.percpu cpu i
          = fresh_chan (setup_storage vmalloc (g.gator_buffer_size i) cpu i))
    ∧ (∀ cpu j, ¬ (cpu ∈ cpus ∧ j = i) →
        (setup_cpus vmalloc i cpus g).2.percpu cpu j = g.percpu cpu j) := by
  induction cpus generalizing g with
  | nil =>
    refine ⟨?_, ?_, ?_⟩
    · simp [setup_cpus]
    · intro _ cpu hc
      cases hc
    · intro cpu j _
      rfl
  | cons c rest ih =>
    have key : ∀ (st : Option (List Nat)),
        st = setup_storage vmalloc (g.gator_buffer_size i) c i →
        (needs_storage c i = true → (vmalloc c i).isSome = true) →
        ((setup_cpus vmalloc i rest (g.setChan c i (fresh_chan st))).1 = true
            ↔ ∀ cpu ∈ c :: rest, needs_storage cpu i = true → (vmalloc cpu i).isSome = true)
        ∧ ((setup_cpus vmalloc i rest (g.setChan c i (fresh_chan st))).1 = true →
            ∀ cpu ∈ c :: rest,
              (setup_cpus vmalloc i rest (g.setChan c i (fresh_chan st))).2.percpu cpu i
                = fresh_chan (setup_storage vmalloc (g.gator_buffer_size i) cpu i))
        ∧ (∀ cpu j, ¬ (cpu ∈ c :: rest ∧ j = i) →
            (setup_cpus vmalloc i rest (g.setChan c i (fresh_chan st))).2.percpu cpu j
              = g.percpu cpu j) := by
      intro st hst hhead
      obtain ⟨h1, h2, h3⟩ := ih (g.setChan c i (fresh_chan st))
      refine ⟨?_, ?_, ?_⟩
      · rw [h1]
        simp only [List.mem_cons, forall_eq_or_imp]
        exact ⟨fun h => ⟨hhead, h⟩, fun h => h.2⟩
      · intro hok cpu hc
        by_cases hr : cpu ∈ rest
        · exact h2 hok cpu hr
        · have hcc : cpu = c := by
            rcases List.mem_cons.1 hc with h | h
            · exact h
            · exact absurd h hr
          rw [h3 cpu i (fun h => hr h.1), hcc, percpu_setChan_same, hst]
      · intro cpu j hn
        rw [h3 cpu j (fun h => hn ⟨List.mem_cons_of_mem _ h.1, h.2⟩)]
        exact percpu_setChan_other g c i cpu j _
          (fun h => hn ⟨by rw [h.1]; exact List.mem_cons_self _ _, h.2⟩)
    rw [setup_cpus]
    split_ifs with h
    · have hn : needs_storage c i = false := by
        simpa [needs_storage] using h
      exact key none (by simp [setup_storage, hn]) (by simp [hn])
    · have hn : needs_storage c i = true := (needs_storage_iff c i).2 h
      cases hv : vmalloc c i with
      | none =>
        refine ⟨?_, ?_, ?_⟩
        · simp only [Bool.false_eq_true, false_iff]
          intro hall
          have := hall c (List.mem_cons_self _ _) hn
          rw [hv] at this
          cases this
        · intro hf
          cases hf
        · intro cpu j hnc
          exact percpu_setChan_other g c i cpu j _
            (fun h => hnc ⟨by rw [h.1]; exact List.mem_cons_self _ _, h.2⟩)
      | some bytes =>
        exact key _ (by simp [setup_storage, hn, hv]) (by simp [hv])

/-- The loop over the channels: the result is 0, `-ENOEXEC` or `-ENOMEM`; it
is 0 only when every capacity passes the test and every allocation asked for
succeeds, and then every present cpu has a fresh slot in every channel; it is
`-ENOEXEC` only when a capacity fails the test, `-ENOMEM` only when an
allocation fails; and slots of channels outside the list are never touched. -/
theorem setup_bufs_spec (vmalloc : Nat → Nat → Option (Nat → Nat)) (bufs : List Nat)
    (hnd : bufs.Nodup) (g : State) :
    ((setup_bufs vmalloc bufs g).1 = 0 ∨ (setup_bufs vmalloc bufs g).1 = -ENOEXEC
        ∨ (setup_bufs vmalloc bufs g).1 = -ENOMEM)
    ∧ ((setup_bufs vmalloc bufs g).1 = 0 →
        (∀ i ∈ bufs, g.gator_buffer_size i &&& (g.gator_buffer_size i - 1) = 0)
        ∧ (∀ i ∈ bufs, ∀ cpu ∈ present_cpus g,
            needs_storage cpu i = true → (vmalloc cpu i).isSome = true)
        ∧ ∀ i ∈ bufs, ∀ cpu ∈ present_cpus g,
            (setup_bufs vmalloc bufs g).2.percpu cpu i
              = fresh_chan (setup_storage vmalloc (g.gator_buffer_size i) cpu i))
    ∧ ((setup_bufs vmalloc bufs g).1 = -ENOEXEC →
        ∃ i ∈ bufs, g.gator_buffer_size i &&& (g.gator_buffer_size i - 1) ≠ 0)
    ∧ ((setup_bufs vmalloc bufs g).1 = -ENOMEM →
        ∃ i ∈ bufs, ∃ cpu ∈ present_cpus g, needs_storage cpu i = true ∧ vmalloc cpu i = none)
    ∧ (∀ cpu j, j ∉ bufs → (setup_bufs vmalloc bufs g).2.percpu cpu j = g.percpu cpu j) := by
  induction bufs generalizing g with
  | nil =>
    refine ⟨Or.inl rfl, fun _ => ⟨?_, ?_, ?_⟩, ?_, ?_, fun _ _ _ => rfl⟩
    · intro i hi
      cases hi
    · intro i hi
      cases hi
    · intro i hi
      cases hi
    · intro h
      exact absurd h (by simp [setup_bufs, ENOEXEC, ENOMEM])
    · intro h
      exact absurd h (by simp [setup_bufs, ENOEXEC, ENOMEM])
  | cons i rest ih =>
    obtain ⟨hi, hrest⟩ := List.nodup_cons.1 hnd
    obtain ⟨c1, c2, c3⟩ := setup_cpus_spec vmalloc i (present_cpus g) g
    obtain ⟨k1, -, k3⟩ := setup_cpus_config vmalloc i (present_cpus g) g
    simp only [setup_bufs]
    by_cases hbad : g.gator_buffer_size i &&& (g.gator_buffer_size i - 1) ≠ 0
    · rw [if_pos hbad]
      refine ⟨Or.inr (Or.inl rfl), fun h => absurd h (by simp [setup_bufs, ENOEXEC, ENOMEM]), ?_,
        fun h => absurd h (by simp [setup_bufs, ENOEXEC, ENOMEM]), fun _ _ _ => rfl⟩
      intro _
      exact ⟨i, List.mem_cons_self _ _, hbad⟩
    · rw [if_neg hbad]
      have hgood : g.gator_buffer_size i &&& (g.gator_buffer_size i - 1) = 0 := by
        simpa using hbad
      by_cases hr : (setup_cpus vmalloc i (present_cpus g) g).1 = true
      · rw [if_pos hr]
        obtain ⟨a, b, c, d, e⟩ := ih hrest (setup_cpus vmalloc i (present_cpus g) g).2
        rw [k1, k3] at b
        rw [k1] at c
        rw [k3] at d
        refine ⟨a, ?_, ?_, ?_, ?_⟩
        · intro h0
          obtain ⟨b1, b2, b3⟩ := b h0
          refine ⟨?_, ?_, ?_⟩
          · intro j hj
            rcases List.mem_cons.1 hj with h | h
            · rw [h]; exact hgood
            · exact b1 j h
          · intro j hj
            rcases List.mem_cons.1 hj with h | h
            · rw [h]; exact c1.1 hr
            · exact b2 j h
          · intro j hj cpu hc
            rcases List.mem_cons.1 hj with h | h
            · rw [h, e cpu i hi]
              exact c2 hr cpu hc
            · exact b3 j h cpu hc
        · intro h
          obtain ⟨j, hj, hb⟩ := c h
          exact ⟨j, List.mem_cons_of_mem _ hj, hb⟩
        · intro h
          obtain ⟨j, hj, hb⟩ := d h
          exact ⟨j, List.mem_cons_of_mem _ hj, hb⟩
        · intro cpu j hj
          rw [e cpu j (fun h => hj (List.mem_cons_of_mem _ h))]
          exact c3 cpu j (fun h => hj (by rw [h.2]; exact List.mem_cons_self _ _))
      · rw [if_neg hr]
        refine ⟨Or.inr (Or.inr rfl), fun h => absurd h (by simp [setup_bufs, ENOEXEC, ENOMEM]),
          fun h => absurd h (by simp [setup_bufs, ENOEXEC, ENOMEM]), ?_, ?_⟩
        · intro _
          rw [c1] at hr
          push_neg at hr
          obtain ⟨cpu, hc, hn, hv⟩ := hr
          refine ⟨i, List.mem_cons_self _ _, cpu, hc, hn, ?_⟩
          cases hvm : vmalloc cpu i with
          | none => rfl
          | some bytes => rw [hvm] at hv; exact absurd rfl hv
        · intro cpu j hj
          exact c3 cpu j (fun h => hj (by rw [h.2]; exact List.mem_cons_self _ _))

/-- The result of `gator_op_setup` for any table of capacities. -/
theorem setup_result (sizes : Nat → Nat) (vmalloc : Nat → Nat → Option (Nat → Nat))
    (g : State) :
    ((gator_op_setup sizes vmalloc g).1 = 0 ∨ (gator_op_setup sizes vmalloc g).1 = -ENOEXEC
        ∨ (gator_op_setup sizes vmalloc g).1 = -ENOMEM)
    ∧ ((gator_op_setup sizes vmalloc g).1 = 0 →
        (∀ i, i < NUM_GATOR_BUFS → sizes i &&& (sizes i - 1) = 0)
        ∧ (∀ i, i < NUM_GATOR_BUFS → ∀ cpu ∈ present_cpus g,
            needs_storage cpu i = true → (vmalloc cpu i).isSome = true)
        ∧ ∀ i, i < NUM_GATOR_BUFS → ∀ cpu ∈ present_cpus g,
            (gator_op_setup sizes vmalloc g).2.percpu cpu i
              = fresh_chan (setup_storage vmalloc (sizes i) cpu i))
    ∧ ((gator_op_setup sizes vmalloc g).1 = -ENOEXEC →
        ∃ i, i < NUM_GATOR_BUFS ∧ sizes i &&& (sizes i - 1) ≠ 0)
    ∧ ((gator_op_setup sizes vmalloc g).1 = -ENOMEM →
        ∃ i, i < NUM_GATOR_BUFS ∧ ∃ cpu ∈ present_cpus g,
          needs_storage cpu i = true ∧ vmalloc cpu i = none) := by
  obtain ⟨a, b, c, d, -⟩ := setup_bufs_spec vmalloc (List.range NUM_GATOR_BUFS)
    (List.nodup_range _)
    { g with
      gator_buffer_size := fun i => if i < NUM_GATOR_BUFS then sizes i else g.gator_buffer_size i
      gator_buffer_mask := fun i =>
        if i < NUM_GATOR_BUFS then sizes i - 1 else g.gator_buffer_mask i }
  refine ⟨a, ?_, ?_, ?_⟩
  · intro h
    obtain ⟨b1, b2, b3⟩ := b h
    refine ⟨?_, ?_, ?_⟩
    · intro i hi
      have := b1 i (List.mem_range.2 hi)
      simpa only [hi, if_true] using this
    · intro i hi
      exact b2 i (List.mem_range.2 hi)
    · intro i hi cpu hc
      have := b3 i (List.mem_range.2 hi) cpu hc
      simpa only [hi, if_true] using this
  · intro h
    obtain ⟨i, hi, hb⟩ := c h
    have hi := List.mem_range.1 hi
    exact ⟨i, hi, by simpa only [hi, if_true] using hb⟩
  · intro h
    obtain ⟨i, hi, hb⟩ := d h
    exact ⟨i, List.mem_range.1 hi, hb⟩

theorem configured_size_pow (i : Nat) (hi : i < NUM_GATOR_BUFS) :
    ∃ k, configured_size i = 2 ^ k := by
  have h : i = 0 ∨ i = 1 ∨ i = 2 ∨ i = 3 ∨ i = 4 ∨ i = 5 ∨ i = 6 ∨ i = 7 ∨ i = 8 := by
    unfold NUM_GATOR_BUFS at hi
    omega
  rcases h with h | h | h | h | h | h | h | h | h <;> subst h
  · exact ⟨10, by decide⟩
  · exact ⟨17, by decide⟩
  · exact ⟨16, by decide⟩
  · exact ⟨16, by decide⟩
  · exact ⟨17, by decide⟩
  · exact ⟨16, by decide⟩
  · exact ⟨17, by decide⟩
  · exact ⟨16, by decide⟩
  · exact ⟨15, by decide⟩

theorem fresh_chan_storage (vmalloc : Nat → Nat → Option (Nat → Nat)) (size cpu i : Nat)
    (h : needs_storage cpu i = true → (vmalloc cpu i).isSome = true) :
    if cpu > 0 ∧ i = ANNOTATE_BUF then setup_storage vmalloc size cpu i = none
    else ∃ buffer, setup_storage vmalloc size cpu i = some buffer ∧ buffer.length = size := by
  split_ifs with hc
  · have hn : needs_storage cpu i = false := by
      cases hn : needs_storage cpu i with
      | false => rfl
      | true => exact absurd hc ((needs_storage_iff cpu i).1 hn)
    simp [setup_storage, hn]
  · have hn := (needs_storage_iff cpu i).2 hc
    cases hv : vmalloc cpu i with
    | none =>
      have := h hn
      rw [hv] at this
      cases this
    | some bytes =>
      exact ⟨(List.range size).map bytes, by simp [setup_storage, hn, hv], by simp⟩

/-! ## `gator_op_setup` -/

/-- C13: each of the nine capacities `gator_op_setup` configures is a power
of two and is stored with the mask `capacity - 1`. When every allocation it
asks for succeeds, it returns 0 and every slot of a present cpu has its three
cursors 0, its flag true and storage of the channel's capacity, except the
annotation slot of a cpu other than 0, whose storage is `NULL`. When an
allocation it asks for fails, it returns `-ENOMEM`. And the check of the
capacities is effective: with a table of non-zero capacities one of which is
not a power of two, setup never returns 0, and returns `-ENOEXEC` when no
allocation fails. -/
theorem setup_spec (vmalloc : Nat → Nat → Option (Nat → Nat)) (g : State) :
    (∀ i, i < NUM_GATOR_BUFS →
        (∃ k, configured_size i = 2 ^ k)
        ∧ (gator_op_setup configured_size vmalloc g).2.gator_buffer_size i = configured_size i
        ∧ (gator_op_setup configured_size vmalloc g).2.gator_buffer_mask i
            = configured_size i - 1)
    ∧ ((∀ cpu ∈ present_cpus g, ∀ i, i < NUM_GATOR_BUFS →
          ¬ (cpu > 0 ∧ i = ANNOTATE_BUF) → (vmalloc cpu i).isSome = true) →
        (gator_op_setup configured_size vmalloc g).1 = 0
        ∧ ∀ cpu ∈ present_cpus g, ∀ i, i < NUM_GATOR_BUFS →
            ((gator_op_setup configured_size vmalloc g).2.percpu cpu i).read = 0
            ∧ ((gator_op_setup configured_size vmalloc g).2.percpu cpu i).write = 0
            ∧ ((gator_op_setup configured_size vmalloc g).2.percpu cpu i).commit = 0
            ∧ ((gator_op_setup configured_size vmalloc g).2.percpu cpu i).space_available = true
            ∧ (if cpu > 0 ∧ i = ANNOTATE_BUF then
                ((gator_op_setup configured_size vmalloc g).2.percpu cpu i).buffer = none
              else ∃ buffer,
                ((gator_op_setup configured_size vmalloc g).2.percpu cpu i).buffer = some buffer
                ∧ buffer.length = configured_size i))
    ∧ ((∃ cpu ∈ present_cpus g, ∃ i, i < NUM_GATOR_BUFS ∧ ¬ (cpu > 0 ∧ i = ANNOTATE_BUF)
          ∧ vmalloc cpu i = none) →
        (gator_op_setup configured_size vmalloc g).1 = -ENOMEM)
    ∧ (∀ sizes : Nat → Nat, (∀ i, i < NUM_GATOR_BUFS → sizes i ≠ 0) →
        (∃ i, i < NUM_GATOR_BUFS ∧ ¬ ∃ k, sizes i = 2 ^ k) →
        (gator_op_setup sizes vmalloc g).1 ≠ 0
        ∧ ((∀ cpu ∈ present_cpus g, ∀ i, i < NUM_GATOR_BUFS →
              ¬ (cpu > 0 ∧ i = ANNOTATE_BUF) → (vmalloc cpu i).isSome = true) →
            (gator_op_setup sizes vmalloc g).1 = -ENOEXEC)) := by
  have good : ∀ i, i < NUM_GATOR_BUFS → configured_size i &&& (configured_size i - 1) = 0 := by
    intro i hi
    obtain ⟨k, hk⟩ := configured_size_pow i hi
    exact (and_pred_eq_zero_iff _ (by rw [hk]; positivity)).2 ⟨k, hk⟩
  obtain ⟨a, b, c, d⟩ := setup_result configured_size vmalloc g
  have noexec : (gator_op_setup configured_size vmalloc g).1 ≠ -ENOEXEC := by
    intro h
    obtain ⟨i, hi, hb⟩ := c h
    exact hb (good i hi)
  refine ⟨?_, ?_, ?_, ?_⟩
  · intro i hi
    exact ⟨configured_size_pow i hi, setup_size configured_size vmalloc g i hi⟩
  · intro hall
    have h0 : (gator_op_setup configured_size vmalloc g).1 = 0 := by
      rcases a with h | h | h
      · exact h
      · exact absurd h noexec
      · obtain ⟨i, hi, cpu, hc, hn, hv⟩ := d h
        have := hall cpu hc i hi ((needs_storage_iff cpu i).1 hn)
        rw [hv] at this
        cases this
    refine ⟨h0, ?_⟩
    intro cpu hc i hi
    rw [(b h0).2.2 i hi cpu hc]
    refine ⟨rfl, rfl, rfl, rfl, ?_⟩
    exact fresh_chan_storage vmalloc (configured_size i) cpu i
      (fun hn => hall cpu hc i hi ((needs_storage_iff cpu i).1 hn))
  · rintro ⟨cpu, hc, i, hi, hn, hv⟩
    rcases a with h | h | h
    · have := (b h).2.1 i hi cpu hc ((needs_storage_iff cpu i).2 hn)
      rw [hv] at this
      cases this
    · exact absurd h noexec
    · exact h
  · intro sizes hpos hbad
    obtain ⟨a, b, c, d⟩ := setup_result sizes vmalloc g
    obtain ⟨i, hi, hb⟩ := hbad
    have h0 : (gator_op_setup sizes vmalloc g).1 ≠ 0 := by
      intro h
      exact hb ((and_pred_eq_zero_iff _ (hpos i hi)).1 ((b h).1 i hi))
    refine ⟨h0, ?_⟩
    intro hall
    rcases a with h | h | h
    · exact absurd h h0
    · exact h
    · obtain ⟨j, hj, cpu, hc, hn, hv⟩ := d h
      have := hall cpu hc j hj ((needs_storage_iff cpu j).1 hn)
      rw [hv] at this
      cases this

/-- C13 on a machine with two cores where every allocation succeeds: setup
returns 0, the summary slot of core 0 gets 1024 bytes and the annotation slot
of core 1 gets none. -/
theorem setup_spec_witness :
    (gator_op_setup configured_size (fun _ _ => some fun _ => 0)
        (example_state 8 (example_chan [] 3 4 5))).1 = 0
    ∧ (∃ buffer,
        ((gator_op_setup configured_size (fun _ _ => some fun _ => 0)
          (example_state 8 (example_chan [] 3 4 5))).2.percpu 0 SUMMARY_BUF).buffer = some buffer
        ∧ buffer.length = 1024)
    ∧ ((gator_op_setup configured_size (fun _ _ => some fun _ => 0)
          (example_state 8 (example_chan [] 3 4 5))).2.percpu 1 ANNOTATE_BUF).buffer = none :=
  ⟨((setup_spec (fun _ _ => some fun _ => 0) (example_state 8 (example_chan [] 3 4 5))).2.1
      (fun _ _ _ _ _ => rfl)).1,
   (((setup_spec (fun _ _ => some fun _ => 0) (example_state 8 (example_chan [] 3 4 5))).2.1
      (fun _ _ _ _ _ => rfl)).2 0 (by decide) SUMMARY_BUF (by decide)).2.2.2.2,
   (((setup_spec (fun _ _ => some fun _ => 0) (example_state 8 (example_chan [] 3 4 5))).2.1
      (fun _ _ _ _ _ => rfl)).2 1 (by decide) ANNOTATE_BUF (by decide)).2.2.2.2⟩

/-! ## The order of the start and stop hooks -/

theorem event_only_start : event_only start_index := by
  intro c h1 _
  cases c <;> first | rfl | exact absurd rfl (h1 _)

theorem event_only_stop : event_only stop_index := by
  intro c _ h2
  cases c <;> first | rfl | exact absurd rfl (h2 _)

theorem filterMap_call (p : Call → Option Nat) (s : Life) (c : Call) (h : p c = none) :
    (s.call c).calls.filterMap p = s.calls.filterMap p := by
  simp [Life.call, List.filterMap_append, h]

theorem filterMap_callAll (p : Call → Option Nat) (s : Life) (cs : List Call) :
    (s.callAll cs).calls.filterMap p = s.calls.filterMap p ++ cs.filterMap p := by
  simp [Life.callAll, List.filterMap_append]

theorem filterMap_map_none (p : Call → Option Nat) (f : Nat → Call) (l : List Nat)
    (h : ∀ x, p (f x) = none) : (l.map f).filterMap p = [] := by
  rw [List.filterMap_eq_nil_iff]
  intro c hc
  obtain ⟨x, -, rfl⟩ := List.mem_map.1 hc
  exact h x

theorem timer_stop_filterMap (p : Call → Option Nat) (hp : event_only p) (env : Env)
    (s : Life) : (gator_timer_stop env s).calls.filterMap p = s.calls.filterMap p := by
  unfold gator_timer_stop
  split_ifs
  · have h1 : p Call.timer_offline = none := hp _ (fun _ => by simp) (fun _ => by simp)
    have h2 : p Call.hrtimer_shutdown = none := hp _ (fun _ => by simp) (fun _ => by simp)
    have h3 := filterMap_map_none p Call.timer_offline_dispatch env.online
      (fun x => hp _ (fun _ => by simp) (fun _ => by simp))
    simp [Life.call, Life.callAll, List.filterMap_append, h1, h2, h3]
  · rfl

theorem timer_start_filterMap (p : Call → Option Nat) (hp : event_only p) (env : Env)
    (s : Life) : (gator_timer_start env s).2.calls.filterMap p = s.calls.filterMap p := by
  unfold gator_timer_start
  have h1 : p Call.hrtimer_init = none := hp _ (fun _ => by simp) (fun _ => by simp)
  have h2 : p Call.timer_online = none := hp _ (fun _ => by simp) (fun _ => by simp)
  have h3 := filterMap_map_none p Call.timer_online_dispatch env.online
    (fun x => hp _ (fun _ => by simp) (fun _ => by simp))
  split_ifs <;> simp [Life.call, Life.callAll, List.filterMap_append, h1, h2, h3]

theorem notifier_start_filterMap (p : Call → Option Nat) (hp : event_only p) (env : Env)
    (s : Life) : (gator_notifier_start env s).2.calls.filterMap p = s.calls.filterMap p := by
  unfold gator_notifier_start
  have h1 : p Call.register_hotcpu_notifier = none :=
    hp _ (fun _ => by simp) (fun _ => by simp)
  have h2 : p Call.register_pm_notifier = none := hp _ (fun _ => by simp) (fun _ => by simp)
  simp only
  split_ifs <;> simp [Life.call, List.filterMap_append, h1, h2]

theorem notifier_stop_filterMap (p : Call → Option Nat) (hp : event_only p) (s : Life) :
    (gator_notifier_stop s).calls.filterMap p = s.calls.filterMap p := by
  unfold gator_notifier_stop
  have h1 : p Call.unregister_pm_notifier = none := hp _ (fun _ => by simp) (fun _ => by simp)
  have h2 : p Call.unregister_hotcpu_notifier = none :=
    hp _ (fun _ => by simp) (fun _ => by simp)
  simp [Life.call, List.filterMap_append, h1, h2]

theorem stop_events_calls (i : Nat) (events : List gator_interface) (s : Life) :
    (stop_events i events s).calls
      = s.calls ++ ((events.enumFrom i).filter fun q => q.2.stop).map
          fun q => Call.event_stop q.1 := by
  induction events generalizing i s with
  | nil => simp [stop_events]
  | cons gi rest ih =>
    simp only [stop_events, List.enumFrom_cons, List.filter_cons]
    rw [ih]
    split_ifs <;> simp [Life.call]

theorem stop_events_stops (events : List gator_interface) (s : Life) :
    (stop_events 0 events s).calls.filterMap stop_index
      = s.calls.filterMap stop_index ++ stop_hooks events := by
  rw [stop_events_calls, List.filterMap_append, List.filterMap_map]
  congr 1
  unfold stop_hooks List.enum
  rw [← List.filterMap_eq_map]
  rfl

theorem stop_events_starts (i : Nat) (events : List gator_interface) (s : Life) :
    (stop_events i events s).calls.filterMap start_index = s.calls.filterMap start_index := by
  rw [stop_events_calls, List.filterMap_append, List.filterMap_map]
  simp only [List.append_right_eq_self, List.filterMap_eq_nil_iff]
  intro q _
  rfl

theorem ite_call_filterMap (p : Call → Option Nat) (c : Call) (h : p c = none) (P : Prop)
    [Decidable P] (s : Life) :
    (if P then s.call c else s).calls.filterMap p = s.calls.filterMap p := by
  split_ifs
  · exact filterMap_call p s c h
  · rfl

theorem ite_timer_stop_filterMap (p : Call → Option Nat) (hp : event_only p) (env : Env)
    (P : Prop) [Decidable P] (s : Life) :
    (if P then gator_timer_stop env s else s).calls.filterMap p = s.calls.filterMap p := by
  split_ifs
  · exact timer_stop_filterMap p hp env s
  · rfl

/-- The calls to stop hooks that the failure labels of `gator_start` add: the
loop "stop all events" from `cookies_failure` up, none at `events_failure`. -/
theorem unwind_stops (env : Env) (label : Nat) (s : Life) :
    (start_unwind env label s).calls.filterMap stop_index
      = s.calls.filterMap stop_index ++ (if 1 ≤ label then stop_hooks env.events else []) := by
  have h : ∀ t : Life,
      (if 1 ≤ label then stop_events 0 env.events t else t).calls.filterMap stop_index
        = t.calls.filterMap stop_index
          ++ (if 1 ≤ label then stop_hooks env.events else []) := by
    intro t
    split_ifs
    · exact stop_events_stops env.events t
    · simp
  unfold start_unwind
  simp only
  rw [h, ite_call_filterMap _ _ rfl, ite_call_filterMap _ _ rfl, ite_call_filterMap _ _ rfl,
    ite_call_filterMap _ _ rfl, ite_call_filterMap _ _ rfl,
    ite_timer_stop_filterMap _ event_only_stop]

theorem unwind_starts (env : Env) (label : Nat) (s : Life) :
    (start_unwind env label s).calls.filterMap start_index
      = s.calls.filterMap start_index := by
  have h : ∀ t : Life,
      (if 1 ≤ label then stop_events 0 env.events t else t).calls.filterMap start_index
        = t.calls.filterMap start_index := by
    intro t
    split_ifs
    · exact stop_events_starts 0 env.events t
    · rfl
  unfold start_unwind
  simp only
  rw [h, ite_call_filterMap _ _ rfl, ite_call_filterMap _ _ rfl, ite_call_filterMap _ _ rfl,
    ite_call_filterMap _ _ rfl, ite_call_filterMap _ _ rfl,
    ite_timer_stop_filterMap _ event_only_start]

theorem prev_stops_starts (prev : List gator_interface) :
    (prev_stops prev).filterMap start_index = [] := by
  induction prev with
  | nil => rfl
  | cons gi prev ih =>
    simp only [prev_stops, List.filterMap_append, ih, List.append_nil]
    split_ifs <;> rfl

/-- The walk back stops the sources it passes that have a stop hook, in
reverse registration order. -/
theorem prev_stops_hooks (prev : List gator_interface) :
    (prev_stops prev).filterMap stop_index = (stop_hooks prev.reverse).reverse := by
  induction prev with
  | nil => rfl
  | cons gi prev ih =>
    simp only [prev_stops, List.filterMap_append, ih, stop_hooks, List.reverse_cons,
      List.enum_append, List.filter_append, List.map_append, List.reverse_append,
      List.length_reverse]
    congr 1
    by_cases h : gi.stop = true <;> simp [h, stop_index, List.enumFrom]

/-- The loop "start all events" when no start hook fails: it calls the start
hook of every source that has one, in registration order, and nothing else. -/
theorem start_events_ok (events prev : List gator_interface) (s : Life)
    (h : ∀ gi ∈ events, gi.start = none ∨ gi.start = some 0) :
    start_events prev events s
      = (false, s.callAll (((events.enumFrom prev.length).filter
          fun q => q.2.start.isSome).map fun q => Call.event_start q.1)) := by
  induction events generalizing prev s with
  | nil => simp [start_events, callAll_nil]
  | cons gi rest ih =>
    have hrest : ∀ g ∈ rest, g.start = none ∨ g.start = some 0 :=
      fun g hg => h g (List.mem_cons_of_mem _ hg)
    rw [start_events]
    rcases h gi (List.mem_cons_self _ _) with hgi | hgi
    · simp only [hgi]
      rw [ih (gi :: prev) s hrest]
      simp [List.enumFrom_cons, List.filter_cons, hgi]
    · simp only [hgi, ne_eq, not_true_eq_false, if_false]
      rw [ih (gi :: prev) _ hrest, call_eq_callAll, callAll_callAll]
      simp [List.enumFrom_cons, List.filter_cons, hgi]

/-- The loop "start all events" when the start hook of `f` is the first to
fail: it calls the start hooks of the sources up to and including `f`, in
registration order, and then the walk back stops the sources before `f`. -/
theorem start_events_fails (prev pre post : List gator_interface) (f : gator_interface)
    (r : Int) (s : Life)
    (hpre : ∀ gi ∈ pre, gi.start = none ∨ gi.start = some 0)
    (hf : f.start = some r) (hr : r ≠ 0) :
    start_events prev (pre ++ f :: post) s
      = (true, (s.callAll ((((pre ++ [f]).enumFrom prev.length).filter
          fun q => q.2.start.isSome).map fun q => Call.event_start q.1)).callAll
            (prev_stops (pre.reverse ++ prev))) := by
  induction pre generalizing prev s with
  | nil =>
    simp only [List.nil_append, start_events, hf, hr, ne_eq, not_false_eq_true, if_true,
      stop_previous_eq, List.reverse_nil, call_eq_callAll]
    simp [List.enumFrom_cons, List.filter_cons, hf]
  | cons gi pre ih =>
    have hpre' : ∀ g ∈ pre, g.start = none ∨ g.start = some 0 :=
      fun g hg => hpre g (List.mem_cons_of_mem _ hg)
    have e : (gi :: pre).reverse ++ prev = pre.reverse ++ gi :: prev := by simp
    show start_events prev (gi :: (pre ++ f :: post)) s = _
    rw [start_events, e]
    rcases hpre gi (List.mem_cons_self _ _) with hgi | hgi
    · simp only [hgi]
      rw [ih (gi :: prev) s hpre']
      simp [List.enumFrom_cons, List.filter_cons, hgi]
    · simp only [hgi, ne_eq, not_true_eq_false, if_false]
      rw [ih (gi :: prev) _ hpre']
      simp [call_eq_callAll, callAll_callAll, List.enumFrom_cons, List.filter_cons, hgi]

theorem start_calls_starts (events : List gator_interface) :
    (((events.enumFrom 0).filter fun q => q.2.start.isSome).map
        fun q => Call.event_start q.1).filterMap start_index = start_hooks events := by
  rw [List.filterMap_map]
  unfold start_hooks List.enum
  rw [← List.filterMap_eq_map]
  rfl

theorem start_calls_stops (i : Nat) (events : List gator_interface) :
    (((events.enumFrom i).filter fun q => q.2.start.isSome).map
        fun q => Call.event_start q.1).filterMap stop_index = [] := by
  rw [List.filterMap_map, List.filterMap_eq_nil_iff]
  intro q _
  rfl

/-- A source at index `n` splits the list of sources around it. -/
theorem events_split (events : List gator_interface) (n : Nat) (gi : gator_interface)
    (h : events[n]? = some gi) :
    events = events.take n ++ gi :: events.drop (n + 1)
      ∧ events.take (n + 1) = events.take n ++ [gi] := by
  obtain ⟨hn, hg⟩ := List.getElem?_eq_some_iff.1 h
  constructor
  · rw [← hg, ← List.drop_eq_getElem_cons hn]
    exact (List.take_append_drop n events).symm
  · rw [← hg, List.take_succ, List.getElem?_eq_getElem hn]
    rfl

theorem gator_start_starts (env : Env) (s : Life) :
    (gator_start env s).2.calls.filterMap start_index
      = (start_events [] env.events ((s.callAll (env.present.flatMap fun cpu =>
          (List.range NUM_GATOR_BUFS).map fun i => Call.marshal_frame cpu i)).call
            .gator_summary)).2.calls.filterMap start_index := by
  simp only [gator_start]
  split_ifs <;>
    simp only [unwind_starts, filterMap_call, start_index,
      timer_start_filterMap _ event_only_start, notifier_start_filterMap _ event_only_start]

theorem gator_start_stops_hook (env : Env) (s : Life)
    (h : (start_events [] env.events ((s.callAll (env.present.flatMap fun cpu =>
          (List.range NUM_GATOR_BUFS).map fun i => Call.marshal_frame cpu i)).call
            .gator_summary)).1 = true) :
    (gator_start env s).2.calls.filterMap stop_index
      = (start_events [] env.events ((s.callAll (env.present.flatMap fun cpu =>
          (List.range NUM_GATOR_BUFS).map fun i => Call.marshal_frame cpu i)).call
            .gator_summary)).2.calls.filterMap stop_index := by
  unfold gator_start
  simp only
  rw [if_pos h, unwind_stops]
  simp

theorem gator_start_stops_later (env : Env) (s : Life)
    (h : (start_events [] env.events ((s.callAll (env.present.flatMap fun cpu =>
          (List.range NUM_GATOR_BUFS).map fun i => Call.marshal_frame cpu i)).call
            .gator_summary)).1 = false)
    (hne : (gator_start env s).1 ≠ 0) :
    (gator_start env s).2.calls.filterMap stop_index
      = (start_events [] env.events ((s.callAll (env.present.flatMap fun cpu =>
          (List.range NUM_GATOR_BUFS).map fun i => Call.marshal_frame cpu i)).call
            .gator_summary)).2.calls.filterMap stop_index ++ stop_hooks env.events := by
  unfold gator_start at hne ⊢
  simp only at hne ⊢
  generalize start_events [] env.events _ = r at *
  have hr : ¬ r.1 = true := by simp [h]
  rw [if_neg hr] at hne ⊢
  split_ifs at hne ⊢
  all_goals first
    | exact absurd rfl hne
    | simp only [unwind_stops, filterMap_call, stop_index,
        timer_start_filterMap _ event_only_stop, notifier_start_filterMap _ event_only_stop]
      simp

theorem gator_start_stops_success (env : Env) (s : Life)
    (h : (start_events [] env.events ((s.callAll (env.present.flatMap fun cpu =>
          (List.range NUM_GATOR_BUFS).map fun i => Call.marshal_frame cpu i)).call
            .gator_summary)).1 = false)
    (h0 : (gator_start env s).1 = 0) :
    (gator_start env s).2.calls.filterMap stop_index
      = (start_events [] env.events ((s.callAll (env.present.flatMap fun cpu =>
          (List.range NUM_GATOR_BUFS).map fun i => Call.marshal_frame cpu i)).call
            .gator_summary)).2.calls.filterMap stop_index := by
  unfold gator_start at h0 ⊢
  simp only at h0 ⊢
  generalize start_events [] env.events _ = r at *
  have hr : ¬ r.1 = true := by simp [h]
  rw [if_neg hr] at h0 ⊢
  split_ifs at h0 ⊢
  all_goals first
    | (simp at h0; done)
    | simp only [filterMap_call, stop_index, timer_start_filterMap _ event_only_stop,
        notifier_start_filterMap _ event_only_stop]

/-- C14 fails as stated: with two registered data sources that both have a
stop hook, `gator_stop` calls the stop hook of source 0 before that of source
1, and so does the rollback of `gator_start` when `cookies_initialize` fails
after both sources were started; only the rollback after a failing start hook
(here that of a third source) stops source 1 before source 0. -/
theorem stop_order_counterexample :
    (gator_stop (example_env [⟨some 0, true⟩, ⟨some 0, true⟩])
        { gator_started := 1, gator_running := 1, calls := [] }).calls.filterMap stop_index
      = [0, 1]
    ∧ (gator_start { example_env [⟨some 0, true⟩, ⟨some 0, true⟩] with cookies_init := -1 }
        idle).2.calls.filterMap stop_index = [0, 1]
    ∧ (gator_start { example_env [⟨some 0, true⟩, ⟨some 0, true⟩] with cookies_init := -1 }
        idle).2.calls.filterMap start_index = [0, 1]
    ∧ (gator_start (example_env [⟨some 0, true⟩, ⟨some 0, true⟩, ⟨some (-1), true⟩])
        idle).2.calls.filterMap stop_index = [1, 0] := by
  decide

/-- C14, amended. When the start hook of source `n` is the first to fail,
`gator_start` has called the start hooks of the sources up to and including
`n`, in registration order, and then the stop hooks of the sources before `n`,
in reverse registration order. When no start hook fails, `gator_start` has
called every start hook in registration order; if it then fails at a later
point, it has called every stop hook in registration order, and if it
succeeds, no stop hook. `gator_stop` calls every stop hook in registration
order. -/
theorem hook_order (env : Env) (s : Life) :
    (∀ n gi r, env.events[n]? = some gi → gi.start = some r → r ≠ 0 →
      (∀ gj ∈ env.events.take n, gj.start = none ∨ gj.start = some 0) →
      (gator_start env s).2.calls.filterMap start_index
          = s.calls.filterMap start_index ++ start_hooks (env.events.take (n + 1))
        ∧ (gator_start env s).2.calls.filterMap stop_index
          = s.calls.filterMap stop_index ++ (stop_hooks (env.events.take n)).reverse)
    ∧ ((∀ gi ∈ env.events, gi.start = none ∨ gi.start = some 0) →
        (gator_start env s).2.calls.filterMap start_index
          = s.calls.filterMap start_index ++ start_hooks env.events
        ∧ ((gator_start env s).1 ≠ 0 →
            (gator_start env s).2.calls.filterMap stop_index
              = s.calls.filterMap stop_index ++ stop_hooks env.events)
        ∧ ((gator_start env s).1 = 0 →
            (gator_start env s).2.calls.filterMap stop_index = s.calls.filterMap stop_index))
    ∧ (gator_stop env s).calls.filterMap stop_index
        = s.calls.filterMap stop_index ++ stop_hooks env.events := by
  have hq : ∀ p : Call → Option Nat, event_only p →
      ((s.callAll (env.present.flatMap fun cpu =>
        (List.range NUM_GATOR_BUFS).map fun i => Call.marshal_frame cpu i)).call
          .gator_summary).calls.filterMap p = s.calls.filterMap p := by
    intro p hp
    rw [filterMap_call p _ _ (hp _ (fun _ => by simp) (fun _ => by simp)), filterMap_callAll]
    simp only [List.append_right_eq_self, List.filterMap_eq_nil_iff, List.mem_flatMap,
      List.mem_map]
    rintro c ⟨cpu, -, i, -, rfl⟩
    exact hp _ (fun _ => by simp) (fun _ => by simp)
  refine ⟨?_, ?_, ?_⟩
  · intro n gi r hn hf hr hpre
    obtain ⟨e1, e2⟩ := events_split env.events n gi hn
    have he := start_events_fails [] (env.events.take n) (env.events.drop (n + 1)) gi r
      ((s.callAll (env.present.flatMap fun cpu =>
        (List.range NUM_GATOR_BUFS).map fun i => Call.marshal_frame cpu i)).call
          .gator_summary) hpre hf hr
    rw [← e1, ← e2] at he
    have h1 : (start_events [] env.events ((s.callAll (env.present.flatMap fun cpu =>
        (List.range NUM_GATOR_BUFS).map fun i => Call.marshal_frame cpu i)).call
          .gator_summary)).1 = true := by rw [he]
    constructor
    · rw [gator_start_starts, he]
      simp only [filterMap_callAll, hq _ event_only_start, prev_stops_starts, List.append_nil,
        List.length_nil, start_calls_starts]
    · rw [gator_start_stops_hook env s h1, he]
      simp only [filterMap_callAll, hq _ event_only_stop, start_calls_stops, List.append_nil,
        prev_stops_hooks, List.reverse_reverse]
  · intro hall
    have he := start_events_ok env.events []
      ((s.callAll (env.present.flatMap fun cpu =>
        (List.range NUM_GATOR_BUFS).map fun i => Call.marshal_frame cpu i)).call
          .gator_summary) hall
    have h1 : (start_events [] env.events ((s.callAll (env.present.flatMap fun cpu =>
        (List.range NUM_GATOR_BUFS).map fun i => Call.marshal_frame cpu i)).call
          .gator_summary)).1 = false := by rw [he]
    refine ⟨?_, ?_, ?_⟩
    · rw [gator_start_starts, he]
      simp only [filterMap_callAll, hq _ event_only_start, List.length_nil, start_calls_starts]
    · intro hne
      rw [gator_start_stops_later env s h1 hne, he]
      simp only [filterMap_callAll, hq _ event_only_stop, start_calls_stops, List.append_nil]
    · intro h0
      rw [gator_start_stops_success env s h1 h0, he]
      simp only [filterMap_callAll, hq _ event_only_stop, start_calls_stops, List.append_nil]
  · unfold gator_stop
    simp only
    rw [stop_events_stops, timer_stop_filterMap _ event_only_stop,
      notifier_stop_filterMap _ event_only_stop, filterMap_call _ _ _ rfl,
      filterMap_call _ _ _ rfl, filterMap_call _ _ _ rfl, filterMap_call _ _ _ rfl]

/-- C14 (as amended) with three sources of which the last has a failing start
hook: the three start hooks are called in order, then the stop hooks of
source 1 and source 0, in that order. And with two sources when
`cookies_initialize` fails: both are stopped, source 0 first. -/
theorem hook_order_witness :
    (gator_start (example_env [⟨some 0, true⟩, ⟨some 0, true⟩, ⟨some (-1), true⟩])
        idle).2.calls.filterMap start_index = [0, 1, 2]
    ∧ (gator_start (example_env [⟨some 0, true⟩, ⟨some 0, true⟩, ⟨some (-1), true⟩])
        idle).2.calls.filterMap stop_index = [1, 0]
    ∧ (gator_start { example_env [⟨some 0, true⟩, ⟨some 0, true⟩] with cookies_init := -1 }
        idle).2.calls.filterMap stop_index = [0, 1] :=
  ⟨((hook_order (example_env [⟨some 0, true⟩, ⟨some 0, true⟩, ⟨some (-1), true⟩]) idle).1
      2 ⟨some (-1), true⟩ (-1) rfl rfl (by decide) (by decide)).1,
   ((hook_order (example_env [⟨some 0, true⟩, ⟨some 0, true⟩, ⟨some (-1), true⟩]) idle).1
      2 ⟨some (-1), true⟩ (-1) rfl rfl (by decide) (by decide)).2,
   ((hook_order { example_env [⟨some 0, true⟩, ⟨some 0, true⟩] with cookies_init := -1 }
      idle).2.1 (by decide)).2.1 (by decide)⟩

/-! ## A sample never leaves a frame open -/

theorem add_trace_address (env : SampleEnv) (cpu address : Nat) :
    ∀ e ∈ gator_add_trace env cpu address, ∃ a c, e = Emit.backtrace a c := by
  intro e he
  simp only [gator_add_trace, List.mem_singleton] at he
  exact ⟨_, _, he⟩

/-- The single record `gator_add_trace` emits for an address: the cookie that
`get_address_cookie` returns for the address with its lowest bit cleared, and
the offset it leaves, or the address itself when the cookie is `NO_COOKIE` or
`INVALID_COOKIE`, with its lowest bit cleared. -/
theorem add_trace_eq (env : SampleEnv) (cpu address : Nat) :
    gator_add_trace env cpu address
      = [Emit.backtrace
          ((if (env.get_address_cookie cpu (address - address % 2)).1 = NO_COOKIE
                ∨ (env.get_address_cookie cpu (address - address % 2)).1 = INVALID_COOKIE
              then address else (env.get_address_cookie cpu (address - address % 2)).2)
            - (if (env.get_address_cookie cpu (address - address % 2)).1 = NO_COOKIE
                ∨ (env.get_address_cookie cpu (address - address % 2)).1 = INVALID_COOKIE
              then address else (env.get_address_cookie cpu (address - address % 2)).2) % 2)
          (env.get_address_cookie cpu (address - address % 2)).1] := rfl

theorem flatMap_add_trace (env : SampleEnv) (cpu : Nat) (l : List Nat) (f : Nat → Emit)
    (h : ∀ a, gator_add_trace env cpu a = [f a]) :
    l.flatMap (gator_add_trace env cpu) = l.map f := by
  induction l with
  | nil => rfl
  | cons a l ih => simp only [List.flatMap_cons, List.map_cons, h a, ih, List.singleton_append]

/-- C15: `gator_add_sample` emits nothing at all (no address, no footer) when
the register snapshot is absent or `marshal_backtrace_header` rejects the
header. When the header is accepted it emits the header, then address records
only, then the footer, which is the only footer it emits. The addresses are
those of `kernel_backtrace` in kernel mode. In user mode they are one record
for the program counter, followed by one record for each address of
`arm_backtrace_eabi` when `gator_backtrace_depth` is greater than 0 and by
nothing when it is 0; the record of an address carries the cookie that
`get_address_cookie` returns for it and the offset it leaves, or the address
itself when the cookie is `NO_COOKIE` or `INVALID_COOKIE`. -/
theorem sample_frame_closed (env : SampleEnv) (gator_backtrace_depth cpu : Nat)
    (regs : Option pt_regs) :
    ((regs = none ∨ env.marshal_backtrace_header = false) →
        gator_add_sample env gator_backtrace_depth cpu regs = [])
    ∧ (∀ r, regs = some r → env.marshal_backtrace_header = true →
        ∃ addresses,
          gator_add_sample env gator_backtrace_depth cpu regs
            = Emit.backtrace_header (env.get_exec_cookie cpu) env.tgid env.pid (!r.user_mode)
              :: (addresses ++ [Emit.backtrace_footer])
          ∧ (∀ e ∈ addresses, ∃ a c, e = Emit.backtrace a c)
          ∧ (gator_add_sample env gator_backtrace_depth cpu regs).count Emit.backtrace_footer = 1
          ∧ (r.user_mode = false →
              addresses = (env.kernel_backtrace cpu r).map fun q => Emit.backtrace q.1 q.2)
          ∧ (r.user_mode = true →
              addresses
                = (r.pc :: (if 0 < gator_backtrace_depth
                    then env.arm_backtrace_eabi cpu r gator_backtrace_depth else [])).map
                  fun address => Emit.backtrace
                    ((if (env.get_address_cookie cpu (address - address % 2)).1 = NO_COOKIE
                          ∨ (env.get_address_cookie cpu (address - address % 2)).1
                            = INVALID_COOKIE
                        then address
                        else (env.get_address_cookie cpu (address - address % 2)).2)
                      - (if (env.get_address_cookie cpu (address - address % 2)).1 = NO_COOKIE
                          ∨ (env.get_address_cookie cpu (address - address % 2)).1
                            = INVALID_COOKIE
                        then address
                        else (env.get_address_cookie cpu (address - address % 2)).2) % 2)
                    (env.get_address_cookie cpu (address - address % 2)).1)) := by
  have count_one : ∀ (h : Emit) (l : List Emit), (∀ e ∈ l, ∃ a c, e = Emit.backtrace a c) →
      (∃ x t p k, h = Emit.backtrace_header x t p k) →
      (h :: (l ++ [Emit.backtrace_footer])).count Emit.backtrace_footer = 1 := by
    intro h l hl hh
    obtain ⟨x, t, p, k, rfl⟩ := hh
    have h0 : l.count Emit.backtrace_footer = 0 := by
      rw [List.count_eq_zero]
      intro hm
      obtain ⟨a, c, e⟩ := hl _ hm
      cases e
    rw [List.count_cons_of_ne (by simp), List.count_append, h0]
    simp
  refine ⟨?_, ?_⟩
  · rintro (h | h)
    · rw [h]
      rfl
    · cases regs with
      | none => rfl
      | some r => simp [gator_add_sample, h]
  · intro r hr hh
    subst hr
    cases hu : r.user_mode with
    | false =>
      have hl : ∀ e ∈ (env.kernel_backtrace cpu r).map fun q => Emit.backtrace q.1 q.2,
          ∃ a c, e = Emit.backtrace a c := by
        intro e he
        obtain ⟨q, -, rfl⟩ := List.mem_map.1 he
        exact ⟨_, _, rfl⟩
      have e : gator_add_sample env gator_backtrace_depth cpu (some r)
          = Emit.backtrace_header (env.get_exec_cookie cpu) env.tgid env.pid (!false)
            :: (((env.kernel_backtrace cpu r).map fun q => Emit.backtrace q.1 q.2)
              ++ [Emit.backtrace_footer]) := by
        simp [gator_add_sample, hh, hu]
      refine ⟨_, e, hl, ?_, fun _ => rfl, fun h => (by cases h)⟩
      rw [e]
      exact count_one _ _ hl ⟨_, _, _, _, rfl⟩
    | true =>
      have hl : ∀ e ∈ gator_add_trace env cpu r.pc
          ++ (if gator_backtrace_depth ≠ 0 then
                (env.arm_backtrace_eabi cpu r gator_backtrace_depth).flatMap
                  (gator_add_trace env cpu)
              else []), ∃ a c, e = Emit.backtrace a c := by
        intro e he
        rcases List.mem_append.1 he with h | h
        · exact add_trace_address env cpu r.pc e h
        · split_ifs at h
          · obtain ⟨x, -, hx⟩ := List.mem_flatMap.1 h
            exact add_trace_address env cpu x e hx
          · cases h
      have e : gator_add_sample env gator_backtrace_depth cpu (some r)
          = Emit.backtrace_header (env.get_exec_cookie cpu) env.tgid env.pid (!true)
            :: ((gator_add_trace env cpu r.pc
              ++ (if gator_backtrace_depth ≠ 0 then
                    (env.arm_backtrace_eabi cpu r gator_backtrace_depth).flatMap
                      (gator_add_trace env cpu)
                  else [])) ++ [Emit.backtrace_footer]) := by
        simp [gator_add_sample, hh, hu]
      refine ⟨_, e, hl, ?_, fun h => (by cases h), fun _ => ?_⟩
      · rw [e]
        exact count_one _ _ hl ⟨_, _, _, _, rfl⟩
      · rw [List.map_cons, add_trace_eq env cpu r.pc, List.singleton_append]
        congr 1
        by_cases hd : gator_backtrace_depth = 0
        · have h0 : ¬ 0 < gator_backtrace_depth := by omega
          rw [if_neg (not_not.2 hd), if_neg h0]
          rfl
        · have h0 : 0 < gator_backtrace_depth := by omega
          rw [if_pos hd, if_pos h0,
            flatMap_add_trace env cpu _ _ (fun a => add_trace_eq env cpu a)]

/-- C15 on a user-mode sample with the program counter at 32769, a depth of
2 and a stack walk that finds 4097 and 4100, where the cookie of 4096 is 7
with offset 17 and no other address has a cookie: the header, the records of
32768 (no cookie), of offset 16 in cookie 7 and of 4100 (no cookie), then the
footer. -/
theorem sample_frame_closed_witness :
    gator_add_sample
      { tgid := 1, pid := 2, get_exec_cookie := fun _ => 5,
        get_address_cookie := fun _ a => if a = 4096 then (7, 17) else (NO_COOKIE, 0),
        marshal_backtrace_header := true, kernel_backtrace := fun _ _ => [],
        arm_backtrace_eabi := fun _ _ _ => [4097, 4100] }
      2 0 (some { user_mode := true, pc := 32769 })
    = [Emit.backtrace_header 5 1 2 false, Emit.backtrace 32768 0, Emit.backtrace 16 7,
        Emit.backtrace 4100 0, Emit.backtrace_footer] := by
  obtain ⟨addresses, e, -, -, -, hu⟩ := (sample_frame_closed
    { tgid := 1, pid := 2, get_exec_cookie := fun _ => 5,
      get_address_cookie := fun _ a => if a = 4096 then (7, 17) else (NO_COOKIE, 0),
      marshal_backtrace_header := true, kernel_backtrace := fun _ _ => [],
      arm_backtrace_eabi := fun _ _ _ => [4097, 4100] }
    2 0 (some { user_mode := true, pc := 32769 })).2 { user_mode := true, pc := 32769 } rfl rfl
  rw [e, hu rfl]
  decide

/-! ## The margins and the summary channel -/

/-- C16 fails on the summary channel, whose capacity of 1024 bytes is below
the margin of 2000: once the flag of a summary slot is false,
`buffer_bytes_available` is negative whatever the cursors are, also when the
slot is fully drained, so `buffer_check_space` refuses every request of 0
bytes or more and leaves the flag false. The other eight capacities are above
both margins. -/
theorem summary_never_recovers (g : State) (cpu : Nat) (bytes : Int)
    (hs : g.gator_buffer_size SUMMARY_BUF = configured_size SUMMARY_BUF)
    (hf : (g.percpu cpu SUMMARY_BUF).space_available = false)
    (hr : (g.percpu cpu SUMMARY_BUF).read < g.gator_buffer_size SUMMARY_BUF)
    (hw : (g.percpu cpu SUMMARY_BUF).write < g.gator_buffer_size SUMMARY_BUF)
    (hb : 0 ≤ bytes) :
    configured_size SUMMARY_BUF < 2000
    ∧ buffer_bytes_available g cpu SUMMARY_BUF < 0
    ∧ (buffer_check_space g cpu SUMMARY_BUF bytes).1 = false
    ∧ ((buffer_check_space g cpu SUMMARY_BUF bytes).2.percpu cpu SUMMARY_BUF).space_available
        = false
    ∧ ∀ i, i < NUM_GATOR_BUFS → i ≠ SUMMARY_BUF → 2000 < configured_size i := by
  have hsize : configured_size SUMMARY_BUF = 1024 := by decide
  have hfill := filled_range g cpu SUMMARY_BUF hr hw
  have hav := buffer_bytes_available_eq g cpu SUMMARY_BUF
  simp only [hf, Bool.false_eq_true, if_false] at hav
  obtain ⟨h1, h2⟩ := check_space_recovering g cpu SUMMARY_BUF bytes hf
  rw [hs, hsize] at hav h1
  have hno : (buffer_check_space g cpu SUMMARY_BUF bytes).1 = false := by
    cases hc : (buffer_check_space g cpu SUMMARY_BUF bytes).1 with
    | false => rfl
    | true =>
      have := h1.1 hc
      push_cast at this
      omega
  refine ⟨by decide, ?_, hno, by rw [h2, hno], ?_⟩
  · rw [hav]
    push_cast
    omega
  · intro i hi hne
    have h : i = 1 ∨ i = 2 ∨ i = 3 ∨ i = 4 ∨ i = 5 ∨ i = 6 ∨ i = 7 ∨ i = 8 := by
      unfold NUM_GATOR_BUFS at hi
      unfold SUMMARY_BUF at hne
      omega
    rcases h with h | h | h | h | h | h | h | h <;> subst h <;> decide

/-- C16 on an empty summary slot of 1024 bytes: a request of 900 bytes is
refused (1024 - 200 is 824), which clears the flag; the slot is still empty
(read and write are both 0), and now even a request of one byte is refused,
with -976 bytes reported available. -/
theorem summary_never_recovers_witness :
    (buffer_check_space (example_state 10 (example_chan (List.replicate 1024 0) 0 0 0))
        0 SUMMARY_BUF 900).1 = false
    ∧ buffer_bytes_available
        (buffer_check_space (example_state 10 (example_chan (List.replicate 1024 0) 0 0 0))
          0 SUMMARY_BUF 900).2 0 SUMMARY_BUF = -976
    ∧ buffer_bytes_available
        (buffer_check_space (example_state 10 (example_chan (List.replicate 1024 0) 0 0 0))
          0 SUMMARY_BUF 900).2 0 SUMMARY_BUF < 0
    ∧ (buffer_check_space
        (buffer_check_space (example_state 10 (example_chan (List.replicate 1024 0) 0 0 0))
          0 SUMMARY_BUF 900).2 0 SUMMARY_BUF 1).1 = false :=
  ⟨by decide, by decide,
   (summary_never_recovers
      (buffer_check_space (example_state 10 (example_chan (List.replicate 1024 0) 0 0 0))
        0 SUMMARY_BUF 900).2 0 1 (by decide) (by decide) (by decide) (by decide)
      (by decide)).2.1,
   (summary_never_recovers
      (buffer_check_space (example_state 10 (example_chan (List.replicate 1024 0) 0 0 0))
        0 SUMMARY_BUF 900).2 0 1 (by decide) (by decide) (by decide) (by decide)
      (by decide)).2.2.1⟩

/-! ## The spans of a read fit the caller's buffer -/

theorem drain_length (g : State) (cpu buftype : Nat) (fault : Bool) :
    ((drain g cpu buftype fault).2.1.length : Int)
      ≤ max 0 (span_lengths (g.gator_buffer_size buftype) (g.percpu cpu buftype).read
          (g.percpu cpu buftype).commit).1
        + max 0 (span_lengths (g.gator_buffer_size buftype) (g.percpu cpu buftype).read
          (g.percpu cpu buftype).commit).2 := by
  unfold drain
  simp only
  generalize span_lengths (g.gator_buffer_size buftype) (g.percpu cpu buftype).read
    (g.percpu cpu buftype).commit = l
  cases (g.percpu cpu buftype).buffer with
  | none =>
    simp only [List.length_nil, Nat.cast_zero]
    omega
  | some buffer =>
    simp only
    split_ifs <;>
      simp only [List.length_nil, List.length_append, List.length_take, Nat.cast_zero,
        Nat.cast_add, Nat.cast_min, add_zero, zero_add] <;> omega

/-- C17: for a channel with its configured capacity, after
`gator_op_create_files` has set the transfer unit size, and a slot whose read
and commit cursors are inside the capacity, the two span lengths of a read are
not negative, their sum is below the capacity, the capacity is at most
`userspace_buffer_size`, which is the `count` of every read that succeeds, and
the first span ends inside the storage. So draining the slot copies fewer
bytes than the caller's buffer holds, and returns fewer. -/
theorem read_spans_fit (g : State) (cpu buftype count offset : Nat) (signal fault : Bool)
    (hs : g.gator_buffer_size buftype = configured_size buftype)
    (hu : g.userspace_buffer_size = (gator_op_create_files g).userspace_buffer_size)
    (hr : (g.percpu cpu buftype).read < g.gator_buffer_size buftype)
    (hc : (g.percpu cpu buftype).commit < g.gator_buffer_size buftype)
    (hok : ∃ res, userspace_buffer_read g count offset signal fault = some res ∧ 0 ≤ res.1) :
    0 ≤ (span_lengths (g.gator_buffer_size buftype) (g.percpu cpu buftype).read
          (g.percpu cpu buftype).commit).1
    ∧ 0 ≤ (span_lengths (g.gator_buffer_size buftype) (g.percpu cpu buftype).read
          (g.percpu cpu buftype).commit).2
    ∧ (span_lengths (g.gator_buffer_size buftype) (g.percpu cpu buftype).read
          (g.percpu cpu buftype).commit).1
        + (span_lengths (g.gator_buffer_size buftype) (g.percpu cpu buftype).read
          (g.percpu cpu buftype).commit).2 < (g.gator_buffer_size buftype : Int)
    ∧ g.gator_buffer_size buftype ≤ g.userspace_buffer_size
    ∧ g.userspace_buffer_size = count
    ∧ ((g.percpu cpu buftype).read : Int)
        + (span_lengths (g.gator_buffer_size buftype) (g.percpu cpu buftype).read
          (g.percpu cpu buftype).commit).1 ≤ (g.gator_buffer_size buftype : Int)
    ∧ (drain g cpu buftype fault).2.1.length < count
    ∧ (drain g cpu buftype fault).1 < (count : Int) := by
  have hcount : g.userspace_buffer_size = count := by
    obtain ⟨res, hres, h0⟩ := hok
    by_contra hne
    have hrej : count ≠ g.userspace_buffer_size ∨ offset ≠ 0 := Or.inl (fun h => hne h.symm)
    simp only [userspace_buffer_read, hrej, if_true, Option.some.injEq] at hres
    rw [← hres] at h0
    exact absurd h0 (by simp [EINVAL])
  have hle : g.gator_buffer_size buftype ≤ g.userspace_buffer_size := by
    rw [hu, hs]
    exact configured_size_le buftype
  have hlen := drain_length g cpu buftype fault
  have hnn : 0 ≤ (span_lengths (g.gator_buffer_size buftype) (g.percpu cpu buftype).read
          (g.percpu cpu buftype).commit).1
        + (span_lengths (g.gator_buffer_size buftype) (g.percpu cpu buftype).read
          (g.percpu cpu buftype).commit).2 := by
    simp only [span_lengths]
    split_ifs <;> simp only <;> omega
  have hret : (drain g cpu buftype fault).1
      ≤ (span_lengths (g.gator_buffer_size buftype) (g.percpu cpu buftype).read
          (g.percpu cpu buftype).commit).1
        + (span_lengths (g.gator_buffer_size buftype) (g.percpu cpu buftype).read
          (g.percpu cpu buftype).commit).2 := by
    unfold drain
    simp only
    generalize span_lengths (g.gator_buffer_size buftype) (g.percpu cpu buftype).read
      (g.percpu cpu buftype).commit = l at hnn ⊢
    cases (g.percpu cpu buftype).buffer with
    | none =>
      show -EFAULT ≤ _
      unfold EFAULT
      omega
    | some buffer =>
      simp only
      by_cases hcnd : (l.1 > 0 ∨ l.2 > 0) ∧ fault = true
      · rw [if_pos hcnd]
        show -EFAULT ≤ _
        unfold EFAULT
        omega
      · rw [if_neg hcnd]
  rw [← hcount]
  clear hnn
  by_cases h : ((g.percpu cpu buftype).commit : Int) - ((g.percpu cpu buftype).read : Int) < 0
  · have e : span_lengths (g.gator_buffer_size buftype) (g.percpu cpu buftype).read
        (g.percpu cpu buftype).commit
        = ((g.gator_buffer_size buftype : Int) - ((g.percpu cpu buftype).read : Int),
            ((g.percpu cpu buftype).commit : Int)) := by
      simp only [span_lengths, h, if_true]
    rw [e] at hlen hret ⊢
    simp only at hlen hret ⊢
    rw [max_eq_right (by omega), max_eq_right (by omega)] at hlen
    refine ⟨?_, ?_, ?_, hle, trivial, ?_, ?_, ?_⟩ <;> omega
  · have e : span_lengths (g.gator_buffer_size buftype) (g.percpu cpu buftype).read
        (g.percpu cpu buftype).commit
        = (((g.percpu cpu buftype).commit : Int) - ((g.percpu cpu buftype).read : Int), 0) := by
      simp only [span_lengths, h, if_false]
    rw [e] at hlen hret ⊢
    simp only at hlen hret ⊢
    rw [max_eq_right (by omega), max_eq_right (le_refl _)] at hlen
    refine ⟨?_, ?_, ?_, hle, trivial, ?_, ?_, ?_⟩ <;> omega

set_option maxRecDepth 20000 in
/-- C17 on a summary slot of 1024 bytes whose committed bytes wrap (read at
1000, commit at 10), read with the transfer unit size of 131072 bytes: the
read succeeds, the 34 bytes copied are fewer than the caller's buffer holds
and the first span ends at the end of the storage. -/
theorem read_spans_fit_witness :
    (∃ res, userspace_buffer_read
        (gator_op_create_files (example_state 10 (example_chan (List.replicate 1024 7) 1000 10 10)))
        131072 0 false false = some res ∧ 0 ≤ res.1)
    ∧ (drain
        (gator_op_create_files (example_state 10 (example_chan (List.replicate 1024 7) 1000 10 10)))
        0 SUMMARY_BUF false).2.1.length < 131072
    ∧ (drain
        (gator_op_create_files (example_state 10 (example_chan (List.replicate 1024 7) 1000 10 10)))
        0 SUMMARY_BUF false).1 = 34 :=
  ⟨⟨_, rfl, by decide⟩,
   (read_spans_fit
      (gator_op_create_files (example_state 10 (example_chan (List.replicate 1024 7) 1000 10 10)))
      0 SUMMARY_BUF 131072 0 false false (by decide) rfl (by decide) (by decide)
      ⟨_, rfl, by decide⟩).2.2.2.2.2.2.1,
   by decide⟩

end Gator
